import Mathlib

/-! The routing balancer and picker of apus-run/bone.

A shallow embedding of `src/balancer` (the gRPC load-balancing policy
`routing_round_robin`) together with the properties stated about it.

* `types.go`            : the routing-intent carrier (`WithExcludedNodeID`, ...).
* `routing_picker.go`   : `routingPicker`, `Pick`, `pickRoundRobin`.
* `routing_balancer.go` : `routingBalancer` and its four maps.

Conventions of the embedding.

* A `balancer.SubConn` is an interface value compared by identity; it is a `Nat`.
* `uint32` arithmetic is arithmetic on `Nat` reduced modulo `2 ^ 32`.
* Go's `int` is taken to be 64 bits wide, so `int(x)` of a `uint32` is `x` itself.
* A run-time panic (index out of range) is the outcome `none`.
-/

namespace Bone

/-! ## `types.go`: the routing-intent carrier -/

/-- A key of a `context.Context`: a value of the package's string type `contextKey`,
or a key of some other type. -/
inductive CtxKey where
  | contextKey (s : String)
  | foreign (n : Nat)
  deriving DecidableEq, Repr

/-- A value of Go's type `any`, as far as the package tells values apart: a string or
something else (nil included). -/
inductive AnyValue where
  | str (s : String)
  | foreign (n : Nat)
  deriving DecidableEq, Repr

/-- A `context.Context`, as the chain of its `WithValue` bindings, innermost first. -/
abbrev Context := List (CtxKey × AnyValue)

/-- The method `ctx.Value(key)`: the innermost binding of the key, `none` for Go's nil. -/
def Context.Value : Context → CtxKey → Option AnyValue
  | [], _ => none
  | (k, v) :: rest, key => if k = key then some v else Context.Value rest key

/-- The function `context.WithValue`. -/
def Context.WithValue (ctx : Context) (key : CtxKey) (val : AnyValue) : Context :=
  (key, val) :: ctx

def ExcludedNodeIDContextKey : CtxKey := CtxKey.contextKey "excluded_node_id"

def SpecificNodeIDContextKey : CtxKey := CtxKey.contextKey "specific_node_id"

/-- The type assertion `v.(string)` in its two-result form. -/
def assertString : Option AnyValue → String × Bool
  | some (AnyValue.str s) => (s, true)
  | _ => ("", false)

def WithExcludedNodeID (ctx : Context) (nodeID : String) : Context :=
  if nodeID = "" then ctx
  else ctx.WithValue ExcludedNodeIDContextKey (AnyValue.str nodeID)

def GetExcludeNode (ctx : Context) : String × Bool :=
  let (nodeID, ok) := assertString (ctx.Value ExcludedNodeIDContextKey)
  (nodeID, ok && decide (nodeID ≠ ""))

def WithSpecificNodeID (ctx : Context) (nodeID : String) : Context :=
  if nodeID = "" then ctx
  else ctx.WithValue SpecificNodeIDContextKey (AnyValue.str nodeID)

def GetSpecificNodeID (ctx : Context) : String × Bool :=
  let (nodeID, ok) := assertString (ctx.Value SpecificNodeIDContextKey)
  (nodeID, ok && decide (nodeID ≠ ""))

/-! ## `routing_picker.go` -/

/-- A connection handle (`balancer.SubConn`). -/
abbrev SubConn := Nat

/-- The errors a picker returns: `balancer.ErrNoSubConnAvailable`, or a gRPC status
error with code `codes.Unavailable` and a message. -/
inductive PickError where
  | ErrNoSubConnAvailable
  | Unavailable (msg : String)
  deriving DecidableEq, Repr

/-- The struct `balancer.PickResult`: `SubConn` is `none` for the nil interface,
`Done` tells whether a completion callback is attached. -/
structure PickResult where
  SubConn : Option SubConn
  Done : Bool
  deriving DecidableEq, Repr

/-- The struct `balancer.PickInfo`, reduced to the field the picker reads. -/
structure PickInfo where
  Ctx : Context
  deriving DecidableEq, Repr

structure routingPicker where
  subConns : List SubConn
  nodeIDs : List String
  next : Nat
  deriving DecidableEq, Repr

def newRoutingPicker (subConns : List SubConn) (nodeIDs : List String) : routingPicker :=
  { subConns := subConns, nodeIDs := nodeIDs, next := 0 }

/-- What a call of `Pick` yields: `none` is a run-time panic, otherwise the pair
`(PickResult, error)` that Go returns, `none` standing for the nil error. -/
abbrev PickOutcome := Option (PickResult × Option PickError)

/-- The value `atomic.AddUint32(addr, 1)` stores and returns. -/
def AddUint32 (old : Nat) : Nat := (old + 1) % 2 ^ 32

/-- The expression `int(next-1)`: the subtraction wraps in `uint32`, the conversion
to a 64-bit `int` keeps the value. -/
def prevAsInt (next : Nat) : Nat := (next + 2 ^ 32 - 1) % 2 ^ 32

def pickRoundRobin (p : routingPicker) : PickOutcome × routingPicker :=
  let next := AddUint32 p.next
  let p' := { p with next := next }
  if p.subConns.length = 0 then (none, p')
  else
    let idx := prevAsInt next % p.subConns.length
    match p.subConns[idx]? with
    | none => (none, p')
    | some sc => (some ({ SubConn := some sc, Done := true }, none), p')

/-- The loop `for i := range p.nodeIDs` of `Pick`: the first index, counted from `i`,
whose nodeID equals the requested one. -/
def findSpecific (specificNodeID : String) : List String → Nat → Option Nat
  | [], _ => none
  | nodeID :: rest, i =>
    if nodeID = specificNodeID then some i else findSpecific specificNodeID rest (i + 1)

/-- The loop of `Pick` that collects `candidateIndexes`, counted from `i`. -/
def candidateIndexes (excludeNodeID : String) : List String → Nat → List Nat
  | [], _ => []
  | nodeID :: rest, i =>
    if nodeID ≠ excludeNodeID then i :: candidateIndexes excludeNodeID rest (i + 1)
    else candidateIndexes excludeNodeID rest (i + 1)

def unavailableSpecific (specificNodeID : String) : PickError :=
  PickError.Unavailable ("指定的节点不可用: " ++ specificNodeID)

def unavailableExcluded (excludeNodeID : String) : PickError :=
  PickError.Unavailable ("所有可用节点都被排除，排除节点: " ++ excludeNodeID)

def Pick (p : routingPicker) (info : PickInfo) : PickOutcome × routingPicker :=
  if p.subConns.length = 0 then
    (some ({ SubConn := none, Done := false }, some PickError.ErrNoSubConnAvailable), p)
  else
    let (specificNodeID, hasSpecific) := GetSpecificNodeID info.Ctx
    if hasSpecific then
      match findSpecific specificNodeID p.nodeIDs 0 with
      | some i =>
        match p.subConns[i]? with
        | none => (none, p)
        | some sc => (some ({ SubConn := some sc, Done := false }, none), p)
      | none =>
        (some ({ SubConn := none, Done := false }, some (unavailableSpecific specificNodeID)), p)
    else
      let (excludeNodeID, hasExclude) := GetExcludeNode info.Ctx
      if !hasExclude || p.subConns.length = 1 then pickRoundRobin p
      else
        let cands := candidateIndexes excludeNodeID p.nodeIDs 0
        if cands.length = 0 then
          if p.subConns.length > 0 then pickRoundRobin p
          else
            (some ({ SubConn := none, Done := false }, some (unavailableExcluded excludeNodeID)), p)
        else
          let next := AddUint32 p.next
          let p' := { p with next := next }
          let selectedIdxInCandidates := prevAsInt next % cands.length
          match cands[selectedIdxInCandidates]? with
          | none => (none, p')
          | some idx =>
            match p.subConns[idx]? with
            | none => (none, p')
            | some selectedConn => (some ({ SubConn := some selectedConn, Done := false }, none), p')

/-- Consecutive calls of `Pick` on one picker, the counter being carried from call to
call: the outcomes in call order, and the picker afterwards. -/
def pickSeq : routingPicker → List PickInfo → List PickOutcome × routingPicker
  | p, [] => ([], p)
  | p, info :: rest =>
    let r := Pick p info
    let rs := pickSeq r.2 rest
    (r.1 :: rs.1, rs.2)

/-- The handle an outcome carries, if the call returned one without an error. -/
def PickOutcome.handle : PickOutcome → Option SubConn
  | some (r, none) => r.SubConn
  | _ => none

/-! ### The round-robin rule, as a specification -/

/-- The handles of the snapshot whose nodeID differs from `X`, in snapshot order. -/
def handlesExcluding (p : routingPicker) (X : String) : List SubConn :=
  ((p.subConns.zip p.nodeIDs).filter (fun e => decide (e.2 ≠ X))).map Prod.fst

/-- The eligible sequence of a call without preferred-node intent: the handles whose
nodeID differs from the excluded id when an excluded-node intent is present, the
snapshot holds at least two connections and some handle remains; the full handle
sequence otherwise. -/
def eligibleHandles (p : routingPicker) (info : PickInfo) : List SubConn :=
  if (GetExcludeNode info.Ctx).2 = true ∧ 2 ≤ p.subConns.length ∧
      handlesExcluding p (GetExcludeNode info.Ctx).1 ≠ [] then
    handlesExcluding p (GetExcludeNode info.Ctx).1
  else p.subConns

/-! ## `routing_balancer.go` -/

/-- The bag `*attributes.Attributes` behind a non-nil pointer: `ptr` stands for the
pointer's identity (Go compares the field as a pointer), `m` for the key/value pairs. -/
structure Attributes where
  ptr : Nat
  m : List (AnyValue × AnyValue)
  deriving DecidableEq, Repr

/-- The method `Attributes.Value`: the value stored under the key, `none` for nil. -/
def Attributes.Value (a : Attributes) (key : AnyValue) : Option AnyValue :=
  (a.m.find? (fun kv => decide (kv.1 = key))).map Prod.snd

/-- The struct `resolver.Address`, a comparable map key: `Attributes` is `none` for the
nil pointer, `other` stands for the fields the balancer only compares (`ServerName`,
`BalancerAttributes`, `Metadata`). -/
structure Address where
  Addr : String
  Attributes : Option Attributes
  other : Nat
  deriving DecidableEq, Repr

inductive ConnectivityState where
  | Idle
  | Connecting
  | Ready
  | TransientFailure
  | Shutdown
  deriving DecidableEq, Repr

/-- A published picker: the library's `base.NewErrPicker(err)`, or a `routingPicker`. -/
inductive Picker where
  | errPicker (err : PickError)
  | routing (p : routingPicker)
  deriving DecidableEq, Repr

/-- The struct `balancer.State`. -/
structure State where
  ConnectivityState : ConnectivityState
  Picker : Picker
  deriving DecidableEq, Repr

/-- A call the balancer makes on the transport: on the `balancer.ClientConn` or on a
`balancer.SubConn`. -/
inductive Call where
  | NewSubConn (addr : Address) (result : Option SubConn)
  | Connect (sc : SubConn)
  | Shutdown (sc : SubConn)
  | UpdateState (s : State)
  deriving DecidableEq, Repr

/-- The `balancer.ClientConn` the balancer talks to. `factory i` is what the `i`-th
call of `NewSubConn` returns (`none` for an error), `made` counts these calls, and
`calls` records every call made on the transport, oldest first. -/
structure ClientConn where
  factory : Nat → Option SubConn
  made : Nat
  calls : List Call

def ClientConn.record (cc : ClientConn) (c : Call) : ClientConn :=
  { cc with calls := cc.calls ++ [c] }

def ClientConn.NewSubConn (cc : ClientConn) (addr : Address) : Option SubConn × ClientConn :=
  let r := cc.factory cc.made
  (r, { cc with made := cc.made + 1, calls := cc.calls ++ [Call.NewSubConn addr r] })

/-- The state last handed to `cc.UpdateState`, which holds the active picker. -/
def ClientConn.published (cc : ClientConn) : Option State :=
  cc.calls.reverse.findSome? (fun c =>
    match c with
    | Call.UpdateState s => some s
    | _ => none)

/-- The method `Pick` of a published picker; an `errPicker` returns its error. -/
def Picker.Pick : Picker → PickInfo → PickOutcome × Picker
  | Picker.errPicker err, _ =>
    (some ({ SubConn := none, Done := false }, some err), Picker.errPicker err)
  | Picker.routing p, info =>
    let r := Bone.Pick p info
    (r.1, Picker.routing r.2)

/-- The balancer. A Go map is an association list with distinct keys, ranged over in
list order (Go leaves the order unspecified). `closed` tells that `Close` has replaced
the four maps by nil; a nil map reads as the empty map and must not be written. -/
structure routingBalancer where
  cc : ClientConn
  subConnMap : AList (fun _ : Address => SubConn)
  scToAddrMap : AList (fun _ : SubConn => Address)
  nodeIDMap : AList (fun _ : Address => String)
  readySCs : AList (fun _ : SubConn => String)
  closed : Bool

def newRoutingBalancer (cc : ClientConn) : routingBalancer :=
  { cc := cc, subConnMap := ∅, scToAddrMap := ∅, nodeIDMap := ∅, readySCs := ∅,
    closed := false }

def extractNodeID (addr : Address) : String :=
  match addr.Attributes with
  | some attrs =>
    match attrs.Value (AnyValue.str "nodeID") with
    | some (AnyValue.str nodeIDStr) => nodeIDStr
    | _ => addr.Addr
  | none => addr.Addr

structure ResolverState where
  Addresses : List Address
  deriving DecidableEq, Repr

structure ClientConnState where
  ResolverState : ResolverState
  deriving DecidableEq, Repr

structure SubConnState where
  ConnectivityState : ConnectivityState
  deriving DecidableEq, Repr

/-- The set `newAddrs` of `UpdateClientConnState`, in the order it is ranged over. -/
def newAddrsOf (state : ClientConnState) : List Address :=
  state.ResolverState.Addresses.dedup

/-- One round of the loop of `UpdateClientConnState` that removes connections. -/
def removeStep (newAddrs : List Address) (b : routingBalancer)
    (e : Sigma (fun _ : Address => SubConn)) : routingBalancer :=
  if e.1 ∈ newAddrs then b
  else
    { b with
      cc := b.cc.record (Call.Shutdown e.2)
      subConnMap := b.subConnMap.erase e.1
      scToAddrMap := b.scToAddrMap.erase e.2
      nodeIDMap := b.nodeIDMap.erase e.1 }

/-- The loop of `UpdateClientConnState` that removes connections: it ranges over the
entries of `subConnMap`. -/
def removeLoop (newAddrs : List Address) (b : routingBalancer) : routingBalancer :=
  b.subConnMap.entries.foldl (removeStep newAddrs) b

/-- The loop of `UpdateClientConnState` that adds connections; `none` is the panic of
an assignment to an entry of a nil map. -/
def addLoop : List Address → routingBalancer → Option routingBalancer
  | [], b => some b
  | addr :: rest, b =>
    if addr ∈ b.subConnMap then addLoop rest b
    else
      match b.cc.NewSubConn addr with
      | (none, cc') => addLoop rest { b with cc := cc' }
      | (some sc, cc') =>
        if b.closed then none
        else
          addLoop rest
            { b with
              cc := cc'.record (Call.Connect sc)
              subConnMap := b.subConnMap.insert addr sc
              scToAddrMap := b.scToAddrMap.insert sc addr
              nodeIDMap := b.nodeIDMap.insert addr (extractNodeID addr) }

/-- The method `UpdateClientConnState`: `none` is a panic, otherwise the error it
returns (always nil, `none`) and the balancer afterwards. -/
def UpdateClientConnState (b : routingBalancer) (state : ClientConnState) :
    Option (Option String × routingBalancer) :=
  let newAddrs := newAddrsOf state
  (addLoop newAddrs (removeLoop newAddrs b)).map (fun b2 => (none, b2))

def updatePicker (b : routingBalancer) : routingBalancer :=
  if b.readySCs.entries.length = 0 then
    { b with
      cc := b.cc.record (Call.UpdateState
        { ConnectivityState := ConnectivityState.TransientFailure
          Picker := Picker.errPicker PickError.ErrNoSubConnAvailable }) }
  else
    let readyConns := b.readySCs.entries.map (fun e => e.1)
    let nodeIDs := b.readySCs.entries.map (fun e => e.2)
    { b with
      cc := b.cc.record (Call.UpdateState
        { ConnectivityState := ConnectivityState.Ready
          Picker := Picker.routing (newRoutingPicker readyConns nodeIDs) }) }

def UpdateSubConnState (b : routingBalancer) (sc : SubConn) (state : SubConnState) :
    routingBalancer :=
  match b.scToAddrMap.lookup sc with
  | none => b
  | some addr =>
    match state.ConnectivityState with
    | ConnectivityState.Ready =>
      updatePicker
        { b with readySCs := b.readySCs.insert sc ((b.nodeIDMap.lookup addr).getD "") }
    | ConnectivityState.Idle | ConnectivityState.Connecting
    | ConnectivityState.TransientFailure =>
      updatePicker { b with readySCs := b.readySCs.erase sc }
    | ConnectivityState.Shutdown =>
      updatePicker
        { b with
          subConnMap := b.subConnMap.erase addr
          scToAddrMap := b.scToAddrMap.erase sc
          nodeIDMap := b.nodeIDMap.erase addr
          readySCs := b.readySCs.erase sc }

def Close (b : routingBalancer) : routingBalancer :=
  { cc := b.subConnMap.entries.foldl (fun cc e => cc.record (Call.Shutdown e.2)) b.cc
    subConnMap := ∅
    scToAddrMap := ∅
    nodeIDMap := ∅
    readySCs := ∅
    closed := true }

/-- An operation the environment performs on the balancer: a resolution update or a
state-change notification. -/
inductive Op where
  | resolve (state : ClientConnState)
  | notify (sc : SubConn) (state : SubConnState)
  deriving DecidableEq, Repr

def step (b : routingBalancer) : Op → Option routingBalancer
  | Op.resolve state => (UpdateClientConnState b state).map Prod.snd
  | Op.notify sc state => some (UpdateSubConnState b sc state)

/-- The operations of a list applied one after the other; `none` once one panics. -/
def run : routingBalancer → List Op → Option routingBalancer
  | b, [] => some b
  | b, op :: rest =>
    match step b op with
    | none => none
    | some b' => run b' rest

/-- How often the balancer has called `Shutdown` on the handle. -/
def shutdownCount (cc : ClientConn) (sc : SubConn) : Nat :=
  cc.calls.count (Call.Shutdown sc)

/-! ### Assumptions on the transport and invariants of the balancer -/

/-- The transport factory returns a handle distinct from every handle it returned
before. -/
def FreshFactory (factory : Nat → Option SubConn) : Prop :=
  ∀ i j h, factory i = some h → factory j = some h → i = j

/-- The handle was returned by one of the `NewSubConn` calls made so far. -/
def ClientConn.Created (cc : ClientConn) (h : SubConn) : Prop :=
  ∃ i, i < cc.made ∧ cc.factory i = some h

instance ClientConn.decidableCreated (cc : ClientConn) (h : SubConn) :
    Decidable (cc.Created h) :=
  inferInstanceAs (Decidable (∃ i, i < cc.made ∧ cc.factory i = some h))

/-- The entries the removing loop of `UpdateClientConnState` drops. -/
def droppedEntries (newAddrs : List Address)
    (l : List (Sigma (fun _ : Address => SubConn))) :
    List (Sigma (fun _ : Address => SubConn)) :=
  l.filter (fun e => decide (e.1 ∉ newAddrs))

/-- The registry invariant: the balancer is not closed, the forward and reverse maps
are mutually inverse, and the handles in the reverse map and in the usable set were
created by the transport. -/
structure RegistryInv (b : routingBalancer) : Prop where
  isOpen : b.closed = false
  inverse : ∀ a h, b.subConnMap.lookup a = some h ↔ b.scToAddrMap.lookup h = some a
  regCreated : ∀ h a, b.scToAddrMap.lookup h = some a → b.cc.Created h
  readyCreated : ∀ h, h ∈ b.readySCs → b.cc.Created h

/-- The shutdown invariant: `Shutdown` was called at most once on any handle, only on
handles the transport created, and on no handle that is still registered. -/
structure ShutdownInv (b : routingBalancer) : Prop where
  shutOnce : ∀ h, shutdownCount b.cc h ≤ 1
  shutCreated : ∀ h, 0 < shutdownCount b.cc h → b.cc.Created h
  regNotShut : ∀ h a, b.scToAddrMap.lookup h = some a → shutdownCount b.cc h = 0

/-- The state of the most recent notification delivered for the handle, if any. -/
def lastNotified : List Op → SubConn → Option ConnectivityState
  | [], _ => none
  | op :: rest, sc =>
    match lastNotified rest sc with
    | some s => some s
    | none =>
      match op with
      | Op.notify sc' state => if sc' = sc then some state.ConnectivityState else none
      | Op.resolve _ => none

/-- The transport delivers a notification only for a handle it has created: the check
of a sequence of operations, run from the given balancer. -/
def wellDelivered : routingBalancer → List Op → Bool
  | _, [] => true
  | b, op :: rest =>
    (match op with
      | Op.notify sc _ => decide (b.cc.Created sc)
      | Op.resolve _ => true) &&
    (match step b op with
      | some b' => wellDelivered b' rest
      | none => true)

/-- A notification reporting Shutdown for the handle is among the operations. -/
def shutdownNotified (ops : List Op) (sc : SubConn) : Bool :=
  ops.any (fun op =>
    match op with
    | Op.notify sc' state =>
      decide (sc' = sc ∧ state.ConnectivityState = ConnectivityState.Shutdown)
    | Op.resolve _ => false)

/-- Some resolution update of the run, started from the given balancer, dropped the
address the handle was registered for: the handle is among those the removing loop
ranges over. -/
def droppedByUpdate : routingBalancer → List Op → SubConn → Bool
  | _, [], _ => false
  | b, op :: rest, h =>
    (match op with
      | Op.resolve state =>
        decide (h ∈ (droppedEntries (newAddrsOf state) b.subConnMap.entries).map
          (fun e => e.2))
      | Op.notify _ _ => false) ||
    (match step b op with
      | some b' => droppedByUpdate b' rest h
      | none => false)

/-- What the adding loop, run over the duplicate-free list `l`, does: `b` is the
balancer before, `b'` the balancer after, `adds` the calls it makes, oldest first. -/
structure AddEffect (l : List Address) (b b' : routingBalancer) (adds : List Call) :
    Prop where
  isOpen : b'.closed = false
  ready : b'.readySCs = b.readySCs
  factory : b'.cc.factory = b.cc.factory
  made : b.cc.made ≤ b'.cc.made
  calls : b'.cc.calls = b.cc.calls ++ adds
  kept : ∀ a, a ∈ b.subConnMap →
    b'.subConnMap.lookup a = b.subConnMap.lookup a ∧
    b'.nodeIDMap.lookup a = b.nodeIDMap.lookup a
  outside : ∀ a, a ∉ l →
    b'.subConnMap.lookup a = b.subConnMap.lookup a ∧
    b'.nodeIDMap.lookup a = b.nodeIDMap.lookup a
  kind : ∀ c ∈ adds,
    (∃ a r, c = Call.NewSubConn a r ∧ a ∈ l ∧ a ∉ b.subConnMap) ∨
    (∃ sc i, c = Call.Connect sc ∧ b.cc.made ≤ i ∧ b.cc.factory i = some sc)
  result : ∀ a r, Call.NewSubConn a r ∈ adds → b'.subConnMap.lookup a = r
  nodeFail : ∀ a, Call.NewSubConn a none ∈ adds →
    b'.nodeIDMap.lookup a = b.nodeIDMap.lookup a
  nodeOk : ∀ a sc, Call.NewSubConn a (some sc) ∈ adds →
    b'.nodeIDMap.lookup a = some (extractNodeID a)
  connect : ∀ a sc, Call.NewSubConn a (some sc) ∈ adds →
    ∃ pre post, adds = pre ++ Call.NewSubConn a (some sc) :: Call.Connect sc :: post
  attempted : ∀ a, a ∈ l → a ∉ b.subConnMap → ∃ r, Call.NewSubConn a r ∈ adds
  reverse : ∀ h x, b'.scToAddrMap.lookup h = some x →
    b.scToAddrMap.lookup h = some x ∨ Call.NewSubConn x (some h) ∈ adds

/-- The consistency of the maps that needs no assumption on the transport: the balancer
is not closed, every reverse entry has its forward entry, and `nodeIDMap` holds, for
exactly the registered addresses, the nodeID extracted from the address. -/
structure NodeInv (b : routingBalancer) : Prop where
  isOpen : b.closed = false
  revFwd : ∀ h a, b.scToAddrMap.lookup h = some a → b.subConnMap.lookup a = some h
  nodeReg : ∀ a, a ∈ b.subConnMap → b.nodeIDMap.lookup a = some (extractNodeID a)
  nodeUnreg : ∀ a, a ∉ b.subConnMap → b.nodeIDMap.lookup a = none

/-- A transport whose first `NewSubConn` call fails and whose later calls return the
handles 101, 102, ... -/
def flakyConn : ClientConn :=
  { factory := fun i => if i = 0 then none else some (100 + i), made := 0, calls := [] }

/-- An address whose attribute bag stores the nodeID "n1". -/
def addrN : Address :=
  { Addr := "n:1",
    Attributes := some { ptr := 1, m := [(AnyValue.str "nodeID", AnyValue.str "n1")] },
    other := 0 }

/-! ### The removal scenario -/

/-- A transport whose `i`-th created handle is `100 + i`, with no call made yet. -/
def countingConn : ClientConn :=
  { factory := fun i => some (100 + i), made := 0, calls := [] }

def addrA : Address := { Addr := "a:1", Attributes := none, other := 0 }

def addrB : Address := { Addr := "b:1", Attributes := none, other := 0 }

/-- The scenario: addresses A and B are resolved, both handles (100 for A, 101 for B)
report Ready, A is dropped by the next update, the transport then reports Shutdown
for A's handle and Ready once more for B's handle. -/
def removalScenario : List Op :=
  [ Op.resolve ⟨⟨[addrA, addrB]⟩⟩,
    Op.notify 100 ⟨ConnectivityState.Ready⟩,
    Op.notify 101 ⟨ConnectivityState.Ready⟩,
    Op.resolve ⟨⟨[addrB]⟩⟩,
    Op.notify 100 ⟨ConnectivityState.Shutdown⟩,
    Op.notify 101 ⟨ConnectivityState.Ready⟩ ]

/-- The scenario of a late shutdown: address A is resolved, its handle 100 reports
Ready, the next update drops A, and the transport then reports Shutdown for handle
100. -/
def lateShutdownScenario : List Op :=
  [ Op.resolve ⟨⟨[addrA]⟩⟩,
    Op.notify 100 ⟨ConnectivityState.Ready⟩,
    Op.resolve ⟨⟨[]⟩⟩,
    Op.notify 100 ⟨ConnectivityState.Shutdown⟩ ]

/-- The scenario of a processed shutdown: addresses A and B are resolved, handle 100
reports Ready and then Shutdown while A is still registered, and the transport
reports Ready for handle 100 once more. -/
def processedShutdownScenario : List Op :=
  [ Op.resolve ⟨⟨[addrA, addrB]⟩⟩,
    Op.notify 100 ⟨ConnectivityState.Ready⟩,
    Op.notify 100 ⟨ConnectivityState.Shutdown⟩,
    Op.notify 100 ⟨ConnectivityState.Ready⟩ ]

/-! ## Facts about the picker -/

theorem prevAsInt_AddUint32 (c : Nat) : prevAsInt (AddUint32 c) = c % 2 ^ 32 := by
  unfold prevAsInt AddUint32
  omega

theorem findSpecific_none (x : String) (l : List String) (i : Nat) :
    findSpecific x l i = none ↔ x ∉ l := by
  induction l generalizing i with
  | nil => simp [findSpecific]
  | cons a rest ih =>
    by_cases h : a = x
    · simp [findSpecific, h]
    · have h' : ¬ x = a := fun e => h e.symm
      simp [findSpecific, h, h', ih]

theorem findSpecific_first (x : String) (l : List String) (i j : Nat)
    (hj : l[j]? = some x) (hfirst : ∀ k < j, l[k]? ≠ some x) :
    findSpecific x l i = some (i + j) := by
  induction l generalizing i j with
  | nil => simp at hj
  | cons a rest ih =>
    cases j with
    | zero =>
      simp at hj
      simp [findSpecific, hj]
    | succ j =>
      have h0 : a ≠ x := by
        intro e
        exact hfirst 0 (Nat.succ_pos j) (by simp [e])
      have hrest : ∀ k < j, rest[k]? ≠ some x := by
        intro k hk
        have := hfirst (k + 1) (by omega)
        simpa using this
      have hj' : rest[j]? = some x := by simpa using hj
      simp [findSpecific, h0, ih (i + 1) j hj' hrest]
      omega

theorem mem_candidateIndexes (x : String) (l : List String) (i k : Nat) :
    k ∈ candidateIndexes x l i ↔ ∃ j id, k = i + j ∧ l[j]? = some id ∧ id ≠ x := by
  induction l generalizing i with
  | nil => simp [candidateIndexes]
  | cons a rest ih =>
    have key : (∃ j id, k = i + j ∧ (a :: rest)[j]? = some id ∧ id ≠ x) ↔
        ((k = i ∧ a ≠ x) ∨ ∃ j id, k = i + 1 + j ∧ rest[j]? = some id ∧ id ≠ x) := by
      constructor
      · rintro ⟨j, id, hk, hget, hne⟩
        cases j with
        | zero =>
          simp at hget
          left
          exact ⟨by omega, by rw [hget]; exact hne⟩
        | succ j =>
          right
          exact ⟨j, id, by omega, by simpa using hget, hne⟩
      · rintro (⟨hk, hne⟩ | ⟨j, id, hk, hget, hne⟩)
        · exact ⟨0, a, by omega, by simp, hne⟩
        · exact ⟨j + 1, id, by omega, by simpa using hget, hne⟩
    rw [key]
    by_cases h : a = x
    · simp [candidateIndexes, h, ih]
    · simp [candidateIndexes, h, ih]

theorem candidateIndexes_length_eq_zero (x : String) (l : List String) (i : Nat) :
    (candidateIndexes x l i).length = 0 ↔ ∀ id ∈ l, id = x := by
  induction l generalizing i with
  | nil => simp [candidateIndexes]
  | cons a rest ih =>
    by_cases h : a = x
    · simp [candidateIndexes, h, ih]
    · simp [candidateIndexes, h]

/-- Without routing intent `Pick` on a non-empty picker is `pickRoundRobin`. -/
theorem Pick_no_intent (p : routingPicker) (info : PickInfo)
    (hN : 1 ≤ p.subConns.length)
    (hspec : (GetSpecificNodeID info.Ctx).2 = false)
    (hexc : (GetExcludeNode info.Ctx).2 = false) :
    Pick p info = pickRoundRobin p := by
  have h0 : p.subConns.length ≠ 0 := by omega
  unfold Pick
  rw [if_neg h0]
  rcases hs : GetSpecificNodeID info.Ctx with ⟨s, b⟩
  rw [hs] at hspec
  simp only at hspec
  subst hspec
  rcases he : GetExcludeNode info.Ctx with ⟨e, b'⟩
  rw [he] at hexc
  simp only at hexc
  subst hexc
  simp

/-- The outcome of plain round robin on a non-empty picker. -/
theorem pickRoundRobin_eq (p : routingPicker) (hN : 1 ≤ p.subConns.length) :
    ∃ h, p.subConns[p.next % 2 ^ 32 % p.subConns.length]? = some h ∧
      pickRoundRobin p
        = (some (⟨some h, true⟩, none), { p with next := AddUint32 p.next }) := by
  have h0 : p.subConns.length ≠ 0 := by omega
  have hlt : p.next % 2 ^ 32 % p.subConns.length < p.subConns.length :=
    Nat.mod_lt _ (by omega)
  refine ⟨p.subConns[p.next % 2 ^ 32 % p.subConns.length], ?_, ?_⟩
  · exact List.getElem?_eq_getElem hlt
  · unfold pickRoundRobin
    simp only [if_neg h0, prevAsInt_AddUint32]
    rw [List.getElem?_eq_getElem hlt]

/-- With an excluded-node intent and some other node in the snapshot, one call of
`Pick` returns a handle whose index carries another nodeID, and only the counter moves. -/
theorem Pick_excluded (p : routingPicker) (info : PickInfo) (X : String)
    (hlen : p.subConns.length = p.nodeIDs.length) (hN : 1 ≤ p.subConns.length)
    (hspec : (GetSpecificNodeID info.Ctx).2 = false)
    (hexc : GetExcludeNode info.Ctx = (X, true))
    (halt : ∃ id ∈ p.nodeIDs, id ≠ X) :
    (∃ (r : PickResult) (h : SubConn) (i : Nat) (id : String), (Pick p info).1 = some (r, none) ∧ r.SubConn = some h ∧
      p.subConns[i]? = some h ∧ p.nodeIDs[i]? = some id ∧ id ≠ X) ∧
    (Pick p info).2 = { p with next := AddUint32 p.next } := by
  have h0 : p.subConns.length ≠ 0 := by omega
  rcases hs : GetSpecificNodeID info.Ctx with ⟨s, b⟩
  rw [hs] at hspec
  simp only at hspec
  subst hspec
  by_cases h1 : p.subConns.length = 1
  · -- a single connection: plain round robin, and its nodeID is not the excluded one
    have hP : Pick p info = pickRoundRobin p := by
      unfold Pick
      rw [if_neg h0, hs, hexc]
      simp [h1]
    obtain ⟨h, hget, hrr⟩ := pickRoundRobin_eq p hN
    rw [hP, hrr]
    obtain ⟨id, hid, hne⟩ := halt
    have hl : p.nodeIDs.length = 1 := by omega
    obtain ⟨a, ha⟩ := List.length_eq_one.mp hl
    rw [ha] at hid
    simp at hid
    subst hid
    refine ⟨⟨⟨some h, true⟩, h, 0, id, rfl, rfl, ?_, ?_, hne⟩, rfl⟩
    · simpa [h1, Nat.mod_one] using hget
    · simp [ha]
  · have hc : (candidateIndexes X p.nodeIDs 0).length ≠ 0 := by
      intro hz
      obtain ⟨id, hid, hne⟩ := halt
      exact hne ((candidateIndexes_length_eq_zero X p.nodeIDs 0).mp hz id hid)
    have hlt : prevAsInt (AddUint32 p.next) % (candidateIndexes X p.nodeIDs 0).length
        < (candidateIndexes X p.nodeIDs 0).length := Nat.mod_lt _ (by omega)
    have hmem := List.getElem_mem hlt
    obtain ⟨j, id, hk, hget, hne⟩ := (mem_candidateIndexes X p.nodeIDs 0 _).mp hmem
    have hj : j < p.nodeIDs.length := by
      by_contra hge
      rw [List.getElem?_eq_none (by omega)] at hget
      cases hget
    have hj' : j < p.subConns.length := by omega
    have hidx : (candidateIndexes X p.nodeIDs 0)[prevAsInt (AddUint32 p.next) %
        (candidateIndexes X p.nodeIDs 0).length]? = some j := by
      rw [List.getElem?_eq_getElem hlt, hk]
      simp
    have hP : Pick p info = (some (⟨some p.subConns[j], false⟩, none),
        { p with next := AddUint32 p.next }) := by
      unfold Pick
      rw [if_neg h0, hs, hexc]
      simp only [h1, hc, hidx, List.getElem?_eq_getElem hj']
      simp
    rw [hP]
    exact ⟨⟨_, p.subConns[j], j, id, rfl, rfl, List.getElem?_eq_getElem hj', hget, hne⟩, rfl⟩

/-- C1. Excluded node is never selected when an alternative exists: on a picker with
equal-length sequences of length at least one, whatever the counter, a call without
preferred-node intent and with excluded-node intent `X` succeeds and returns a handle
that sits at an index whose nodeID is not `X`, as soon as some nodeID of the snapshot
differs from `X`; and the same holds for every outcome of any number of consecutive
such calls. -/
theorem excluded_node_never_selected (p : routingPicker) (X : String)
    (hlen : p.subConns.length = p.nodeIDs.length) (hN : 1 ≤ p.subConns.length)
    (halt : ∃ id ∈ p.nodeIDs, id ≠ X) :
    (∀ info : PickInfo, (GetSpecificNodeID info.Ctx).2 = false →
      GetExcludeNode info.Ctx = (X, true) →
      ∃ (r : PickResult) (h : SubConn) (i : Nat) (id : String), (Pick p info).1 = some (r, none) ∧ r.SubConn = some h ∧
        p.subConns[i]? = some h ∧ p.nodeIDs[i]? = some id ∧ id ≠ X) ∧
    (∀ infos : List PickInfo,
      (∀ info ∈ infos, (GetSpecificNodeID info.Ctx).2 = false ∧
        GetExcludeNode info.Ctx = (X, true)) →
      ∀ out ∈ (pickSeq p infos).1,
        ∃ (r : PickResult) (h : SubConn) (i : Nat) (id : String), out = some (r, none) ∧ r.SubConn = some h ∧
          p.subConns[i]? = some h ∧ p.nodeIDs[i]? = some id ∧ id ≠ X) := by
  refine ⟨fun info hs he => (Pick_excluded p info X hlen hN hs he halt).1, ?_⟩
  intro infos
  obtain ⟨ss, ns, c⟩ := p
  simp only at hlen hN halt
  induction infos generalizing c with
  | nil => intro _ out hout; simp [pickSeq] at hout
  | cons info rest ih =>
    intro hint out hout
    have hhd := hint info (List.mem_cons_self _ _)
    obtain ⟨hone, hstate⟩ := Pick_excluded ⟨ss, ns, c⟩ info X hlen hN hhd.1 hhd.2 halt
    simp only [pickSeq, List.mem_cons] at hout
    rcases hout with hout | hout
    · rw [hout]; exact hone
    · rw [hstate] at hout
      exact ih (AddUint32 c) (fun i hi => hint i (List.mem_cons_of_mem _ hi)) out hout

/-- C1 at a concrete picker: three connections, node `"x"` excluded, counter 7. -/
theorem excluded_node_never_selected_witness :
    (∃ id ∈ ["x", "y", "z"], id ≠ "x") ∧
    ∃ (r : PickResult) (h : SubConn) (i : Nat) (id : String),
      (Pick ⟨[10, 11, 12], ["x", "y", "z"], 7⟩ ⟨WithExcludedNodeID [] "x"⟩).1
        = some (r, none) ∧
      r.SubConn = some h ∧ [10, 11, 12][i]? = some h ∧
      ["x", "y", "z"][i]? = some id ∧ id ≠ "x" :=
  ⟨⟨"y", by decide, by decide⟩,
    (excluded_node_never_selected ⟨[10, 11, 12], ["x", "y", "z"], 7⟩ "x" (by decide)
      (by decide) ⟨"y", by decide, by decide⟩).1 ⟨WithExcludedNodeID [] "x"⟩
      (by decide) (by decide)⟩

/-- C2. Preferred node present: on a picker with equal-length sequences, whatever the
counter and whatever excluded-node intent is attached as well, a call whose
preferred-node intent `pid` occurs among the nodeIDs returns, without error, the handle
at the first index whose nodeID is `pid`, and leaves the picker (its counter included)
as it was. -/
theorem preferred_present_returns_first_match (p : routingPicker) (info : PickInfo)
    (pid : String) (j : Nat)
    (hlen : p.subConns.length = p.nodeIDs.length)
    (hpref : GetSpecificNodeID info.Ctx = (pid, true))
    (hj : p.nodeIDs[j]? = some pid) (hfirst : ∀ k < j, p.nodeIDs[k]? ≠ some pid) :
    ∃ h, p.subConns[j]? = some h ∧
      Pick p info = (some ({ SubConn := some h, Done := false }, none), p) := by
  have hjl : j < p.nodeIDs.length := by
    by_contra hge
    rw [List.getElem?_eq_none (by omega)] at hj
    cases hj
  have hjs : j < p.subConns.length := by omega
  have h0 : p.subConns.length ≠ 0 := by omega
  refine ⟨p.subConns[j], List.getElem?_eq_getElem hjs, ?_⟩
  have hf := findSpecific_first pid p.nodeIDs 0 j hj hfirst
  rw [Nat.zero_add] at hf
  unfold Pick
  rw [if_neg h0, hpref]
  simp only [if_true, hf, List.getElem?_eq_getElem hjs]

/-- C2 at a concrete picker: node `"y"` sits at indices 1 and 2, the call also carries
an excluded-node intent for `"y"`. -/
theorem preferred_present_returns_first_match_witness :
    [10, 11, 12][1]? = some 11 ∧
    Pick ⟨[10, 11, 12], ["x", "y", "y"], 5⟩
        ⟨WithExcludedNodeID (WithSpecificNodeID [] "y") "y"⟩
      = (some ({ SubConn := some 11, Done := false }, none),
          ⟨[10, 11, 12], ["x", "y", "y"], 5⟩) := by
  obtain ⟨h, h1, h2⟩ := preferred_present_returns_first_match
    ⟨[10, 11, 12], ["x", "y", "y"], 5⟩
    ⟨WithExcludedNodeID (WithSpecificNodeID [] "y") "y"⟩ "y" 1
    (by decide) (by decide) (by decide) (by decide)
  have e : h = 11 := by
    have : (some 11 : Option SubConn) = some h := h1
    exact (Option.some.inj this).symm
  subst e
  exact ⟨h1, h2⟩

/-- C3. Preferred node absent: on a non-empty picker, a call whose preferred-node
intent `pid` equals none of the nodeIDs fails with an Unavailable error whose message
names `pid`, returns no handle, and leaves the picker (its counter included) as it
was. -/
theorem preferred_absent_fails (p : routingPicker) (info : PickInfo) (pid : String)
    (hN : 1 ≤ p.subConns.length)
    (hpref : GetSpecificNodeID info.Ctx = (pid, true))
    (habs : pid ∉ p.nodeIDs) :
    Pick p info
      = (some ({ SubConn := none, Done := false },
          some (PickError.Unavailable ("指定的节点不可用: " ++ pid))), p) := by
  have h0 : p.subConns.length ≠ 0 := by omega
  have hf := (findSpecific_none pid p.nodeIDs 0).mpr habs
  unfold Pick
  rw [if_neg h0, hpref]
  simp only [if_true, hf, unavailableSpecific]

/-- C3 at a concrete picker: node `"w"` is requested, three other nodes are usable. -/
theorem preferred_absent_fails_witness :
    Pick ⟨[10, 11, 12], ["x", "y", "z"], 5⟩ ⟨WithSpecificNodeID [] "w"⟩
      = (some ({ SubConn := none, Done := false },
          some (PickError.Unavailable ("指定的节点不可用: " ++ "w"))),
          ⟨[10, 11, 12], ["x", "y", "z"], 5⟩) :=
  preferred_absent_fails ⟨[10, 11, 12], ["x", "y", "z"], 5⟩ ⟨WithSpecificNodeID [] "w"⟩ "w"
    (by decide) (by decide) (by decide)

/-- C4. Graceful degradation of exclusion: on a picker with equal-length sequences of
length at least one whose nodeIDs all equal `X`, a call without preferred-node intent
and with excluded-node intent `X` does not fail: it is exactly plain round robin over
the full set, returning the handle at position counter mod length; with a single
connection that is this connection's handle. -/
theorem exclusion_degrades_to_round_robin (p : routingPicker) (info : PickInfo)
    (X : String)
    (hlen : p.subConns.length = p.nodeIDs.length) (hN : 1 ≤ p.subConns.length)
    (hspec : (GetSpecificNodeID info.Ctx).2 = false)
    (hexc : GetExcludeNode info.Ctx = (X, true))
    (hall : ∀ id ∈ p.nodeIDs, id = X) :
    Pick p info = pickRoundRobin p ∧
    (∃ h, p.subConns[p.next % 2 ^ 32 % p.subConns.length]? = some h ∧
      (Pick p info).1 = some ({ SubConn := some h, Done := true }, none)) ∧
    (∀ h0, p.subConns = [h0] →
      (Pick p info).1 = some ({ SubConn := some h0, Done := true }, none)) := by
  have h0 : p.subConns.length ≠ 0 := by omega
  have hP : Pick p info = pickRoundRobin p := by
    rcases hs : GetSpecificNodeID info.Ctx with ⟨s, b⟩
    rw [hs] at hspec
    simp only at hspec
    subst hspec
    have hc := (candidateIndexes_length_eq_zero X p.nodeIDs 0).mpr hall
    have hpos : p.subConns.length > 0 := by omega
    unfold Pick
    rw [if_neg h0, hs, hexc]
    by_cases h1 : p.subConns.length = 1
    · simp [h1]
    · simp [h1, hc, hpos]
  obtain ⟨h, hget, hrr⟩ := pickRoundRobin_eq p hN
  refine ⟨hP, ⟨h, hget, by rw [hP, hrr]⟩, ?_⟩
  intro h1 hs
  rw [hP, hrr]
  rw [hs] at hget
  simp [Nat.mod_one] at hget
  rw [hget]

/-- C4 at the usable set `{X}`: the only connection is the excluded one. -/
theorem exclusion_degrades_to_round_robin_witness :
    (Pick ⟨[10], ["x"], 3⟩ ⟨WithExcludedNodeID [] "x"⟩).1
      = some ({ SubConn := some 10, Done := true }, none) :=
  (exclusion_degrades_to_round_robin ⟨[10], ["x"], 3⟩ ⟨WithExcludedNodeID [] "x"⟩ "x"
    (by decide) (by decide) (by decide) (by decide) (by decide)).2.2 10 rfl

/-- The handles that consecutive calls without routing intent return: the `k`-th call
reads the counter `next + k`, reduced modulo `2 ^ 32`. -/
theorem pickSeq_no_intent (ss : List SubConn) (ns : List String) (infos : List PickInfo)
    (hN : 1 ≤ ss.length)
    (hint : ∀ info ∈ infos, (GetSpecificNodeID info.Ctx).2 = false ∧
      (GetExcludeNode info.Ctx).2 = false) (c : Nat) :
    (pickSeq ⟨ss, ns, c⟩ infos).1.map PickOutcome.handle
      = (List.range infos.length).map (fun k => ss[(c + k) % 2 ^ 32 % ss.length]?) := by
  induction infos generalizing c with
  | nil => simp [pickSeq]
  | cons info rest ih =>
    have hhd := hint info (List.mem_cons_self _ _)
    have hP := Pick_no_intent ⟨ss, ns, c⟩ info hN hhd.1 hhd.2
    obtain ⟨h, hget, hrr⟩ := pickRoundRobin_eq ⟨ss, ns, c⟩ hN
    simp only at hget hrr
    have ih' := ih (fun i hi => hint i (List.mem_cons_of_mem _ hi)) (AddUint32 c)
    have hstep : ∀ k, (AddUint32 c + k) % 2 ^ 32 = (c + (k + 1)) % 2 ^ 32 := by
      intro k
      unfold AddUint32
      omega
    simp only [pickSeq, hP, hrr, List.map_cons, List.length_cons, List.range_succ_eq_map,
      ih', PickOutcome.handle, List.map_map, hstep, Nat.add_zero, hget]
    rfl

/-- C5, the claim as stated fails when the counter wraps: three connections, counter
`2 ^ 32 - 1`, three calls without intent. The handle 10 is returned twice and the
handle 12 is not returned. -/
theorem round_robin_wrap_counterexample :
    (pickSeq ⟨[10, 11, 12], ["x", "y", "z"], 2 ^ 32 - 1⟩ [⟨[]⟩, ⟨[]⟩, ⟨[]⟩]).1.map
        PickOutcome.handle = [some 10, some 10, some 11] ∧
    ¬ List.Perm
      ((pickSeq ⟨[10, 11, 12], ["x", "y", "z"], 2 ^ 32 - 1⟩ [⟨[]⟩, ⟨[]⟩, ⟨[]⟩]).1.map
        PickOutcome.handle)
      ([10, 11, 12].map some) := by
  have e : (pickSeq ⟨[10, 11, 12], ["x", "y", "z"], 2 ^ 32 - 1⟩ [⟨[]⟩, ⟨[]⟩, ⟨[]⟩]).1.map
      PickOutcome.handle = [some 10, some 10, some 11] := by decide
  refine ⟨e, ?_⟩
  rw [e]
  intro hperm
  have hmem : some 12 ∈ [some 10, some 10, some 11] :=
    hperm.mem_iff.mpr (by decide)
  simp at hmem

/-- C5, amended. Round-robin completeness: on a picker holding `N ≥ 1` connections,
`N` consecutive calls without routing intent return every connection of the snapshot
exactly once (the returned handles are a permutation of the snapshot's, without
repetition when the snapshot has none), provided the 32-bit counter does not wrap
within these calls (`next + N ≤ 2 ^ 32`) or `N` divides `2 ^ 32`. -/
theorem round_robin_complete (p : routingPicker) (infos : List PickInfo)
    (hN : 1 ≤ p.subConns.length) (hcalls : infos.length = p.subConns.length)
    (hint : ∀ info ∈ infos, (GetSpecificNodeID info.Ctx).2 = false ∧
      (GetExcludeNode info.Ctx).2 = false)
    (hwrap : p.next + p.subConns.length ≤ 2 ^ 32 ∨ p.subConns.length ∣ 2 ^ 32) :
    List.Perm ((pickSeq p infos).1.map PickOutcome.handle) (p.subConns.map some) ∧
    (p.subConns.Nodup → ((pickSeq p infos).1.map PickOutcome.handle).Nodup) := by
  obtain ⟨ss, ns, c⟩ := p
  simp only at hN hcalls hwrap
  have hrot : (pickSeq ⟨ss, ns, c⟩ infos).1.map PickOutcome.handle
      = (ss.rotate c).map some := by
    rw [pickSeq_no_intent ss ns infos hN hint c, hcalls]
    apply List.ext_getElem?
    intro k
    by_cases hk : k < ss.length
    · have hidx : (c + k) % 2 ^ 32 % ss.length = (k + c) % ss.length := by
        rcases hwrap with hw | hd
        · have hsmall : (c + k) % 2 ^ 32 = c + k := Nat.mod_eq_of_lt (by omega)
          rw [hsmall, Nat.add_comm]
        · rw [Nat.mod_mod_of_dvd _ hd, Nat.add_comm]
      have hlt : (k + c) % ss.length < ss.length := Nat.mod_lt _ (by omega)
      simp only [List.getElem?_map, List.getElem?_range hk, Option.map_some', hidx,
        List.getElem?_rotate hk, List.getElem?_eq_getElem hlt]
    · have h1 : (List.map (fun k => ss[(c + k) % 2 ^ 32 % ss.length]?)
          (List.range ss.length))[k]? = none :=
        List.getElem?_eq_none (by simp; omega)
      have h2 : (List.map some (ss.rotate c))[k]? = none :=
        List.getElem?_eq_none (by simp; omega)
      rw [h1, h2]
  have hperm : List.Perm ((pickSeq ⟨ss, ns, c⟩ infos).1.map PickOutcome.handle)
      (ss.map some) := by
    rw [hrot]
    exact (List.rotate_perm ss c).map some
  refine ⟨hperm, ?_⟩
  intro hnd
  simp only at hnd
  exact hperm.nodup_iff.mpr (hnd.map (Option.some_injective _))

/-- C5 amended, at a concrete picker: three connections, counter 7, three calls. -/
theorem round_robin_complete_witness :
    List.Perm
      ((pickSeq ⟨[10, 11, 12], ["x", "y", "z"], 7⟩ [⟨[]⟩, ⟨[]⟩, ⟨[]⟩]).1.map
        PickOutcome.handle)
      ([10, 11, 12].map some) :=
  (round_robin_complete ⟨[10, 11, 12], ["x", "y", "z"], 7⟩ [⟨[]⟩, ⟨[]⟩, ⟨[]⟩]
    (by decide) (by decide) (by decide) (Or.inl (by decide))).1

/-! ## Facts about the balancer -/

theorem lookup_insert_ite {K V : Type} [DecidableEq K] (s : AList (fun _ : K => V))
    (a a' : K) (v : V) :
    (s.insert a v).lookup a' = if a' = a then some v else s.lookup a' := by
  by_cases h : a' = a
  · subst h
    simp
  · simp [h, AList.lookup_insert_ne h]

theorem lookup_erase_ite {K V : Type} [DecidableEq K] (s : AList (fun _ : K => V))
    (a a' : K) :
    (s.erase a).lookup a' = if a' = a then none else s.lookup a' := by
  by_cases h : a' = a
  · subst h
    simp
  · simp [h, AList.lookup_erase_ne h]

theorem published_record_UpdateState (cc : ClientConn) (s : State) :
    (cc.record (Call.UpdateState s)).published = some s := by
  simp [ClientConn.record, ClientConn.published]

theorem updatePicker_readySCs (b : routingBalancer) :
    (updatePicker b).readySCs = b.readySCs := by
  unfold updatePicker
  split <;> rfl

theorem updatePicker_of_empty (b : routingBalancer) (h : b.readySCs.entries = []) :
    (updatePicker b).cc = b.cc.record (Call.UpdateState
      { ConnectivityState := ConnectivityState.TransientFailure
        Picker := Picker.errPicker PickError.ErrNoSubConnAvailable }) := by
  unfold updatePicker
  simp [h]

theorem UpdateSubConnState_stale (b : routingBalancer) (sc : SubConn)
    (state : SubConnState) (h : b.scToAddrMap.lookup sc = none) :
    UpdateSubConnState b sc state = b := by
  unfold UpdateSubConnState
  rw [h]

theorem UpdateSubConnState_ready (b : routingBalancer) (sc : SubConn)
    (state : SubConnState) (addr : Address)
    (hreg : b.scToAddrMap.lookup sc = some addr)
    (hst : state.ConnectivityState = ConnectivityState.Ready) :
    UpdateSubConnState b sc state
      = updatePicker
          { b with readySCs := b.readySCs.insert sc ((b.nodeIDMap.lookup addr).getD "") } := by
  unfold UpdateSubConnState
  rw [hreg]
  simp only [hst]

theorem UpdateSubConnState_unready (b : routingBalancer) (sc : SubConn)
    (state : SubConnState) (addr : Address)
    (hreg : b.scToAddrMap.lookup sc = some addr)
    (hst : state.ConnectivityState ≠ ConnectivityState.Ready)
    (hst' : state.ConnectivityState ≠ ConnectivityState.Shutdown) :
    UpdateSubConnState b sc state
      = updatePicker { b with readySCs := b.readySCs.erase sc } := by
  unfold UpdateSubConnState
  rw [hreg]
  cases h : state.ConnectivityState
  · rfl
  · rfl
  · exact absurd h hst
  · rfl
  · exact absurd h hst'

theorem UpdateSubConnState_shutdown (b : routingBalancer) (sc : SubConn)
    (state : SubConnState) (addr : Address)
    (hreg : b.scToAddrMap.lookup sc = some addr)
    (hst : state.ConnectivityState = ConnectivityState.Shutdown) :
    UpdateSubConnState b sc state
      = updatePicker
          { b with
            subConnMap := b.subConnMap.erase addr
            scToAddrMap := b.scToAddrMap.erase sc
            nodeIDMap := b.nodeIDMap.erase addr
            readySCs := b.readySCs.erase sc } := by
  unfold UpdateSubConnState
  rw [hreg]
  simp only [hst]

/-- A notification for a registered handle ends in `updatePicker`, applied to a
balancer that differs from the given one in its maps only. -/
theorem UpdateSubConnState_registered (b : routingBalancer) (sc : SubConn)
    (state : SubConnState) (addr : Address)
    (hreg : b.scToAddrMap.lookup sc = some addr) :
    ∃ b1 : routingBalancer, b1.cc = b.cc ∧
      UpdateSubConnState b sc state = updatePicker b1 := by
  by_cases h1 : state.ConnectivityState = ConnectivityState.Ready
  · exact ⟨_, by rfl, UpdateSubConnState_ready b sc state addr hreg h1⟩
  · by_cases h2 : state.ConnectivityState = ConnectivityState.Shutdown
    · exact ⟨_, by rfl, UpdateSubConnState_shutdown b sc state addr hreg h2⟩
    · exact ⟨_, by rfl, UpdateSubConnState_unready b sc state addr hreg h1 h2⟩

/-- C6, the code at the removal scenario. Handle 100 is created for address A; once
the scenario has run, A is no longer registered and its handle has been shut down,
yet the published picker still holds handle 100 and the second selection without
intent returns it. -/
theorem removal_scenario_still_selects_removed_handle :
    (run (newRoutingBalancer countingConn) (removalScenario.take 1)).map
        (fun b => b.subConnMap.lookup addrA) = some (some 100) ∧
    (run (newRoutingBalancer countingConn) removalScenario).map
        (fun b => (b.subConnMap.lookup addrA, shutdownCount b.cc 100))
      = some (none, 1) ∧
    (run (newRoutingBalancer countingConn) removalScenario).map
        (fun b => b.cc.published)
      = some (some ⟨ConnectivityState.Ready,
          Picker.routing ⟨[101, 100], ["b:1", "a:1"], 0⟩⟩) ∧
    (pickSeq ⟨[101, 100], ["b:1", "a:1"], 0⟩ [⟨[]⟩, ⟨[]⟩]).1.map PickOutcome.handle
      = [some 101, some 100] := by
  refine ⟨by decide, by decide, by decide, by decide⟩

/-- C10. Empty usable set: when a state-change notification for a registered handle
leaves the usable set empty, the notification ends with one `UpdateState` call that
publishes connectivity state TransientFailure with a picker whose every selection
returns no handle and the no-sub-connection-available error; and a `routingPicker`
holding zero connections returns that error from `Pick` for every intent and is left
as it was, counter included. -/
theorem empty_usable_set_fails_fast (b : routingBalancer) (sc : SubConn)
    (state : SubConnState) (addr : Address)
    (hreg : b.scToAddrMap.lookup sc = some addr)
    (hempty : (UpdateSubConnState b sc state).readySCs.keys = []) :
    (∃ st, (UpdateSubConnState b sc state).cc.calls = b.cc.calls ++ [Call.UpdateState st] ∧
      (UpdateSubConnState b sc state).cc.published = some st ∧
      st.ConnectivityState = ConnectivityState.TransientFailure ∧
      ∀ info, st.Picker.Pick info
        = (some ({ SubConn := none, Done := false },
            some PickError.ErrNoSubConnAvailable), st.Picker)) ∧
    (∀ (p : routingPicker) (info : PickInfo), p.subConns.length = 0 →
      Pick p info
        = (some ({ SubConn := none, Done := false },
            some PickError.ErrNoSubConnAvailable), p)) := by
  constructor
  · have key : ∀ b1 : routingBalancer, b1.cc = b.cc →
        UpdateSubConnState b sc state = updatePicker b1 →
        ∃ st, (UpdateSubConnState b sc state).cc.calls = b.cc.calls ++ [Call.UpdateState st] ∧
          (UpdateSubConnState b sc state).cc.published = some st ∧
          st.ConnectivityState = ConnectivityState.TransientFailure ∧
          ∀ info, st.Picker.Pick info
            = (some ({ SubConn := none, Done := false },
                some PickError.ErrNoSubConnAvailable), st.Picker) := by
      intro b1 hcc hU
      have he : b1.readySCs.entries = [] := by
        have h1 : (updatePicker b1).readySCs.keys = [] := by rw [← hU]; exact hempty
        rw [updatePicker_readySCs] at h1
        simpa [AList.keys, List.keys] using h1
      have hc := updatePicker_of_empty b1 he
      refine ⟨{ ConnectivityState := ConnectivityState.TransientFailure
                Picker := Picker.errPicker PickError.ErrNoSubConnAvailable },
        ?_, ?_, rfl, fun info => rfl⟩
      · rw [hU, hc, hcc]
        rfl
      · rw [hU, hc]
        exact published_record_UpdateState _ _
    obtain ⟨b1, hcc, hU⟩ := UpdateSubConnState_registered b sc state addr hreg
    exact key b1 hcc hU
  · intro p info hp
    unfold Pick
    rw [if_pos hp]

/-- C10 at a concrete balancer: the only usable handle reports TransientFailure. -/
theorem empty_usable_set_fails_fast_witness :
    ∃ st, (UpdateSubConnState
        { newRoutingBalancer countingConn with
          scToAddrMap := AList.singleton 100 addrA
          readySCs := AList.singleton 100 "a:1" }
        100 ⟨ConnectivityState.TransientFailure⟩).cc.published = some st ∧
      st.ConnectivityState = ConnectivityState.TransientFailure :=
  let ⟨st, _, h2, h3, _⟩ := (empty_usable_set_fails_fast
    { newRoutingBalancer countingConn with
      scToAddrMap := AList.singleton 100 addrA
      readySCs := AList.singleton 100 "a:1" }
    100 ⟨ConnectivityState.TransientFailure⟩ addrA (by decide) (by decide)).1
  ⟨st, h2, h3⟩

/-! ### The removing loop -/

/-- What the removing loop, run over the entries `l`, does to each field. -/
theorem removeLoop_fields (newAddrs : List Address)
    (l : List (Sigma (fun _ : Address => SubConn))) (b : routingBalancer) :
    (l.foldl (removeStep newAddrs) b).closed = b.closed ∧
    (l.foldl (removeStep newAddrs) b).readySCs = b.readySCs ∧
    (l.foldl (removeStep newAddrs) b).cc.factory = b.cc.factory ∧
    (l.foldl (removeStep newAddrs) b).cc.made = b.cc.made ∧
    (l.foldl (removeStep newAddrs) b).cc.calls
      = b.cc.calls ++ (droppedEntries newAddrs l).map (fun e => Call.Shutdown e.2) ∧
    (∀ a, (l.foldl (removeStep newAddrs) b).subConnMap.lookup a
      = if a ∈ (droppedEntries newAddrs l).map (fun e => e.1) then none
        else b.subConnMap.lookup a) ∧
    (∀ h, (l.foldl (removeStep newAddrs) b).scToAddrMap.lookup h
      = if h ∈ (droppedEntries newAddrs l).map (fun e => e.2) then none
        else b.scToAddrMap.lookup h) ∧
    (∀ a, (l.foldl (removeStep newAddrs) b).nodeIDMap.lookup a
      = if a ∈ (droppedEntries newAddrs l).map (fun e => e.1) then none
        else b.nodeIDMap.lookup a) := by
  induction l generalizing b with
  | nil => simp [droppedEntries]
  | cons e rest ih =>
    simp only [List.foldl_cons]
    obtain ⟨h1, h2, h3, h4, h5, h6, h7, h8⟩ := ih (removeStep newAddrs b e)
    by_cases he : e.1 ∈ newAddrs
    · have hb : removeStep newAddrs b e = b := by simp [removeStep, he]
      have hd : droppedEntries newAddrs (e :: rest) = droppedEntries newAddrs rest := by
        simp [droppedEntries, he]
      rw [hb] at h1 h2 h3 h4 h5 h6 h7 h8 ⊢
      rw [hd]
      exact ⟨h1, h2, h3, h4, h5, h6, h7, h8⟩
    · have hd : droppedEntries newAddrs (e :: rest)
          = e :: droppedEntries newAddrs rest := by
        simp [droppedEntries, he]
      rw [hd]
      refine ⟨?_, ?_, ?_, ?_, ?_, ?_, ?_, ?_⟩
      · rw [h1]; simp [removeStep, he]
      · rw [h2]; simp [removeStep, he]
      · rw [h3]; simp [removeStep, he, ClientConn.record]
      · rw [h4]; simp [removeStep, he, ClientConn.record]
      · rw [h5]; simp [removeStep, he, ClientConn.record]
      · intro a
        rw [h6 a]
        simp only [removeStep, he, if_false, lookup_erase_ite, List.map_cons, List.mem_cons]
        by_cases ha : a = e.1
        · simp [ha]
        · simp only [ha, false_or, if_false]
      · intro h
        rw [h7 h]
        simp only [removeStep, he, if_false, lookup_erase_ite, List.map_cons, List.mem_cons]
        by_cases hh : h = e.2
        · simp [hh]
        · simp only [hh, false_or, if_false]
      · intro a
        rw [h8 a]
        simp only [removeStep, he, if_false, lookup_erase_ite, List.map_cons, List.mem_cons]
        by_cases ha : a = e.1
        · simp [ha]
        · simp only [ha, false_or, if_false]

theorem mem_dropped_fst (newAddrs : List Address)
    (m : AList (fun _ : Address => SubConn)) (a : Address) :
    a ∈ (droppedEntries newAddrs m.entries).map (fun e => e.1)
      ↔ a ∈ m ∧ a ∉ newAddrs := by
  simp only [droppedEntries, List.mem_map, List.mem_filter, decide_eq_true_eq]
  constructor
  · rintro ⟨⟨a', h⟩, ⟨hmem, hnot⟩, rfl⟩
    have hl : m.lookup a' = some h := AList.mem_lookup_iff.mpr hmem
    exact ⟨AList.lookup_isSome.mp (by rw [hl]; rfl), hnot⟩
  · rintro ⟨hm, hnot⟩
    obtain ⟨h, hl⟩ := Option.isSome_iff_exists.mp (AList.lookup_isSome.mpr hm)
    exact ⟨⟨a, h⟩, ⟨AList.mem_lookup_iff.mp hl, hnot⟩, rfl⟩

theorem mem_dropped_snd (newAddrs : List Address)
    (m : AList (fun _ : Address => SubConn)) (h : SubConn) :
    h ∈ (droppedEntries newAddrs m.entries).map (fun e => e.2)
      ↔ ∃ a, m.lookup a = some h ∧ a ∉ newAddrs := by
  simp only [droppedEntries, List.mem_map, List.mem_filter, decide_eq_true_eq]
  constructor
  · rintro ⟨⟨a, h'⟩, ⟨hmem, hnot⟩, rfl⟩
    exact ⟨a, AList.mem_lookup_iff.mpr hmem, hnot⟩
  · rintro ⟨a, hl, hnot⟩
    exact ⟨⟨a, h⟩, ⟨AList.mem_lookup_iff.mp hl, hnot⟩, rfl⟩

/-- The handles of a map whose lookup is injective are pairwise distinct. -/
theorem values_nodup (m : AList (fun _ : Address => SubConn))
    (hinj : ∀ a a' h, m.lookup a = some h → m.lookup a' = some h → a = a') :
    (m.entries.map (fun e => e.2)).Nodup := by
  refine List.Nodup.map_on ?_ m.nodupKeys.nodup
  rintro ⟨a, h⟩ hx ⟨a', h'⟩ hy heq
  simp only at heq
  subst heq
  have := hinj a a' h (AList.mem_lookup_iff.mpr hx) (AList.mem_lookup_iff.mpr hy)
  subst this
  rfl

theorem RegistryInv.forward_injective {b : routingBalancer} (hinv : RegistryInv b)
    (a a' : Address) (h : SubConn)
    (h1 : b.subConnMap.lookup a = some h) (h2 : b.subConnMap.lookup a' = some h) :
    a = a' := by
  have e1 := (hinv.inverse a h).mp h1
  have e2 := (hinv.inverse a' h).mp h2
  rw [e1] at e2
  exact Option.some.inj e2

/-- The removing loop on a balancer that satisfies the registry invariant. -/
theorem removeLoop_spec (newAddrs : List Address) (b : routingBalancer)
    (hinv : RegistryInv b) :
    RegistryInv (removeLoop newAddrs b) ∧
    (removeLoop newAddrs b).readySCs = b.readySCs ∧
    (removeLoop newAddrs b).cc.factory = b.cc.factory ∧
    (removeLoop newAddrs b).cc.made = b.cc.made ∧
    (∀ a, (removeLoop newAddrs b).subConnMap.lookup a
      = if a ∈ newAddrs then b.subConnMap.lookup a else none) ∧
    (∀ h a, (removeLoop newAddrs b).scToAddrMap.lookup h = some a
      ↔ b.scToAddrMap.lookup h = some a ∧ a ∈ newAddrs) ∧
    (∀ a, (removeLoop newAddrs b).nodeIDMap.lookup a
      = if a ∈ b.subConnMap ∧ a ∉ newAddrs then none else b.nodeIDMap.lookup a) := by
  obtain ⟨h1, h2, h3, h4, _, h6, h7, h8⟩ :=
    removeLoop_fields newAddrs b.subConnMap.entries b
  have hfwd : ∀ a, (removeLoop newAddrs b).subConnMap.lookup a
      = if a ∈ newAddrs then b.subConnMap.lookup a else none := by
    intro a
    unfold removeLoop
    rw [h6 a]
    simp only [mem_dropped_fst]
    by_cases ha : a ∈ newAddrs
    · simp [ha]
    · by_cases hm : a ∈ b.subConnMap
      · simp [ha, hm]
      · simp [ha, hm, AList.lookup_eq_none.mpr hm]
  have hrev : ∀ h a, (removeLoop newAddrs b).scToAddrMap.lookup h = some a
      ↔ b.scToAddrMap.lookup h = some a ∧ a ∈ newAddrs := by
    intro h a
    unfold removeLoop
    rw [h7 h]
    by_cases hd : h ∈ (droppedEntries newAddrs b.subConnMap.entries).map (fun e => e.2)
    · rw [if_pos hd]
      obtain ⟨a', hl', hna⟩ := (mem_dropped_snd newAddrs b.subConnMap h).mp hd
      have hr := (hinv.inverse a' h).mp hl'
      constructor
      · intro hl
        cases hl
      · rintro ⟨hl, ha⟩
        rw [hl] at hr
        exact absurd (Option.some.inj hr ▸ ha) hna
    · rw [if_neg hd]
      constructor
      · intro hl
        refine ⟨hl, ?_⟩
        by_contra hna
        exact hd ((mem_dropped_snd newAddrs b.subConnMap h).mpr
          ⟨a, (hinv.inverse a h).mpr hl, hna⟩)
      · exact fun hl => hl.1
  refine ⟨⟨?_, ?_, ?_, ?_⟩, h2, h3, h4, hfwd, hrev, ?_⟩
  · exact h1.trans hinv.isOpen
  · intro a h
    rw [hfwd a, hrev h a]
    by_cases ha : a ∈ newAddrs
    · simp [ha, hinv.inverse a h]
    · simp [ha]
  · intro h a hl
    obtain ⟨i, hi, hf⟩ := hinv.regCreated h a ((hrev h a).mp hl).1
    exact ⟨i, by unfold removeLoop; rw [h4]; exact hi, by unfold removeLoop; rw [h3]; exact hf⟩
  · intro h hh
    have hh' : h ∈ b.readySCs := by
      have : (removeLoop newAddrs b).readySCs = b.readySCs := h2
      rw [this] at hh
      exact hh
    obtain ⟨i, hi, hf⟩ := hinv.readyCreated h hh'
    exact ⟨i, by unfold removeLoop; rw [h4]; exact hi, by unfold removeLoop; rw [h3]; exact hf⟩
  · intro a
    unfold removeLoop
    rw [h8 a]
    simp only [mem_dropped_fst]

/-- How the removing loop changes the number of `Shutdown` calls on a handle: one more
for the handle of a dropped address, none for any other handle. -/
theorem removeLoop_shutdownCount (newAddrs : List Address) (b : routingBalancer)
    (hinv : RegistryInv b) :
    (∀ h, (∃ a, b.subConnMap.lookup a = some h ∧ a ∉ newAddrs) →
      shutdownCount (removeLoop newAddrs b).cc h = shutdownCount b.cc h + 1) ∧
    (∀ h, (¬ ∃ a, b.subConnMap.lookup a = some h ∧ a ∉ newAddrs) →
      shutdownCount (removeLoop newAddrs b).cc h = shutdownCount b.cc h) := by
  obtain ⟨_, _, _, _, h5, _, _, _⟩ := removeLoop_fields newAddrs b.subConnMap.entries b
  have hcalls : (removeLoop newAddrs b).cc.calls
      = b.cc.calls ++ ((droppedEntries newAddrs b.subConnMap.entries).map
          (fun e => e.2)).map Call.Shutdown := by
    unfold removeLoop
    rw [h5, List.map_map]
    rfl
  have hinj : Function.Injective Call.Shutdown := fun x y e => by
    cases e
    rfl
  have hnd : ((droppedEntries newAddrs b.subConnMap.entries).map (fun e => e.2)).Nodup :=
    List.Nodup.sublist ((List.filter_sublist _).map _)
      (values_nodup b.subConnMap hinv.forward_injective)
  have hcount : ∀ h, shutdownCount (removeLoop newAddrs b).cc h
      = shutdownCount b.cc h
        + ((droppedEntries newAddrs b.subConnMap.entries).map (fun e => e.2)).count h := by
    intro h
    unfold shutdownCount
    rw [hcalls, List.count_append, List.count_map_of_injective _ _ hinj]
  constructor
  · intro h hd
    rw [hcount h, List.count_eq_one_of_mem hnd ((mem_dropped_snd newAddrs b.subConnMap h).mpr hd)]
  · intro h hd
    rw [hcount h, List.count_eq_zero_of_not_mem
      (fun hm => hd ((mem_dropped_snd newAddrs b.subConnMap h).mp hm)), Nat.add_zero]

/-! ### The adding loop -/

theorem addLoop_cons_mem (addr : Address) (rest : List Address) (b : routingBalancer)
    (hm : addr ∈ b.subConnMap) : addLoop (addr :: rest) b = addLoop rest b := by
  simp [addLoop, hm]

theorem addLoop_cons_fail (addr : Address) (rest : List Address) (b : routingBalancer)
    (hm : addr ∉ b.subConnMap) (hf : b.cc.factory b.cc.made = none) :
    addLoop (addr :: rest) b
      = addLoop rest
          { b with
            cc := { b.cc with
              made := b.cc.made + 1
              calls := b.cc.calls ++ [Call.NewSubConn addr none] } } := by
  simp [addLoop, hm, ClientConn.NewSubConn, hf]

theorem addLoop_cons_ok (addr : Address) (rest : List Address) (b : routingBalancer)
    (sc : SubConn) (hm : addr ∉ b.subConnMap) (hf : b.cc.factory b.cc.made = some sc)
    (ho : b.closed = false) :
    addLoop (addr :: rest) b
      = addLoop rest
          { b with
            cc := { b.cc with
              made := b.cc.made + 1
              calls := b.cc.calls ++ [Call.NewSubConn addr (some sc)] ++ [Call.Connect sc] }
            subConnMap := b.subConnMap.insert addr sc
            scToAddrMap := b.scToAddrMap.insert sc addr
            nodeIDMap := b.nodeIDMap.insert addr (extractNodeID addr) } := by
  simp [addLoop, hm, ClientConn.NewSubConn, hf, ho, ClientConn.record]

theorem Created_mono {cc cc' : ClientConn} {h : SubConn} (hc : cc.Created h)
    (hf : cc'.factory = cc.factory) (hm : cc.made ≤ cc'.made) : cc'.Created h := by
  obtain ⟨i, hi, hfi⟩ := hc
  exact ⟨i, by omega, by rw [hf]; exact hfi⟩

theorem not_Created_of_fresh {cc : ClientConn} {sc : SubConn}
    (hfresh : FreshFactory cc.factory) (hf : cc.factory cc.made = some sc) :
    ¬ cc.Created sc := by
  rintro ⟨i, hi, hfi⟩
  have := hfresh i cc.made sc hfi hf
  omega

/-- Registering a fresh handle for an unregistered address keeps the registry
invariant. -/
theorem RegistryInv_register (b : routingBalancer) (addr : Address) (sc : SubConn)
    (extra : List Call) (nodeID : String)
    (hinv : RegistryInv b) (hfresh : FreshFactory b.cc.factory)
    (hm : addr ∉ b.subConnMap) (hf : b.cc.factory b.cc.made = some sc) :
    RegistryInv
      { b with
        cc := { b.cc with made := b.cc.made + 1, calls := b.cc.calls ++ extra }
        subConnMap := b.subConnMap.insert addr sc
        scToAddrMap := b.scToAddrMap.insert sc addr
        nodeIDMap := b.nodeIDMap.insert addr nodeID } := by
  have hnc := not_Created_of_fresh hfresh hf
  have hrevsc : b.scToAddrMap.lookup sc = none := by
    cases hl : b.scToAddrMap.lookup sc with
    | none => rfl
    | some a => exact absurd (hinv.regCreated sc a hl) hnc
  have hfwdaddr : b.subConnMap.lookup addr = none := AList.lookup_eq_none.mpr hm
  refine ⟨hinv.isOpen, ?_, ?_, ?_⟩
  · intro a h
    simp only [lookup_insert_ite]
    by_cases ha : a = addr
    · subst ha
      by_cases hh : h = sc
      · subst hh
        simp
      · have hne : ¬ sc = h := fun e => hh e.symm
        simp only [if_true, if_neg hh, Option.some.injEq, hne, false_iff]
        intro hl
        have := (hinv.inverse a h).mpr hl
        rw [hfwdaddr] at this
        cases this
    · by_cases hh : h = sc
      · subst hh
        have hne : ¬ addr = a := fun e => ha e.symm
        simp only [if_neg ha, if_true, Option.some.injEq, hne, iff_false]
        intro hl
        have := (hinv.inverse a h).mp hl
        rw [hrevsc] at this
        cases this
      · simp only [if_neg ha, if_neg hh]
        exact hinv.inverse a h
  · intro h a hl
    simp only [lookup_insert_ite] at hl
    by_cases hh : h = sc
    · subst hh
      exact ⟨b.cc.made, Nat.lt_succ_self _, hf⟩
    · rw [if_neg hh] at hl
      exact Created_mono (hinv.regCreated h a hl) rfl (Nat.le_succ _)
  · intro h hh
    exact Created_mono (hinv.readyCreated h hh) rfl (Nat.le_succ _)

/-- The adding loop on a balancer that satisfies the registry invariant, with a
transport that returns fresh handles: it does not panic, keeps the invariant and
every registered entry, and registers only addresses of the list, under handles that
had not been created before. -/
theorem addLoop_spec (l : List Address) (b : routingBalancer)
    (hinv : RegistryInv b) (hfresh : FreshFactory b.cc.factory) :
    ∃ b', addLoop l b = some b' ∧ RegistryInv b' ∧
      b'.readySCs = b.readySCs ∧ b'.cc.factory = b.cc.factory ∧
      b.cc.made ≤ b'.cc.made ∧
      (∀ a h, b.subConnMap.lookup a = some h → b'.subConnMap.lookup a = some h) ∧
      (∀ a, a ∉ l → b'.subConnMap.lookup a = b.subConnMap.lookup a) ∧
      (∀ a, a ∉ l → b'.nodeIDMap.lookup a = b.nodeIDMap.lookup a) ∧
      (∀ h a, b'.scToAddrMap.lookup h = some a →
        b.scToAddrMap.lookup h = some a ∨ ¬ b.cc.Created h) ∧
      (∀ h, shutdownCount b'.cc h = shutdownCount b.cc h) := by
  induction l generalizing b with
  | nil =>
    exact ⟨b, rfl, hinv, rfl, rfl, Nat.le_refl _, fun _ _ h => h, fun _ _ => rfl,
      fun _ _ => rfl, fun _ _ h => Or.inl h, fun _ => rfl⟩
  | cons addr rest ih =>
    by_cases hm : addr ∈ b.subConnMap
    · obtain ⟨b', h1, h2, h3, h4, h5, h6, h7, h8, h9, h10⟩ := ih b hinv hfresh
      refine ⟨b', by rw [addLoop_cons_mem addr rest b hm]; exact h1, h2, h3, h4, h5, h6,
        ?_, ?_, h9, h10⟩
      · intro a ha
        exact h7 a (fun hr => ha (List.mem_cons_of_mem _ hr))
      · intro a ha
        exact h8 a (fun hr => ha (List.mem_cons_of_mem _ hr))
    · cases hf : b.cc.factory b.cc.made with
      | none =>
        have hinv1 : RegistryInv
            { b with
              cc := { b.cc with
                made := b.cc.made + 1
                calls := b.cc.calls ++ [Call.NewSubConn addr none] } } :=
          ⟨hinv.isOpen, hinv.inverse,
            fun h a hl => Created_mono (hinv.regCreated h a hl) rfl (Nat.le_succ _),
            fun h hh => Created_mono (hinv.readyCreated h hh) rfl (Nat.le_succ _)⟩
        obtain ⟨b', h1, h2, h3, h4, h5, h6, h7, h8, h9, h10⟩ := ih _ hinv1 hfresh
        refine ⟨b', by rw [addLoop_cons_fail addr rest b hm hf]; exact h1, h2, h3, h4,
          ?_, h6, ?_, ?_, ?_, ?_⟩
        · exact Nat.le_trans (Nat.le_succ _) h5
        · intro a ha
          exact h7 a (fun hr => ha (List.mem_cons_of_mem _ hr))
        · intro a ha
          exact h8 a (fun hr => ha (List.mem_cons_of_mem _ hr))
        · intro h a hl
          rcases h9 h a hl with hr | hr
          · exact Or.inl hr
          · exact Or.inr (fun hc => hr (Created_mono hc rfl (Nat.le_succ _)))
        · intro h
          rw [h10 h]
          simp [shutdownCount]
      | some sc =>
        have hinv1 := RegistryInv_register b addr sc
          ([Call.NewSubConn addr (some sc)] ++ [Call.Connect sc]) (extractNodeID addr)
          hinv hfresh hm hf
        rw [← List.append_assoc] at hinv1
        obtain ⟨b', h1, h2, h3, h4, h5, h6, h7, h8, h9, h10⟩ := ih _ hinv1 hfresh
        have hfwdaddr : b.subConnMap.lookup addr = none := AList.lookup_eq_none.mpr hm
        refine ⟨b', by rw [addLoop_cons_ok addr rest b sc hm hf hinv.isOpen]; exact h1,
          h2, h3, h4, ?_, ?_, ?_, ?_, ?_, ?_⟩
        · exact Nat.le_trans (Nat.le_succ _) h5
        · intro a h hl
          apply h6
          simp only [lookup_insert_ite]
          have ha : a ≠ addr := by
            rintro rfl
            rw [hfwdaddr] at hl
            cases hl
          rw [if_neg ha]
          exact hl
        · intro a ha
          rw [h7 a (fun hr => ha (List.mem_cons_of_mem _ hr))]
          simp only [lookup_insert_ite]
          have hne : a ≠ addr := by
            rintro rfl
            exact ha (List.mem_cons_self _ _)
          rw [if_neg hne]
        · intro a ha
          rw [h8 a (fun hr => ha (List.mem_cons_of_mem _ hr))]
          simp only [lookup_insert_ite]
          have hne : a ≠ addr := by
            rintro rfl
            exact ha (List.mem_cons_self _ _)
          rw [if_neg hne]
        · intro h a hl
          rcases h9 h a hl with hr | hr
          · simp only [lookup_insert_ite] at hr
            by_cases hh : h = sc
            · subst hh
              exact Or.inr (not_Created_of_fresh hfresh hf)
            · rw [if_neg hh] at hr
              exact Or.inl hr
          · exact Or.inr (fun hc => hr (Created_mono hc rfl (Nat.le_succ _)))
        · intro h
          rw [h10 h]
          simp [shutdownCount]

/-! ### One operation and the registry invariant -/

/-- A resolution update on a balancer that satisfies the registry invariant, with a
transport that returns fresh handles. -/
theorem UpdateClientConnState_spec (b : routingBalancer) (state : ClientConnState)
    (hinv : RegistryInv b) (hfresh : FreshFactory b.cc.factory) :
    ∃ b', UpdateClientConnState b state = some (none, b') ∧ RegistryInv b' ∧
      b'.readySCs = b.readySCs ∧ b'.cc.factory = b.cc.factory ∧
      b.cc.made ≤ b'.cc.made ∧
      (∀ h a, b'.scToAddrMap.lookup h = some a →
        b.scToAddrMap.lookup h = some a ∨ ¬ b.cc.Created h) ∧
      (∀ a h, b.subConnMap.lookup a = some h → a ∈ state.ResolverState.Addresses →
        b'.subConnMap.lookup a = some h) ∧
      (∀ a h, b.subConnMap.lookup a = some h → a ∉ state.ResolverState.Addresses →
        b'.subConnMap.lookup a = none ∧ (∀ a', b'.subConnMap.lookup a' ≠ some h) ∧
        b'.scToAddrMap.lookup h = none ∧ b'.nodeIDMap.lookup a = none) ∧
      (∀ a h, b.subConnMap.lookup a = some h → a ∉ state.ResolverState.Addresses →
        shutdownCount b'.cc h = shutdownCount b.cc h + 1) ∧
      (∀ h, (¬ ∃ a, b.subConnMap.lookup a = some h ∧ a ∉ state.ResolverState.Addresses) →
        shutdownCount b'.cc h = shutdownCount b.cc h) := by
  obtain ⟨r1, r2, r3, r4, r5, r6, r7⟩ := removeLoop_spec (newAddrsOf state) b hinv
  obtain ⟨c1, c2⟩ := removeLoop_shutdownCount (newAddrsOf state) b hinv
  have hfresh1 : FreshFactory (removeLoop (newAddrsOf state) b).cc.factory := by
    rw [r3]; exact hfresh
  obtain ⟨b', a1, a2, a3, a4, a5, a6, a7, a8, a9, a10⟩ :=
    addLoop_spec (newAddrsOf state) (removeLoop (newAddrsOf state) b) r1 hfresh1
  have hcre : ∀ h, b.cc.Created h → (removeLoop (newAddrsOf state) b).cc.Created h :=
    fun h hc => Created_mono hc r3 (Nat.le_of_eq r4.symm)
  have hmem : ∀ a, a ∈ newAddrsOf state ↔ a ∈ state.ResolverState.Addresses := by
    intro a
    simp [newAddrsOf]
  refine ⟨b', by simp [UpdateClientConnState, a1], a2, a3.trans r2, a4.trans r3,
    by rw [← r4]; exact a5, ?_, ?_, ?_, ?_, ?_⟩
  · intro h a hl
    rcases a9 h a hl with hr | hr
    · exact Or.inl ((r6 h a).mp hr).1
    · exact Or.inr (fun hc => hr (hcre h hc))
  · intro a h hl ha
    apply a6
    rw [r5 a, if_pos ((hmem a).mpr ha)]
    exact hl
  · intro a h hl ha
    have ha' : a ∉ newAddrsOf state := fun hx => ha ((hmem a).mp hx)
    have hrev' : b'.scToAddrMap.lookup h = none := by
      cases hx : b'.scToAddrMap.lookup h with
      | none => rfl
      | some a0 =>
        exfalso
        rcases a9 h a0 hx with hr | hr
        · obtain ⟨hr1, hr2⟩ := (r6 h a0).mp hr
          have := (hinv.inverse a h).mp hl
          rw [hr1] at this
          exact ha' (Option.some.inj this ▸ hr2)
        · exact hr (hcre h (hinv.regCreated h a ((hinv.inverse a h).mp hl)))
    refine ⟨?_, ?_, hrev', ?_⟩
    · rw [a7 a ha', r5 a, if_neg ha']
    · intro a' hx
      have := (a2.inverse a' h).mp hx
      rw [hrev'] at this
      cases this
    · rw [a8 a ha', r7 a]
      have hm : a ∈ b.subConnMap := AList.lookup_isSome.mp (by rw [hl]; rfl)
      simp [hm, ha']
  · intro a h hl ha
    rw [a10 h]
    exact c1 h ⟨a, hl, fun hx => ha ((hmem a).mp hx)⟩
  · intro h hno
    rw [a10 h]
    apply c2 h
    rintro ⟨a, hl, ha⟩
    exact hno ⟨a, hl, fun hx => ha ((hmem a).mpr hx)⟩

theorem updatePicker_fields (b : routingBalancer) :
    (updatePicker b).subConnMap = b.subConnMap ∧
    (updatePicker b).scToAddrMap = b.scToAddrMap ∧
    (updatePicker b).nodeIDMap = b.nodeIDMap ∧
    (updatePicker b).closed = b.closed ∧
    (updatePicker b).cc.factory = b.cc.factory ∧
    (updatePicker b).cc.made = b.cc.made ∧
    ∃ st, (updatePicker b).cc.calls = b.cc.calls ++ [Call.UpdateState st] := by
  unfold updatePicker
  split
  · exact ⟨rfl, rfl, rfl, rfl, rfl, rfl, _, rfl⟩
  · exact ⟨rfl, rfl, rfl, rfl, rfl, rfl, _, rfl⟩

/-- The registry invariant only reads the maps, the flag and the transport's factory
and call count. -/
theorem RegistryInv_congr {b b' : routingBalancer} (hinv : RegistryInv b)
    (h1 : b'.subConnMap = b.subConnMap) (h2 : b'.scToAddrMap = b.scToAddrMap)
    (h3 : b'.readySCs = b.readySCs) (h4 : b'.closed = b.closed)
    (h5 : b'.cc.factory = b.cc.factory) (h6 : b'.cc.made = b.cc.made) :
    RegistryInv b' := by
  refine ⟨h4.trans hinv.isOpen, ?_, ?_, ?_⟩
  · intro a h
    rw [h1, h2]
    exact hinv.inverse a h
  · intro h a hl
    rw [h2] at hl
    exact Created_mono (hinv.regCreated h a hl) h5 (Nat.le_of_eq h6.symm)
  · intro h hh
    rw [h3] at hh
    exact Created_mono (hinv.readyCreated h hh) h5 (Nat.le_of_eq h6.symm)

theorem RegistryInv_updatePicker {b : routingBalancer} (hinv : RegistryInv b) :
    RegistryInv (updatePicker b) := by
  obtain ⟨h1, h2, _, h4, h5, h6, _⟩ := updatePicker_fields b
  exact RegistryInv_congr hinv h1 h2 (updatePicker_readySCs b) h4 h5 h6

/-- Erasing a registered handle together with its address keeps the two maps mutually
inverse. -/
theorem inverse_erase (b : routingBalancer) (hinv : RegistryInv b) (sc : SubConn)
    (addr : Address) (hreg : b.scToAddrMap.lookup sc = some addr) (a : Address)
    (h : SubConn) :
    (b.subConnMap.erase addr).lookup a = some h
      ↔ (b.scToAddrMap.erase sc).lookup h = some a := by
  simp only [lookup_erase_ite]
  have hfwd := (hinv.inverse addr sc).mpr hreg
  by_cases ha : a = addr
  · subst ha
    by_cases hh : h = sc
    · simp [hh]
    · simp only [if_true, if_neg hh]
      constructor
      · intro hx
        cases hx
      · intro hl
        have := (hinv.inverse a h).mpr hl
        rw [hfwd] at this
        exact absurd (Option.some.inj this).symm hh
  · by_cases hh : h = sc
    · subst hh
      simp only [if_neg ha, if_true]
      constructor
      · intro hl
        have := (hinv.inverse a h).mp hl
        rw [hreg] at this
        exact absurd (Option.some.inj this).symm ha
      · intro hx
        cases hx
    · simp only [if_neg ha, if_neg hh]
      exact hinv.inverse a h

/-- A state-change notification keeps the registry invariant. -/
theorem UpdateSubConnState_RegistryInv (b : routingBalancer) (sc : SubConn)
    (state : SubConnState) (hinv : RegistryInv b) :
    RegistryInv (UpdateSubConnState b sc state) := by
  cases hreg : b.scToAddrMap.lookup sc with
  | none => rw [UpdateSubConnState_stale b sc state hreg]; exact hinv
  | some addr =>
    by_cases h1 : state.ConnectivityState = ConnectivityState.Ready
    · rw [UpdateSubConnState_ready b sc state addr hreg h1]
      refine RegistryInv_updatePicker ⟨hinv.isOpen, hinv.inverse, hinv.regCreated, ?_⟩
      intro h hh
      rcases (AList.mem_insert _).mp hh with e | hm
      · subst e
        exact hinv.regCreated h addr hreg
      · exact hinv.readyCreated h hm
    · by_cases h2 : state.ConnectivityState = ConnectivityState.Shutdown
      · rw [UpdateSubConnState_shutdown b sc state addr hreg h2]
        refine RegistryInv_updatePicker
          ⟨hinv.isOpen, inverse_erase b hinv sc addr hreg, ?_, ?_⟩
        · intro h a hl
          simp only [lookup_erase_ite] at hl
          by_cases hh : h = sc
          · simp [hh] at hl
          · rw [if_neg hh] at hl
            exact hinv.regCreated h a hl
        · intro h hh
          exact hinv.readyCreated h (AList.mem_erase.mp hh).2
      · rw [UpdateSubConnState_unready b sc state addr hreg h1 h2]
        refine RegistryInv_updatePicker ⟨hinv.isOpen, hinv.inverse, hinv.regCreated, ?_⟩
        intro h hh
        exact hinv.readyCreated h (AList.mem_erase.mp hh).2

theorem UpdateSubConnState_cc (b : routingBalancer) (sc : SubConn)
    (state : SubConnState) :
    (UpdateSubConnState b sc state).cc.factory = b.cc.factory ∧
    (UpdateSubConnState b sc state).cc.made = b.cc.made := by
  cases hreg : b.scToAddrMap.lookup sc with
  | none => rw [UpdateSubConnState_stale b sc state hreg]; exact ⟨rfl, rfl⟩
  | some addr =>
    obtain ⟨b1, hcc, hU⟩ := UpdateSubConnState_registered b sc state addr hreg
    obtain ⟨_, _, _, _, h5, h6, _⟩ := updatePicker_fields b1
    rw [hU, h5, h6, hcc]
    exact ⟨rfl, rfl⟩

/-- From a balancer that satisfies the registry invariant, with a transport that
returns fresh handles, every sequence of operations runs without a panic and ends in
a balancer that satisfies the invariant. -/
theorem run_RegistryInv (ops : List Op) (b : routingBalancer)
    (hinv : RegistryInv b) (hfresh : FreshFactory b.cc.factory) :
    ∃ b', run b ops = some b' ∧ RegistryInv b' ∧ b'.cc.factory = b.cc.factory := by
  induction ops generalizing b with
  | nil => exact ⟨b, rfl, hinv, rfl⟩
  | cons op rest ih =>
    cases op with
    | resolve state =>
      obtain ⟨b1, h1, h2, _, h4, _⟩ := UpdateClientConnState_spec b state hinv hfresh
      obtain ⟨b', r1, r2, r3⟩ := ih b1 h2 (by rw [h4]; exact hfresh)
      refine ⟨b', ?_, r2, r3.trans h4⟩
      simp [run, step, h1, r1]
    | notify sc state =>
      have h2 := UpdateSubConnState_RegistryInv b sc state hinv
      have h4 := (UpdateSubConnState_cc b sc state).1
      obtain ⟨b', r1, r2, r3⟩ := ih _ h2 (by rw [h4]; exact hfresh)
      refine ⟨b', ?_, r2, r3.trans h4⟩
      simp [run, step, r1]

theorem RegistryInv_new (cc : ClientConn) : RegistryInv (newRoutingBalancer cc) := by
  refine ⟨rfl, ?_, ?_, ?_⟩
  · intro a h
    simp [newRoutingBalancer]
  · intro h a hl
    simp [newRoutingBalancer] at hl
  · intro h hh
    simp [newRoutingBalancer] at hh

/-- C8. Forward/reverse consistency: with a transport factory that returns a handle
distinct from every handle it returned before, every sequence of resolution updates
and state-change notifications applied to a new balancer runs to its end, and in the
balancer it leaves `subConnMap[a] = h` holds if and only if `scToAddrMap[h] = a`. -/
theorem forward_reverse_mutually_inverse (cc : ClientConn) (ops : List Op)
    (hfresh : FreshFactory cc.factory) :
    ∃ b, run (newRoutingBalancer cc) ops = some b ∧
      ∀ a h, b.subConnMap.lookup a = some h ↔ b.scToAddrMap.lookup h = some a := by
  obtain ⟨b, h1, h2, _⟩ := run_RegistryInv ops (newRoutingBalancer cc)
    (RegistryInv_new cc) hfresh
  exact ⟨b, h1, h2.inverse⟩

/-! ### Calls of `Shutdown` -/

theorem UpdateSubConnState_shutdownCount (b : routingBalancer) (sc : SubConn)
    (state : SubConnState) (h : SubConn) :
    shutdownCount (UpdateSubConnState b sc state).cc h = shutdownCount b.cc h := by
  cases hreg : b.scToAddrMap.lookup sc with
  | none => rw [UpdateSubConnState_stale b sc state hreg]
  | some addr =>
    obtain ⟨b1, hcc, hU⟩ := UpdateSubConnState_registered b sc state addr hreg
    obtain ⟨_, _, _, _, _, _, st, hcalls⟩ := updatePicker_fields b1
    unfold shutdownCount
    rw [hU, hcalls, hcc, List.count_append]
    simp [List.count_singleton]

theorem UpdateSubConnState_reverse_sub (b : routingBalancer) (sc : SubConn)
    (state : SubConnState) (h : SubConn) (a : Address)
    (hl : (UpdateSubConnState b sc state).scToAddrMap.lookup h = some a) :
    b.scToAddrMap.lookup h = some a := by
  cases hreg : b.scToAddrMap.lookup sc with
  | none => rw [UpdateSubConnState_stale b sc state hreg] at hl; exact hl
  | some addr =>
    by_cases h1 : state.ConnectivityState = ConnectivityState.Ready
    · rw [UpdateSubConnState_ready b sc state addr hreg h1,
        (updatePicker_fields _).2.1] at hl
      exact hl
    · by_cases h2 : state.ConnectivityState = ConnectivityState.Shutdown
      · rw [UpdateSubConnState_shutdown b sc state addr hreg h2,
          (updatePicker_fields _).2.1] at hl
        simp only [lookup_erase_ite] at hl
        by_cases hh : h = sc
        · simp [hh] at hl
        · rw [if_neg hh] at hl
          exact hl
      · rw [UpdateSubConnState_unready b sc state addr hreg h1 h2,
          (updatePicker_fields _).2.1] at hl
        exact hl

/-- A resolution update keeps the shutdown invariant. -/
theorem UpdateClientConnState_ShutdownInv (b b' : routingBalancer)
    (state : ClientConnState) (hinv : RegistryInv b) (hs : ShutdownInv b)
    (hfresh : FreshFactory b.cc.factory)
    (hU : UpdateClientConnState b state = some (none, b')) :
    ShutdownInv b' ∧ ∀ h, shutdownCount b.cc h ≤ shutdownCount b'.cc h := by
  obtain ⟨b2, u1, _, _, u4, u5, u6, _, u8, u9, u10⟩ :=
    UpdateClientConnState_spec b state hinv hfresh
  rw [hU] at u1
  have hb : b' = b2 := by
    have := Option.some.inj u1
    exact (Prod.mk.inj this).2
  subst hb
  have hcase : ∀ h, (∃ a, b.subConnMap.lookup a = some h ∧
      a ∉ state.ResolverState.Addresses) ∨
      ¬ ∃ a, b.subConnMap.lookup a = some h ∧ a ∉ state.ResolverState.Addresses :=
    fun h => Classical.em _
  refine ⟨⟨?_, ?_, ?_⟩, ?_⟩
  · intro h
    rcases hcase h with ⟨a, hl, ha⟩ | hno
    · rw [u9 a h hl ha, hs.regNotShut h a ((hinv.inverse a h).mp hl)]
    · rw [u10 h hno]
      exact hs.shutOnce h
  · intro h hpos
    rcases hcase h with ⟨a, hl, ha⟩ | hno
    · exact Created_mono (hinv.regCreated h a ((hinv.inverse a h).mp hl)) u4 u5
    · rw [u10 h hno] at hpos
      exact Created_mono (hs.shutCreated h hpos) u4 u5
  · intro h a hl
    have hnd : ¬ ∃ a, b.subConnMap.lookup a = some h ∧
        a ∉ state.ResolverState.Addresses := by
      rintro ⟨a0, hl0, ha0⟩
      have := (u8 a0 h hl0 ha0).2.2.1
      rw [hl] at this
      cases this
    rw [u10 h hnd]
    rcases u6 h a hl with hr | hr
    · exact hs.regNotShut h a hr
    · by_contra hne
      exact hr (hs.shutCreated h (Nat.pos_of_ne_zero hne))
  · intro h
    rcases hcase h with ⟨a, hl, ha⟩ | hno
    · rw [u9 a h hl ha]
      exact Nat.le_succ _
    · rw [u10 h hno]

/-- A state-change notification keeps the shutdown invariant. -/
theorem UpdateSubConnState_ShutdownInv (b : routingBalancer) (sc : SubConn)
    (state : SubConnState) (hs : ShutdownInv b) :
    ShutdownInv (UpdateSubConnState b sc state) := by
  obtain ⟨hf, hm⟩ := UpdateSubConnState_cc b sc state
  refine ⟨?_, ?_, ?_⟩
  · intro h
    rw [UpdateSubConnState_shutdownCount]
    exact hs.shutOnce h
  · intro h hpos
    rw [UpdateSubConnState_shutdownCount] at hpos
    exact Created_mono (hs.shutCreated h hpos) hf (Nat.le_of_eq hm.symm)
  · intro h a hl
    rw [UpdateSubConnState_shutdownCount]
    exact hs.regNotShut h a (UpdateSubConnState_reverse_sub b sc state h a hl)

/-- From a balancer that satisfies both invariants, with a transport that returns
fresh handles, every sequence of operations runs to its end, keeps both invariants and
never lowers the number of `Shutdown` calls on a handle. -/
theorem run_invariants (ops : List Op) (b : routingBalancer)
    (hinv : RegistryInv b) (hs : ShutdownInv b) (hfresh : FreshFactory b.cc.factory) :
    ∃ b', run b ops = some b' ∧ RegistryInv b' ∧ ShutdownInv b' ∧
      b'.cc.factory = b.cc.factory ∧
      ∀ h, shutdownCount b.cc h ≤ shutdownCount b'.cc h := by
  induction ops generalizing b with
  | nil => exact ⟨b, rfl, hinv, hs, rfl, fun _ => Nat.le_refl _⟩
  | cons op rest ih =>
    cases op with
    | resolve state =>
      obtain ⟨b1, h1, h2, _, h4, _⟩ := UpdateClientConnState_spec b state hinv hfresh
      obtain ⟨s1, s2⟩ := UpdateClientConnState_ShutdownInv b b1 state hinv hs hfresh h1
      obtain ⟨b', r1, r2, r3, r4, r5⟩ := ih b1 h2 s1 (by rw [h4]; exact hfresh)
      refine ⟨b', ?_, r2, r3, r4.trans h4, fun h => Nat.le_trans (s2 h) (r5 h)⟩
      simp [run, step, h1, r1]
    | notify sc state =>
      have h2 := UpdateSubConnState_RegistryInv b sc state hinv
      have s1 := UpdateSubConnState_ShutdownInv b sc state hs
      have h4 := (UpdateSubConnState_cc b sc state).1
      obtain ⟨b', r1, r2, r3, r4, r5⟩ := ih _ h2 s1 (by rw [h4]; exact hfresh)
      refine ⟨b', ?_, r2, r3, r4.trans h4, ?_⟩
      · simp [run, step, r1]
      · intro h
        have := r5 h
        rw [UpdateSubConnState_shutdownCount] at this
        exact this

theorem run_append (l1 l2 : List Op) (b : routingBalancer) :
    run b (l1 ++ l2) = (run b l1).bind (fun b1 => run b1 l2) := by
  induction l1 generalizing b with
  | nil => rfl
  | cons op rest ih =>
    simp only [List.cons_append, run]
    cases step b op with
    | none => rfl
    | some b1 => exact ih b1

theorem foldl_record_calls {α : Type} (f : α → Call) (l : List α) (cc : ClientConn) :
    (l.foldl (fun cc e => cc.record (f e)) cc).calls = cc.calls ++ l.map f := by
  induction l generalizing cc with
  | nil => simp
  | cons e rest ih =>
    rw [List.foldl_cons, ih (cc.record (f e))]
    simp only [ClientConn.record, List.map_cons, List.append_assoc, List.singleton_append]

/-- How `Close` changes the number of `Shutdown` calls on a handle: one more for a
registered handle, none for any other. -/
theorem Close_shutdownCount (b : routingBalancer) (hinv : RegistryInv b) :
    (∀ a h, b.subConnMap.lookup a = some h →
      shutdownCount (Close b).cc h = shutdownCount b.cc h + 1) ∧
    (∀ h, (¬ ∃ a, b.subConnMap.lookup a = some h) →
      shutdownCount (Close b).cc h = shutdownCount b.cc h) := by
  have hcalls : (Close b).cc.calls
      = b.cc.calls ++ (b.subConnMap.entries.map (fun e => e.2)).map Call.Shutdown := by
    unfold Close
    simp only
    rw [foldl_record_calls (fun e : Sigma (fun _ : Address => SubConn) => Call.Shutdown e.2),
      List.map_map]
    rfl
  have hinj : Function.Injective Call.Shutdown := fun x y e => by
    cases e
    rfl
  have hnd := values_nodup b.subConnMap hinv.forward_injective
  have hcount : ∀ h, shutdownCount (Close b).cc h
      = shutdownCount b.cc h + (b.subConnMap.entries.map (fun e => e.2)).count h := by
    intro h
    unfold shutdownCount
    rw [hcalls, List.count_append, List.count_map_of_injective _ _ hinj]
  have hmem : ∀ h, h ∈ b.subConnMap.entries.map (fun e => e.2)
      ↔ ∃ a, b.subConnMap.lookup a = some h := by
    intro h
    simp only [List.mem_map]
    constructor
    · rintro ⟨⟨a, h'⟩, hm, rfl⟩
      exact ⟨a, AList.mem_lookup_iff.mpr hm⟩
    · rintro ⟨a, hl⟩
      exact ⟨⟨a, h⟩, AList.mem_lookup_iff.mp hl, rfl⟩
  constructor
  · intro a h hl
    rw [hcount h, List.count_eq_one_of_mem hnd ((hmem h).mpr ⟨a, hl⟩)]
  · intro h hno
    rw [hcount h, List.count_eq_zero_of_not_mem (fun hm => hno ((hmem h).mp hm)),
      Nat.add_zero]

theorem ShutdownInv_new (cc : ClientConn) (hcalls : cc.calls = []) :
    ShutdownInv (newRoutingBalancer cc) := by
  refine ⟨?_, ?_, ?_⟩
  · intro h
    simp [shutdownCount, newRoutingBalancer, hcalls]
  · intro h hpos
    simp [shutdownCount, newRoutingBalancer, hcalls] at hpos
  · intro h a hl
    simp [newRoutingBalancer] at hl

/-- The number of `Shutdown` calls on a handle once the balancer is closed: at most
one, and exactly one if the handle was shut down before or is registered. -/
theorem Close_shutdown_once (b : routingBalancer) (hinv : RegistryInv b)
    (hs : ShutdownInv b) (h : SubConn) :
    shutdownCount (Close b).cc h ≤ 1 ∧
    (shutdownCount b.cc h = 1 → shutdownCount (Close b).cc h = 1) ∧
    (∀ a, b.subConnMap.lookup a = some h → shutdownCount (Close b).cc h = 1) := by
  obtain ⟨c1, c2⟩ := Close_shutdownCount b hinv
  have hreg : ∀ a, b.subConnMap.lookup a = some h → shutdownCount (Close b).cc h = 1 := by
    intro a hl
    rw [c1 a h hl, hs.regNotShut h a ((hinv.inverse a h).mp hl)]
  by_cases hex : ∃ a, b.subConnMap.lookup a = some h
  · obtain ⟨a, hl⟩ := hex
    exact ⟨Nat.le_of_eq (hreg a hl), fun _ => hreg a hl, hreg⟩
  · rw [c2 h hex]
    exact ⟨hs.shutOnce h, fun e => e, fun a hl => absurd ⟨a, hl⟩ hex⟩

/-- C9. Shutdown exactly once: with a transport that returns fresh handles and on
which no call has been made yet, every sequence of resolution updates and state-change
notifications applied to a new balancer runs to its end; at that point, and also after
a final `Close`, the balancer has called `Shutdown` at most once on any handle; a
handle that is registered when `Close` runs has then been shut down exactly once; and
a handle whose address a resolution update of the sequence dropped has been shut down
exactly once, with or without the final `Close`. -/
theorem shutdown_exactly_once (cc : ClientConn) (ops : List Op)
    (hfresh : FreshFactory cc.factory) (hcalls : cc.calls = []) :
    ∃ b, run (newRoutingBalancer cc) ops = some b ∧
      (∀ h, shutdownCount b.cc h ≤ 1) ∧
      (∀ h, shutdownCount (Close b).cc h ≤ 1) ∧
      (∀ a h, b.subConnMap.lookup a = some h → shutdownCount (Close b).cc h = 1) ∧
      (∀ ops1 state ops2 b1 a h,
        ops = ops1 ++ Op.resolve state :: ops2 →
        run (newRoutingBalancer cc) ops1 = some b1 →
        b1.subConnMap.lookup a = some h →
        a ∉ state.ResolverState.Addresses →
        shutdownCount b.cc h = 1 ∧ shutdownCount (Close b).cc h = 1) := by
  obtain ⟨b, hrun, hinv, hs, _, _⟩ := run_invariants ops (newRoutingBalancer cc)
    (RegistryInv_new cc) (ShutdownInv_new cc hcalls) hfresh
  refine ⟨b, hrun, hs.shutOnce, fun h => (Close_shutdown_once b hinv hs h).1,
    fun a h hl => (Close_shutdown_once b hinv hs h).2.2 a hl, ?_⟩
  intro ops1 state ops2 b1 a h hops hrun1 hl ha
  -- the balancer at the update that drops the address
  obtain ⟨b1', p1, p2, p3, p4, _⟩ := run_invariants ops1 (newRoutingBalancer cc)
    (RegistryInv_new cc) (ShutdownInv_new cc hcalls) hfresh
  rw [hrun1] at p1
  have hb1 : b1 = b1' := Option.some.inj p1
  subst hb1
  have hfresh1 : FreshFactory b1.cc.factory := by rw [p4]; exact hfresh
  obtain ⟨b2, u1, u2, _, u4, _, _, _, _, u9, _⟩ :=
    UpdateClientConnState_spec b1 state p2 hfresh1
  obtain ⟨s1, _⟩ := UpdateClientConnState_ShutdownInv b1 b2 state p2 p3 hfresh1 u1
  have hone : shutdownCount b2.cc h = 1 := by
    rw [u9 a h hl ha, p3.regNotShut h a ((p2.inverse a h).mp hl)]
  obtain ⟨b3, q1, _, _, _, q5⟩ := run_invariants ops2 b2 u2 s1 (by rw [u4]; exact hfresh1)
  have hb : run (newRoutingBalancer cc) ops = some b3 := by
    rw [hops, run_append, hrun1]
    simp [run, step, u1, q1]
  rw [hrun] at hb
  have hbb : b = b3 := Option.some.inj hb
  subst hbb
  have hfin : shutdownCount b.cc h = 1 := by
    have h1 := q5 h
    have h2 := hs.shutOnce h
    omega
  exact ⟨hfin, (Close_shutdown_once b hinv hs h).2.1 hfin⟩

theorem countingConn_fresh : FreshFactory countingConn.factory := by
  intro i j h hi hj
  have e : (some (100 + i) : Option SubConn) = some (100 + j) := hi.trans hj.symm
  have e2 : 100 + i = 100 + j := Option.some.inj e
  omega

/-- C8 at the removal scenario, read at address B and its handle 101. -/
theorem forward_reverse_mutually_inverse_witness :
    ∃ b, run (newRoutingBalancer countingConn) removalScenario = some b ∧
      (b.subConnMap.lookup addrB = some 101 ↔ b.scToAddrMap.lookup 101 = some addrB) :=
  let ⟨b, h1, h2⟩ := forward_reverse_mutually_inverse countingConn removalScenario
    countingConn_fresh
  ⟨b, h1, h2 addrB 101⟩

/-- C9 at the removal scenario, read at handle 100: the handle of address A, which the
second resolution update drops, has been shut down exactly once, with or without a
final `Close`. -/
theorem shutdown_exactly_once_witness :
    ∃ b, run (newRoutingBalancer countingConn) removalScenario = some b ∧
      shutdownCount b.cc 100 = 1 ∧ shutdownCount (Close b).cc 100 = 1 := by
  obtain ⟨b, h1, _, _, _, h5⟩ := shutdown_exactly_once countingConn removalScenario
    countingConn_fresh rfl
  obtain ⟨b1, hb1, _⟩ := run_RegistryInv (removalScenario.take 3)
    (newRoutingBalancer countingConn) (RegistryInv_new countingConn) countingConn_fresh
  have e : (run (newRoutingBalancer countingConn) (removalScenario.take 3)).map
      (fun b => b.subConnMap.lookup addrA) = some (some 100) := by decide
  rw [hb1] at e
  have hl : b1.subConnMap.lookup addrA = some 100 := by simpa using e
  exact ⟨b, h1, h5 (removalScenario.take 3) ⟨⟨[addrB]⟩⟩ (removalScenario.drop 4) b1 addrA 100
    rfl hb1 hl (by decide)⟩

/-! ### The usable set -/

theorem lastNotified_append_notify (hist : List Op) (sc : SubConn) (state : SubConnState)
    (h : SubConn) :
    lastNotified (hist ++ [Op.notify sc state]) h
      = if sc = h then some state.ConnectivityState else lastNotified hist h := by
  induction hist with
  | nil => simp [lastNotified]
  | cons op rest ih =>
    have ih' : lastNotified (List.append rest [Op.notify sc state]) h
        = if sc = h then some state.ConnectivityState else lastNotified rest h := ih
    simp only [List.cons_append, lastNotified]
    rw [ih']
    by_cases e : sc = h
    · simp [e]
    · simp [e]

theorem lastNotified_append_resolve (hist : List Op) (state : ClientConnState)
    (h : SubConn) :
    lastNotified (hist ++ [Op.resolve state]) h = lastNotified hist h := by
  induction hist with
  | nil => simp [lastNotified]
  | cons op rest ih =>
    have ih' : lastNotified (List.append rest [Op.resolve state]) h
        = lastNotified rest h := ih
    simp only [List.cons_append, lastNotified]
    rw [ih']

/-- How a state-change notification changes the membership of handles in the usable
set. -/
theorem UpdateSubConnState_readySCs (b : routingBalancer) (sc : SubConn)
    (state : SubConnState) :
    (∀ h, h ≠ sc → (h ∈ (UpdateSubConnState b sc state).readySCs ↔ h ∈ b.readySCs)) ∧
    (∀ addr, b.scToAddrMap.lookup sc = some addr →
      (sc ∈ (UpdateSubConnState b sc state).readySCs
        ↔ state.ConnectivityState = ConnectivityState.Ready)) := by
  cases hreg : b.scToAddrMap.lookup sc with
  | none =>
    rw [UpdateSubConnState_stale b sc state hreg]
    exact ⟨fun _ _ => Iff.rfl, fun addr hx => by cases hx⟩
  | some addr =>
    by_cases h1 : state.ConnectivityState = ConnectivityState.Ready
    · rw [UpdateSubConnState_ready b sc state addr hreg h1, updatePicker_readySCs]
      refine ⟨fun h hne => ?_, fun _ _ => ?_⟩
      · simp [AList.mem_insert, hne]
      · simp [AList.mem_insert, h1]
    · by_cases h2 : state.ConnectivityState = ConnectivityState.Shutdown
      · rw [UpdateSubConnState_shutdown b sc state addr hreg h2, updatePicker_readySCs]
        refine ⟨fun h hne => ?_, fun _ _ => ?_⟩
        · simp [AList.mem_erase, hne]
        · simp [AList.mem_erase, h1]
      · rw [UpdateSubConnState_unready b sc state addr hreg h1 h2, updatePicker_readySCs]
        refine ⟨fun h hne => ?_, fun _ _ => ?_⟩
        · simp [AList.mem_erase, hne]
        · simp [AList.mem_erase, h1]

/-- The usable set of registered handles follows their most recent notification, along
every run in which notifications are delivered for created handles only. -/
theorem run_tracks_notifications (ops hist : List Op) (b : routingBalancer)
    (hinv : RegistryInv b) (hfresh : FreshFactory b.cc.factory)
    (htrack : ∀ h a, b.scToAddrMap.lookup h = some a →
      (h ∈ b.readySCs ↔ lastNotified hist h = some ConnectivityState.Ready))
    (hnot : ∀ h, lastNotified hist h ≠ none → b.cc.Created h)
    (hdel : wellDelivered b ops = true) :
    ∃ b', run b ops = some b' ∧ RegistryInv b' ∧ b'.cc.factory = b.cc.factory ∧
      ∀ h a, b'.scToAddrMap.lookup h = some a →
        (h ∈ b'.readySCs ↔ lastNotified (hist ++ ops) h = some ConnectivityState.Ready) := by
  induction ops generalizing b hist with
  | nil =>
    refine ⟨b, rfl, hinv, rfl, ?_⟩
    simpa using htrack
  | cons op rest ih =>
    cases op with
    | resolve state =>
      obtain ⟨b1, u1, u2, u3, u4, u5, u6, _⟩ :=
        UpdateClientConnState_spec b state hinv hfresh
      have hstep : step b (Op.resolve state) = some b1 := by simp [step, u1]
      have hdel1 : wellDelivered b1 rest = true := by
        simp only [wellDelivered, hstep, Bool.and_eq_true] at hdel
        exact hdel.2
      obtain ⟨b', r1, r2, r3, r4⟩ := ih (hist ++ [Op.resolve state]) b1 u2
        (by rw [u4]; exact hfresh)
        (by
          intro h a hl
          rw [lastNotified_append_resolve, u3]
          rcases u6 h a hl with hr | hr
          · exact htrack h a hr
          · have h1 : h ∉ b.readySCs := fun hm => hr (hinv.readyCreated h hm)
            have h2 : lastNotified hist h = none := by
              by_contra hne
              exact hr (hnot h hne)
            simp [h1, h2])
        (by
          intro h hne
          rw [lastNotified_append_resolve] at hne
          exact Created_mono (hnot h hne) u4 u5)
        hdel1
      refine ⟨b', ?_, r2, r3.trans u4, ?_⟩
      · simp [run, hstep, r1]
      · intro h a hl
        have := r4 h a hl
        rwa [List.append_assoc, List.singleton_append] at this
    | notify sc state =>
      have hstep : step b (Op.notify sc state) = some (UpdateSubConnState b sc state) := rfl
      simp only [wellDelivered, hstep, Bool.and_eq_true, decide_eq_true_eq] at hdel
      have hcre : b.cc.Created sc := hdel.1
      have hdel1 : wellDelivered (UpdateSubConnState b sc state) rest = true := hdel.2
      obtain ⟨hf, hm⟩ := UpdateSubConnState_cc b sc state
      obtain ⟨m1, m2⟩ := UpdateSubConnState_readySCs b sc state
      obtain ⟨b', r1, r2, r3, r4⟩ := ih (hist ++ [Op.notify sc state])
        (UpdateSubConnState b sc state)
        (UpdateSubConnState_RegistryInv b sc state hinv)
        (by rw [hf]; exact hfresh)
        (by
          intro h a hl
          have hl0 := UpdateSubConnState_reverse_sub b sc state h a hl
          rw [lastNotified_append_notify]
          by_cases e : sc = h
          · subst e
            rw [if_pos rfl, m2 a hl0]
            constructor
            · intro hx
              rw [hx]
            · intro hx
              exact Option.some.inj hx
          · rw [if_neg e, m1 h (fun x => e x.symm)]
            exact htrack h a hl0)
        (by
          intro h hne
          rw [lastNotified_append_notify] at hne
          by_cases e : sc = h
          · subst e
            exact Created_mono hcre hf (Nat.le_of_eq hm.symm)
          · rw [if_neg e] at hne
            exact Created_mono (hnot h hne) hf (Nat.le_of_eq hm.symm))
        hdel1
      refine ⟨b', ?_, r2, r3.trans hf, ?_⟩
      · simp [run, hstep, r1]
      · intro h a hl
        have := r4 h a hl
        rwa [List.append_assoc, List.singleton_append] at this

/-- C7, the claim as stated fails. Handle 100 is created for address A and reports
Ready; the next resolution update drops A. Afterwards A and its handle are gone from
the forward, reverse and nodeID maps, but handle 100 is still a key of `readySCs`. -/
theorem usable_set_keeps_dropped_handle :
    (run (newRoutingBalancer countingConn)
        [Op.resolve ⟨⟨[addrA]⟩⟩, Op.notify 100 ⟨ConnectivityState.Ready⟩]).map
      (fun b => (b.subConnMap.lookup addrA, b.readySCs.lookup 100))
      = some (some 100, some "a:1") ∧
    (run (newRoutingBalancer countingConn)
        [Op.resolve ⟨⟨[addrA]⟩⟩, Op.notify 100 ⟨ConnectivityState.Ready⟩,
          Op.resolve ⟨⟨[]⟩⟩]).map
      (fun b => (b.subConnMap.lookup addrA, b.scToAddrMap.lookup 100,
        b.nodeIDMap.lookup addrA, b.readySCs.lookup 100))
      = some (none, none, none, some "a:1") := by
  refine ⟨by decide, by decide⟩

/-! ## The routing-intent carrier -/

theorem Value_WithValue_same (ctx : Context) (key : CtxKey) (val : AnyValue) :
    (ctx.WithValue key val).Value key = some val := by
  simp [Context.WithValue, Context.Value]

theorem Value_WithValue_ne (ctx : Context) (key key' : CtxKey) (val : AnyValue)
    (hne : key ≠ key') : (ctx.WithValue key val).Value key' = ctx.Value key' := by
  simp [Context.WithValue, Context.Value, hne]

theorem contextKeys_ne : ExcludedNodeIDContextKey ≠ SpecificNodeIDContextKey := by
  decide

theorem GetSpecificNodeID_WithSpecificNodeID (ctx : Context) (id : String)
    (hid : id ≠ "") : GetSpecificNodeID (WithSpecificNodeID ctx id) = (id, true) := by
  simp [GetSpecificNodeID, WithSpecificNodeID, hid, Value_WithValue_same, assertString]

theorem GetExcludeNode_WithExcludedNodeID (ctx : Context) (id : String)
    (hid : id ≠ "") : GetExcludeNode (WithExcludedNodeID ctx id) = (id, true) := by
  simp [GetExcludeNode, WithExcludedNodeID, hid, Value_WithValue_same, assertString]

theorem GetSpecificNodeID_WithExcludedNodeID (ctx : Context) (id : String) :
    GetSpecificNodeID (WithExcludedNodeID ctx id) = GetSpecificNodeID ctx := by
  by_cases hid : id = ""
  · simp [WithExcludedNodeID, hid]
  · simp [GetSpecificNodeID, WithExcludedNodeID, hid,
      Value_WithValue_ne _ _ _ _ contextKeys_ne]

theorem GetExcludeNode_WithSpecificNodeID (ctx : Context) (id : String) :
    GetExcludeNode (WithSpecificNodeID ctx id) = GetExcludeNode ctx := by
  by_cases hid : id = ""
  · simp [WithSpecificNodeID, hid]
  · simp [GetExcludeNode, WithSpecificNodeID, hid,
      Value_WithValue_ne _ _ _ _ contextKeys_ne.symm]

/-- With a preferred-node intent attached, `Pick` reads nothing else of the context. -/
theorem Pick_preferred_only (p : routingPicker) (info info' : PickInfo) (pid : String)
    (h1 : GetSpecificNodeID info.Ctx = (pid, true))
    (h2 : GetSpecificNodeID info'.Ctx = (pid, true)) :
    Pick p info = Pick p info' := by
  unfold Pick
  rw [h1, h2]
  simp

/-- C12. Preferred takes precedence over excluded: for every picker (any counter),
every non-empty preferred id `pid` and every excluded id `e`, `Pick` on a context with
both intents attached, in either order, returns the same outcome and the same picker
(counter included) as `Pick` on the context with the preferred intent alone; more
generally the result of `Pick` is the same on any two contexts whose preferred-node
intent is `pid`. Nothing is assumed about `e` or about `pid` being in the snapshot. -/
theorem preferred_takes_precedence (p : routingPicker) (ctx : Context)
    (pid e : String) (hpid : pid ≠ "") :
    Pick p ⟨WithExcludedNodeID (WithSpecificNodeID ctx pid) e⟩
      = Pick p ⟨WithSpecificNodeID ctx pid⟩ ∧
    Pick p ⟨WithSpecificNodeID (WithExcludedNodeID ctx e) pid⟩
      = Pick p ⟨WithSpecificNodeID ctx pid⟩ ∧
    (∀ info info' : PickInfo, GetSpecificNodeID info.Ctx = (pid, true) →
      GetSpecificNodeID info'.Ctx = (pid, true) → Pick p info = Pick p info') := by
  have hs := GetSpecificNodeID_WithSpecificNodeID ctx pid hpid
  refine ⟨?_, ?_, fun info info' h1 h2 => Pick_preferred_only p info info' pid h1 h2⟩
  · apply Pick_preferred_only p _ _ pid _ hs
    rw [GetSpecificNodeID_WithExcludedNodeID]
    exact hs
  · exact Pick_preferred_only p _ _ pid
      (GetSpecificNodeID_WithSpecificNodeID _ pid hpid) hs

/-- C12 at a concrete picker: preferred `"y"` together with excluded `"y"`, and
preferred `"w"`, absent from the snapshot, together with excluded `"x"`. -/
theorem preferred_takes_precedence_witness :
    Pick ⟨[10, 11, 12], ["x", "y", "z"], 5⟩
        ⟨WithExcludedNodeID (WithSpecificNodeID [] "y") "y"⟩
      = Pick ⟨[10, 11, 12], ["x", "y", "z"], 5⟩ ⟨WithSpecificNodeID [] "y"⟩ ∧
    Pick ⟨[10, 11, 12], ["x", "y", "z"], 5⟩
        ⟨WithExcludedNodeID (WithSpecificNodeID [] "w") "x"⟩
      = Pick ⟨[10, 11, 12], ["x", "y", "z"], 5⟩ ⟨WithSpecificNodeID [] "w"⟩ :=
  ⟨(preferred_takes_precedence ⟨[10, 11, 12], ["x", "y", "z"], 5⟩ [] "y" "y"
      (by decide)).1,
    (preferred_takes_precedence ⟨[10, 11, 12], ["x", "y", "z"], 5⟩ [] "w" "x"
      (by decide)).1⟩

/-- C18. Routing-intent carrier law: attaching the empty id returns the context itself;
attaching a non-empty preferred id makes `GetSpecificNodeID` report it and leaves
`GetExcludeNode` as on the given context; attaching a non-empty excluded id makes
`GetExcludeNode` report it and leaves `GetSpecificNodeID` as on the given context; and
a context that holds nothing under the two keys (the empty context in particular)
makes both getters report absent. -/
theorem routing_intent_carrier_law (ctx : Context) (id : String) :
    WithSpecificNodeID ctx "" = ctx ∧ WithExcludedNodeID ctx "" = ctx ∧
    (id ≠ "" → GetSpecificNodeID (WithSpecificNodeID ctx id) = (id, true) ∧
      GetExcludeNode (WithSpecificNodeID ctx id) = GetExcludeNode ctx) ∧
    (id ≠ "" → GetExcludeNode (WithExcludedNodeID ctx id) = (id, true) ∧
      GetSpecificNodeID (WithExcludedNodeID ctx id) = GetSpecificNodeID ctx) ∧
    (ctx.Value SpecificNodeIDContextKey = none → GetSpecificNodeID ctx = ("", false)) ∧
    (ctx.Value ExcludedNodeIDContextKey = none → GetExcludeNode ctx = ("", false)) ∧
    GetSpecificNodeID [] = ("", false) ∧ GetExcludeNode [] = ("", false) := by
  refine ⟨by simp [WithSpecificNodeID], by simp [WithExcludedNodeID], ?_, ?_, ?_, ?_,
    by decide, by decide⟩
  · intro hid
    exact ⟨GetSpecificNodeID_WithSpecificNodeID ctx id hid,
      GetExcludeNode_WithSpecificNodeID ctx id⟩
  · intro hid
    exact ⟨GetExcludeNode_WithExcludedNodeID ctx id hid,
      GetSpecificNodeID_WithExcludedNodeID ctx id⟩
  · intro h
    simp [GetSpecificNodeID, h, assertString]
  · intro h
    simp [GetExcludeNode, h, assertString]

/-- C18 at a concrete context: preferred `"n1"` attached over an excluded `"n2"`. -/
theorem routing_intent_carrier_law_witness :
    GetSpecificNodeID (WithSpecificNodeID (WithExcludedNodeID [] "n2") "n1")
      = ("n1", true) ∧
    GetExcludeNode (WithSpecificNodeID (WithExcludedNodeID [] "n2") "n1")
      = GetExcludeNode (WithExcludedNodeID [] "n2") :=
  (routing_intent_carrier_law (WithExcludedNodeID [] "n2") "n1").2.2.1 (by decide)

/-! ## Notifications -/

/-- C14. Stale notifications are ignored: for every balancer state, every handle that
is not a key of the reverse map `scToAddrMap` and every connectivity state, the
notification returns the balancer as it was: the four maps are unchanged and no call
is made on the transport, hence no `UpdateState` and no new picker. -/
theorem stale_notification_ignored (b : routingBalancer) (sc : SubConn)
    (state : SubConnState) (hstale : sc ∉ b.scToAddrMap) :
    UpdateSubConnState b sc state = b ∧
    (UpdateSubConnState b sc state).subConnMap = b.subConnMap ∧
    (UpdateSubConnState b sc state).scToAddrMap = b.scToAddrMap ∧
    (UpdateSubConnState b sc state).nodeIDMap = b.nodeIDMap ∧
    (UpdateSubConnState b sc state).readySCs = b.readySCs ∧
    (UpdateSubConnState b sc state).cc.calls = b.cc.calls ∧
    (UpdateSubConnState b sc state).cc.published = b.cc.published := by
  have h := UpdateSubConnState_stale b sc state (AList.lookup_eq_none.mpr hstale)
  rw [h]
  exact ⟨rfl, rfl, rfl, rfl, rfl, rfl, rfl⟩

/-- C14 at a concrete balancer: handle 7 is unknown to a balancer that has handle 100
registered and usable. -/
theorem stale_notification_ignored_witness :
    (UpdateSubConnState
        { newRoutingBalancer countingConn with
          scToAddrMap := AList.singleton 100 addrA
          readySCs := AList.singleton 100 "a:1" }
        7 ⟨ConnectivityState.Shutdown⟩).cc.calls = [] :=
  (stale_notification_ignored
    { newRoutingBalancer countingConn with
      scToAddrMap := AList.singleton 100 addrA
      readySCs := AList.singleton 100 "a:1" }
    7 ⟨ConnectivityState.Shutdown⟩ (by decide)).2.2.2.2.2.1

/-- C13, the code at the late-shutdown scenario. Handle 100 is created for address A
and reports Ready; a resolution update drops A; the Shutdown notification for handle
100 then changes nothing and makes no call: handle 100 is absent from the forward,
reverse and nodeID maps but is still a key of `readySCs`. -/
theorem late_shutdown_leaves_handle_usable :
    (run (newRoutingBalancer countingConn) (lateShutdownScenario.take 2)).map
        (fun b => (b.subConnMap.lookup addrA, b.scToAddrMap.lookup 100))
      = some (some 100, some addrA) ∧
    (run (newRoutingBalancer countingConn) (lateShutdownScenario.take 3)).map
        (fun b => (b.readySCs.lookup 100, b.cc.calls.length))
      = some (some "a:1", 4) ∧
    (run (newRoutingBalancer countingConn) lateShutdownScenario).map
        (fun b => (b.subConnMap.lookup addrA, b.scToAddrMap.lookup 100,
          b.nodeIDMap.lookup addrA, b.readySCs.lookup 100, b.cc.calls.length))
      = some (none, none, none, some "a:1", 4) := by
  refine ⟨by decide, by decide, by decide⟩

/-! ## Selection is total -/

theorem findSpecific_some_lt (x : String) (l : List String) (i k : Nat)
    (h : findSpecific x l i = some k) : i ≤ k ∧ k - i < l.length := by
  induction l generalizing i with
  | nil => simp [findSpecific] at h
  | cons a rest ih =>
    by_cases ha : a = x
    · simp [findSpecific, ha] at h
      subst h
      simp
    · simp only [findSpecific, if_neg ha] at h
      have := ih (i + 1) h
      simp only [List.length_cons]
      omega

/-- With every nodeID equal to the excluded one, `Pick` is plain round robin. -/
theorem Pick_all_excluded (p : routingPicker) (info : PickInfo) (X : String)
    (hN : 1 ≤ p.subConns.length)
    (hspec : (GetSpecificNodeID info.Ctx).2 = false)
    (hexc : GetExcludeNode info.Ctx = (X, true))
    (hall : ∀ id ∈ p.nodeIDs, id = X) :
    Pick p info = pickRoundRobin p := by
  have h0 : p.subConns.length ≠ 0 := by omega
  rcases hs : GetSpecificNodeID info.Ctx with ⟨s, b⟩
  rw [hs] at hspec
  simp only at hspec
  subst hspec
  have hc := (candidateIndexes_length_eq_zero X p.nodeIDs 0).mpr hall
  have hpos : p.subConns.length > 0 := by omega
  unfold Pick
  rw [if_neg h0, hs, hexc]
  by_cases h1 : p.subConns.length = 1
  · simp [h1]
  · simp [h1, hc, hpos]

/-- On a picker whose two sequences have equal length, `Pick` does not panic: it
returns a handle of the snapshot without error, or no handle with an error; the
snapshot itself is never changed. -/
theorem Pick_outcome (p : routingPicker) (info : PickInfo)
    (hlen : p.subConns.length = p.nodeIDs.length) :
    ((∃ h d, h ∈ p.subConns ∧ (Pick p info).1 = some (⟨some h, d⟩, none)) ∨
      (∃ e, (Pick p info).1 = some (⟨none, false⟩, some e))) ∧
    (Pick p info).2.subConns = p.subConns ∧ (Pick p info).2.nodeIDs = p.nodeIDs := by
  by_cases h0 : p.subConns.length = 0
  · have hP : Pick p info
        = (some (⟨none, false⟩, some PickError.ErrNoSubConnAvailable), p) := by
      unfold Pick
      rw [if_pos h0]
    rw [hP]
    exact ⟨Or.inr ⟨_, rfl⟩, rfl, rfl⟩
  · have hN : 1 ≤ p.subConns.length := by omega
    have hrr : ((∃ h d, h ∈ p.subConns ∧ (pickRoundRobin p).1 = some (⟨some h, d⟩, none)) ∨
          (∃ e, (pickRoundRobin p).1 = some (⟨none, false⟩, some e))) ∧
        (pickRoundRobin p).2.subConns = p.subConns ∧
        (pickRoundRobin p).2.nodeIDs = p.nodeIDs := by
      obtain ⟨h, hget, hrr⟩ := pickRoundRobin_eq p hN
      rw [hrr]
      exact ⟨Or.inl ⟨h, true, List.getElem?_mem hget, rfl⟩, rfl, rfl⟩
    rcases hs : GetSpecificNodeID info.Ctx with ⟨pid, hasSpecific⟩
    cases hasSpecific with
    | true =>
      cases hf : findSpecific pid p.nodeIDs 0 with
      | none =>
        have hP : Pick p info
            = (some (⟨none, false⟩, some (unavailableSpecific pid)), p) := by
          unfold Pick
          rw [if_neg h0, hs]
          simp only [if_true, hf]
        rw [hP]
        exact ⟨Or.inr ⟨_, rfl⟩, rfl, rfl⟩
      | some i =>
        have hi := findSpecific_some_lt pid p.nodeIDs 0 i hf
        have hi' : i < p.subConns.length := by omega
        have hP : Pick p info = (some (⟨some p.subConns[i], false⟩, none), p) := by
          unfold Pick
          rw [if_neg h0, hs]
          simp only [if_true, hf, List.getElem?_eq_getElem hi']
        rw [hP]
        exact ⟨Or.inl ⟨_, false, List.getElem_mem hi', rfl⟩, rfl, rfl⟩
    | false =>
      have hspec : (GetSpecificNodeID info.Ctx).2 = false := by rw [hs]
      rcases he : GetExcludeNode info.Ctx with ⟨X, hasExclude⟩
      cases hasExclude with
      | false =>
        rw [Pick_no_intent p info hN hspec (by rw [he])]
        exact hrr
      | true =>
        by_cases hall : ∀ id ∈ p.nodeIDs, id = X
        · rw [Pick_all_excluded p info X hN hspec he hall]
          exact hrr
        · have halt : ∃ id ∈ p.nodeIDs, id ≠ X := by
            by_contra hno
            apply hall
            intro id hid
            by_contra hne
            exact hno ⟨id, hid, hne⟩
          obtain ⟨⟨r, h, i, id, hr, hsc, hget, _, _⟩, hst⟩ :=
            Pick_excluded p info X hlen hN hspec he halt
          rw [hst]
          refine ⟨Or.inl ⟨h, r.Done, List.getElem?_mem hget, ?_⟩, rfl, rfl⟩
          rw [hr]
          cases r
          simp only at hsc
          subst hsc
          rfl

/-- C17. Selection is total and fails only as unavailable: on every picker whose
handle and nodeID sequences have equal length (zero included), for every counter value
and every context, `Pick` does not panic (no index out of range, no division by zero)
and returns either a handle that is an element of `subConns` together with the nil
error, or no handle together with an error that is `ErrNoSubConnAvailable` or a status
error of code Unavailable: a handle is returned exactly when the error is nil. -/
theorem selection_total (p : routingPicker) (info : PickInfo)
    (hlen : p.subConns.length = p.nodeIDs.length) :
    ∃ (r : PickResult) (err : Option PickError), (Pick p info).1 = some (r, err) ∧
      ((∃ h, r.SubConn = some h ∧ h ∈ p.subConns ∧ err = none) ∨
        (r.SubConn = none ∧ ∃ e, err = some e ∧
          (e = PickError.ErrNoSubConnAvailable ∨ ∃ msg, e = PickError.Unavailable msg))) ∧
      (r.SubConn.isSome = true ↔ err = none) := by
  rcases (Pick_outcome p info hlen).1 with ⟨h, d, hm, hP⟩ | ⟨e, hP⟩
  · refine ⟨_, _, hP, Or.inl ⟨h, rfl, hm, rfl⟩, ?_⟩
    simp
  · refine ⟨_, _, hP, Or.inr ⟨rfl, e, rfl, ?_⟩, ?_⟩
    · cases e with
      | ErrNoSubConnAvailable => exact Or.inl rfl
      | Unavailable msg => exact Or.inr ⟨msg, rfl⟩
    · simp

/-- C17 at concrete pickers: the empty one, and one with an excluded-node intent at a
counter just below the wrap. -/
theorem selection_total_witness :
    (∃ (r : PickResult) (err : Option PickError),
      (Pick ⟨[], [], 9⟩ ⟨WithExcludedNodeID [] "x"⟩).1 = some (r, err)) ∧
    (∃ (r : PickResult) (err : Option PickError),
      (Pick ⟨[10, 11], ["x", "y"], 2 ^ 32 - 1⟩ ⟨WithExcludedNodeID [] "x"⟩).1
        = some (r, err)) :=
  ⟨(selection_total ⟨[], [], 9⟩ ⟨WithExcludedNodeID [] "x"⟩ rfl).imp
      (fun _ hr => hr.imp (fun _ he => he.1)),
    (selection_total ⟨[10, 11], ["x", "y"], 2 ^ 32 - 1⟩
      ⟨WithExcludedNodeID [] "x"⟩ rfl).imp
      (fun _ hr => hr.imp (fun _ he => he.1))⟩

/-! ## The round-robin rule -/

/-- The candidate indexes, read in the handle sequence, are the handles whose nodeID
differs from the excluded one. -/
theorem candidateIndexes_handles (X : String) (ns : List String) (ss pre : List SubConn)
    (hlen : ss.length = ns.length) :
    (candidateIndexes X ns pre.length).map (fun k => (pre ++ ss)[k]?)
      = ((((ss.zip ns).filter (fun e => decide (e.2 ≠ X))).map Prod.fst)).map some := by
  induction ns generalizing ss pre with
  | nil =>
    cases ss with
    | nil => simp [candidateIndexes]
    | cons s ss' => simp at hlen
  | cons n ns' ih =>
    cases ss with
    | nil => simp at hlen
    | cons s ss' =>
      have hlen' : ss'.length = ns'.length := by simpa using hlen
      have ih' := ih ss' (pre ++ [s]) hlen'
      simp only [List.length_append, List.length_singleton, List.append_assoc,
        List.singleton_append] at ih'
      have hhead : (pre ++ s :: ss')[pre.length]? = some s := by
        rw [List.getElem?_append_right (Nat.le_refl _)]
        simp
      by_cases hn : n = X
      · simp only [candidateIndexes, hn, ne_eq, not_true_eq_false, if_false, ih',
          List.zip_cons_cons, List.filter_cons, decide_False]
        simp
      · simp only [candidateIndexes, ne_eq, hn, not_false_eq_true, if_true, List.map_cons,
          hhead, ih', List.zip_cons_cons, List.filter_cons, decide_True]

theorem candidateIndexes_length (X : String) (p : routingPicker)
    (hlen : p.subConns.length = p.nodeIDs.length) :
    (candidateIndexes X p.nodeIDs 0).length = (handlesExcluding p X).length := by
  have h := congrArg List.length (candidateIndexes_handles X p.nodeIDs p.subConns [] hlen)
  simpa [handlesExcluding] using h

/-- One call without preferred-node intent: it returns the element of the eligible
sequence at position counter mod length and advances the counter. -/
theorem Pick_no_preferred (p : routingPicker) (info : PickInfo)
    (hlen : p.subConns.length = p.nodeIDs.length) (hN : 1 ≤ p.subConns.length)
    (hspec : (GetSpecificNodeID info.Ctx).2 = false) :
    1 ≤ (eligibleHandles p info).length ∧
    ∃ h d, (eligibleHandles p info)[p.next % 2 ^ 32 % (eligibleHandles p info).length]?
        = some h ∧
      Pick p info = (some (⟨some h, d⟩, none), { p with next := AddUint32 p.next }) := by
  have hfull : eligibleHandles p info = p.subConns → Pick p info = pickRoundRobin p →
      1 ≤ (eligibleHandles p info).length ∧
      ∃ h d, (eligibleHandles p info)[p.next % 2 ^ 32 % (eligibleHandles p info).length]?
          = some h ∧
        Pick p info = (some (⟨some h, d⟩, none), { p with next := AddUint32 p.next }) := by
    intro hE hP
    obtain ⟨h, hget, hrr⟩ := pickRoundRobin_eq p hN
    rw [hE, hP]
    exact ⟨hN, h, true, hget, hrr⟩
  rcases he : GetExcludeNode info.Ctx with ⟨X, hasExclude⟩
  cases hasExclude with
  | false =>
    apply hfull
    · simp [eligibleHandles, he]
    · exact Pick_no_intent p info hN hspec (by rw [he])
  | true =>
    by_cases hall : ∀ id ∈ p.nodeIDs, id = X
    · apply hfull
      · have hc := (candidateIndexes_length_eq_zero X p.nodeIDs 0).mpr hall
        rw [candidateIndexes_length X p hlen] at hc
        have : handlesExcluding p X = [] := List.length_eq_zero.mp hc
        simp [eligibleHandles, he, this]
      · exact Pick_all_excluded p info X hN hspec he hall
    · have halt : ∃ id ∈ p.nodeIDs, id ≠ X := by
        by_contra hno
        apply hall
        intro id hid
        by_contra hne
        exact hno ⟨id, hid, hne⟩
      have hcne : (candidateIndexes X p.nodeIDs 0).length ≠ 0 := fun hz =>
        hall ((candidateIndexes_length_eq_zero X p.nodeIDs 0).mp hz)
      by_cases h1 : p.subConns.length = 1
      · -- a single connection: plain round robin over the full set
        apply hfull
        · have : ¬ 2 ≤ p.subConns.length := by omega
          simp [eligibleHandles, he, this]
        · have h0 : p.subConns.length ≠ 0 := by omega
          rcases hs : GetSpecificNodeID info.Ctx with ⟨s, b⟩
          rw [hs] at hspec
          simp only at hspec
          subst hspec
          unfold Pick
          rw [if_neg h0, hs, he]
          simp [h1]
      · have h0 : p.subConns.length ≠ 0 := by omega
        have hM := candidateIndexes_length X p hlen
        have hne : handlesExcluding p X ≠ [] := by
          intro hnil
          rw [hnil] at hM
          exact hcne hM
        have hE : eligibleHandles p info = handlesExcluding p X := by
          have h2 : 2 ≤ p.subConns.length := by omega
          simp [eligibleHandles, he, h2, hne]
        rw [hE]
        have hlt : p.next % 2 ^ 32 % (candidateIndexes X p.nodeIDs 0).length
            < (candidateIndexes X p.nodeIDs 0).length := Nat.mod_lt _ (by omega)
        -- the index read in the candidate list, and the handle it stands for
        have hmapL : List.map (fun k => p.subConns[k]?) (candidateIndexes X p.nodeIDs 0)
            = List.map some (handlesExcluding p X) :=
          candidateIndexes_handles X p.nodeIDs p.subConns [] hlen
        have hlt' : p.next % 2 ^ 32 % (candidateIndexes X p.nodeIDs 0).length
            < (handlesExcluding p X).length := by rw [← hM]; exact hlt
        have hsel : (handlesExcluding p X)[p.next % 2 ^ 32 %
            (candidateIndexes X p.nodeIDs 0).length]?
              = some (handlesExcluding p X)[p.next % 2 ^ 32 %
                (candidateIndexes X p.nodeIDs 0).length] :=
          List.getElem?_eq_getElem hlt'
        have hmap' : p.subConns[(candidateIndexes X p.nodeIDs 0)[p.next % 2 ^ 32 %
            (candidateIndexes X p.nodeIDs 0).length]]?
              = some (handlesExcluding p X)[p.next % 2 ^ 32 %
                (candidateIndexes X p.nodeIDs 0).length] := by
          have hmap := congrArg
            (fun l => l[p.next % 2 ^ 32 % (candidateIndexes X p.nodeIDs 0).length]?) hmapL
          simp only [List.getElem?_map, List.getElem?_eq_getElem hlt, hsel,
            Option.map_some'] at hmap
          exact Option.some.inj hmap
        refine ⟨by rw [← hM]; omega, _, false, by rw [← hM]; exact hsel, ?_⟩
        rcases hs : GetSpecificNodeID info.Ctx with ⟨s, b⟩
        rw [hs] at hspec
        simp only at hspec
        subst hspec
        unfold Pick
        rw [if_neg h0, hs, he]
        simp only [h1, hcne, prevAsInt_AddUint32, List.getElem?_eq_getElem hlt, hmap']
        simp

/-- Consecutive calls with one context that carries no preferred-node intent: the
`k`-th call reads the counter `next + k`, reduced modulo `2 ^ 32`, and returns the
element of the eligible sequence at that position modulo the length. -/
theorem pickSeq_fixed (p : routingPicker) (info : PickInfo) (n : Nat)
    (hlen : p.subConns.length = p.nodeIDs.length) (hN : 1 ≤ p.subConns.length)
    (hspec : (GetSpecificNodeID info.Ctx).2 = false) :
    (pickSeq p (List.replicate n info)).1.map PickOutcome.handle
      = (List.range n).map (fun k =>
          (eligibleHandles p info)[(p.next + k) % 2 ^ 32
            % (eligibleHandles p info).length]?) := by
  obtain ⟨ss, ns, c⟩ := p
  simp only at hlen hN
  induction n generalizing c with
  | zero => simp [pickSeq]
  | succ n ih =>
    obtain ⟨_, h, d, hget, hP⟩ := Pick_no_preferred ⟨ss, ns, c⟩ info hlen hN hspec
    simp only at hget hP
    have hE : ∀ c', eligibleHandles ⟨ss, ns, c'⟩ info = eligibleHandles ⟨ss, ns, c⟩ info :=
      fun _ => rfl
    have ih' := ih (AddUint32 c)
    rw [hE (AddUint32 c)] at ih'
    have hstep : ∀ k, (AddUint32 c + k) % 2 ^ 32 = (c + (k + 1)) % 2 ^ 32 := by
      intro k
      unfold AddUint32
      omega
    simp only [List.replicate_succ, pickSeq, hP, List.map_cons, List.range_succ_eq_map,
      ih', PickOutcome.handle, List.map_map, hstep, Nat.add_zero, hget]
    rfl

/-- C20, the claim as stated fails once the counter has wrapped: on a freshly built
snapshot of three connections, the call number `2 ^ 32` (counting from 0) without
intent returns the handle at position 0, whereas position `2 ^ 32 mod 3 = 1` of the
eligible sequence holds handle 11. -/
theorem round_robin_rule_wrap_counterexample :
    ((pickSeq (newRoutingPicker [10, 11, 12] ["x", "y", "z"])
        (List.replicate (2 ^ 32 + 1) ⟨[]⟩)).1.map PickOutcome.handle)[2 ^ 32]?
      = some (some 10) ∧
    (eligibleHandles (newRoutingPicker [10, 11, 12] ["x", "y", "z"]) ⟨[]⟩)[2 ^ 32 % 3]?
      = some 11 ∧
    (eligibleHandles (newRoutingPicker [10, 11, 12] ["x", "y", "z"]) ⟨[]⟩).length = 3 := by
  refine ⟨?_, by decide, by decide⟩
  rw [pickSeq_fixed (newRoutingPicker [10, 11, 12] ["x", "y", "z"]) ⟨[]⟩ (2 ^ 32 + 1)
    rfl (by decide) (by decide)]
  rw [List.getElem?_map, List.getElem?_range (Nat.lt_succ_self _), Option.map_some']
  have hE : eligibleHandles (newRoutingPicker [10, 11, 12] ["x", "y", "z"]) ⟨[]⟩
      = [10, 11, 12] := by decide
  rw [hE]
  decide

/-- C20, amended. Round-robin rule as implemented: on a picker with equal-length
sequences of length at least one, a call without preferred-node intent that starts
with the counter at `c < 2 ^ 32` returns the element at position `c mod M` of the
eligible sequence (`M` its length, at least one) and leaves the counter at
`(c + 1) mod 2 ^ 32`; hence on a freshly built snapshot the `k`-th such call with a
fixed context returns position `(k mod 2 ^ 32) mod M`, which is `k mod M` as long as
`k < 2 ^ 32`. -/
theorem round_robin_rule (p : routingPicker) (info : PickInfo)
    (hlen : p.subConns.length = p.nodeIDs.length) (hN : 1 ≤ p.subConns.length)
    (hspec : (GetSpecificNodeID info.Ctx).2 = false) (hc : p.next < 2 ^ 32) :
    1 ≤ (eligibleHandles p info).length ∧
    (∃ h d, (eligibleHandles p info)[p.next % (eligibleHandles p info).length]? = some h ∧
      Pick p info
        = (some (⟨some h, d⟩, none), { p with next := (p.next + 1) % 2 ^ 32 })) ∧
    (∀ k, ((pickSeq (newRoutingPicker p.subConns p.nodeIDs)
          (List.replicate (k + 1) info)).1.map PickOutcome.handle)[k]?
        = some ((eligibleHandles p info)[k % 2 ^ 32 % (eligibleHandles p info).length]?)) ∧
    (∀ k, k < 2 ^ 32 →
      ((pickSeq (newRoutingPicker p.subConns p.nodeIDs)
          (List.replicate (k + 1) info)).1.map PickOutcome.handle)[k]?
        = some ((eligibleHandles p info)[k % (eligibleHandles p info).length]?)) := by
  obtain ⟨hM, h, d, hget, hP⟩ := Pick_no_preferred p info hlen hN hspec
  have hkth : ∀ k, ((pickSeq (newRoutingPicker p.subConns p.nodeIDs)
        (List.replicate (k + 1) info)).1.map PickOutcome.handle)[k]?
      = some ((eligibleHandles p info)[k % 2 ^ 32
          % (eligibleHandles p info).length]?) := by
    intro k
    rw [pickSeq_fixed (newRoutingPicker p.subConns p.nodeIDs) info (k + 1) hlen hN hspec,
      List.getElem?_map, List.getElem?_range (Nat.lt_succ_self _), Option.map_some']
    have hE : eligibleHandles (newRoutingPicker p.subConns p.nodeIDs) info
        = eligibleHandles p info := rfl
    rw [hE]
    simp [newRoutingPicker]
  refine ⟨hM, ⟨h, d, ?_, ?_⟩, hkth, ?_⟩
  · rw [Nat.mod_eq_of_lt hc] at hget
    exact hget
  · rw [hP]
    rfl
  · intro k hk
    rw [hkth k, Nat.mod_eq_of_lt hk]

/-- C20 amended, at a concrete picker: node `"x"` excluded among three connections,
counter 7; the eligible sequence is `[11, 12]` and position 1 is returned. -/
theorem round_robin_rule_witness :
    ∃ h d, (eligibleHandles ⟨[10, 11, 12], ["x", "y", "z"], 7⟩
          ⟨WithExcludedNodeID [] "x"⟩)[7 % 2]? = some h ∧
      Pick ⟨[10, 11, 12], ["x", "y", "z"], 7⟩ ⟨WithExcludedNodeID [] "x"⟩
        = (some (⟨some h, d⟩, none), ⟨[10, 11, 12], ["x", "y", "z"], 8⟩) :=
  (round_robin_rule ⟨[10, 11, 12], ["x", "y", "z"], 7⟩ ⟨WithExcludedNodeID [] "x"⟩
    (by decide) (by decide) (by decide) (by decide)).2.1

/-! ## The published snapshot -/

theorem updatePicker_of_nonempty (b : routingBalancer) (h : b.readySCs.entries ≠ []) :
    (updatePicker b).cc = b.cc.record (Call.UpdateState
      { ConnectivityState := ConnectivityState.Ready
        Picker := Picker.routing (newRoutingPicker
          (b.readySCs.entries.map (fun e => e.1))
          (b.readySCs.entries.map (fun e => e.2))) }) := by
  have hl : b.readySCs.entries.length ≠ 0 := fun hz => h (List.length_eq_zero.mp hz)
  unfold updatePicker
  rw [if_neg hl]

/-- Every handle that consecutive calls of `Pick` return is a handle of the snapshot. -/
theorem pickSeq_handle_mem (p : routingPicker) (infos : List PickInfo)
    (hlen : p.subConns.length = p.nodeIDs.length) :
    ∀ out ∈ (pickSeq p infos).1, ∀ h, PickOutcome.handle out = some h →
      h ∈ p.subConns := by
  induction infos generalizing p with
  | nil => intro out hout; simp [pickSeq] at hout
  | cons info rest ih =>
    intro out hout h hh
    obtain ⟨hone, hss, hns⟩ := Pick_outcome p info hlen
    simp only [pickSeq, List.mem_cons] at hout
    rcases hout with hout | hout
    · subst hout
      rcases hone with ⟨h', d, hm, hP⟩ | ⟨e, hP⟩
      · rw [hP] at hh
        simp only [PickOutcome.handle] at hh
        cases hh
        exact hm
      · rw [hP] at hh
        simp [PickOutcome.handle] at hh
    · have := ih (Pick p info).2 (by rw [hss, hns]; exact hlen) out hout h hh
      rw [hss] at this
      exact this

/-- C16. Published snapshot equals the usable set: after a state-change notification
for a registered handle that leaves the usable set non-empty, the notification ends
with one `UpdateState` call that publishes connectivity state Ready with a
`routingPicker` whose two sequences have equal length, whose counter is zero, and whose
index-wise pairs are, up to order and without repeated handle, exactly the entries of
`readySCs` at that moment; so every handle that any sequence of selections on this
picker returns is a key of that `readySCs`. -/
theorem published_snapshot_is_usable_set (b : routingBalancer) (sc : SubConn)
    (state : SubConnState) (addr : Address)
    (hreg : b.scToAddrMap.lookup sc = some addr)
    (hne : (UpdateSubConnState b sc state).readySCs.keys ≠ []) :
    ∃ p : routingPicker,
      (UpdateSubConnState b sc state).cc.calls
        = b.cc.calls ++ [Call.UpdateState ⟨ConnectivityState.Ready, Picker.routing p⟩] ∧
      (UpdateSubConnState b sc state).cc.published
        = some ⟨ConnectivityState.Ready, Picker.routing p⟩ ∧
      p.subConns.length = p.nodeIDs.length ∧ p.next = 0 ∧
      List.Perm (p.subConns.zip p.nodeIDs)
        ((UpdateSubConnState b sc state).readySCs.entries.map (fun e => (e.1, e.2))) ∧
      p.subConns.Nodup ∧
      (∀ h n, (h, n) ∈ p.subConns.zip p.nodeIDs
        ↔ (UpdateSubConnState b sc state).readySCs.lookup h = some n) ∧
      (∀ (infos : List PickInfo), ∀ out ∈ (pickSeq p infos).1, ∀ h,
        PickOutcome.handle out = some h → h ∈ (UpdateSubConnState b sc state).readySCs) := by
  obtain ⟨b1, hcc, hU⟩ := UpdateSubConnState_registered b sc state addr hreg
  have hready : (UpdateSubConnState b sc state).readySCs = b1.readySCs := by
    rw [hU, updatePicker_readySCs]
  rw [hready] at hne ⊢
  have hent : b1.readySCs.entries ≠ [] := by
    intro hnil
    apply hne
    simp [AList.keys, List.keys, hnil]
  have hc := updatePicker_of_nonempty b1 hent
  have hzip : (b1.readySCs.entries.map (fun e => e.1)).zip
      (b1.readySCs.entries.map (fun e => e.2))
        = b1.readySCs.entries.map (fun e => (e.1, e.2)) := List.zip_map' _ _ _
  have hkeys : b1.readySCs.entries.map (fun e => e.1) = b1.readySCs.keys := rfl
  refine ⟨newRoutingPicker (b1.readySCs.entries.map (fun e => e.1))
      (b1.readySCs.entries.map (fun e => e.2)), ?_, ?_, ?_, rfl, ?_, ?_, ?_, ?_⟩
  · rw [hU, hc, hcc]
    rfl
  · rw [hU, hc]
    exact published_record_UpdateState _ _
  · simp [newRoutingPicker]
  · simp only [newRoutingPicker, hzip]
    exact List.Perm.refl _
  · simp only [newRoutingPicker, hkeys]
    exact b1.readySCs.keys_nodup
  · intro h n
    simp only [newRoutingPicker, hzip, List.mem_map]
    constructor
    · rintro ⟨⟨h', n'⟩, hm, heq⟩
      cases heq
      exact AList.mem_lookup_iff.mpr hm
    · intro hl
      exact ⟨⟨h, n⟩, AList.mem_lookup_iff.mp hl, rfl⟩
  · intro infos out hout h hh
    have := pickSeq_handle_mem _ infos (by simp [newRoutingPicker]) out hout h hh
    simp only [newRoutingPicker, hkeys] at this
    exact AList.mem_keys.mpr this

/-- C16 at a concrete balancer: handle 101 reports Ready while handle 100 is usable. -/
theorem published_snapshot_is_usable_set_witness :
    ∃ p : routingPicker,
      (UpdateSubConnState
        { newRoutingBalancer countingConn with
          scToAddrMap := (AList.singleton 100 addrA).insert 101 addrB
          nodeIDMap := (AList.singleton addrA "a:1").insert addrB "b:1"
          readySCs := AList.singleton 100 "a:1" }
        101 ⟨ConnectivityState.Ready⟩).cc.published
        = some ⟨ConnectivityState.Ready, Picker.routing p⟩ ∧
      p.subConns.length = p.nodeIDs.length ∧ p.next = 0 :=
  (published_snapshot_is_usable_set
    { newRoutingBalancer countingConn with
      scToAddrMap := (AList.singleton 100 addrA).insert 101 addrB
      nodeIDMap := (AList.singleton addrA "a:1").insert addrB "b:1"
      readySCs := AList.singleton 100 "a:1" }
    101 ⟨ConnectivityState.Ready⟩ addrB (by decide) (by decide)).imp
    (fun _ hp => ⟨hp.2.1, hp.2.2.1, hp.2.2.2.1⟩)

/-! ## Resolution updates on any open balancer -/

theorem mem_insert_ne {V : Type} (m : AList (fun _ : Address => V)) (a a' : Address)
    (v : V) (hne : a ≠ a') : a ∈ m.insert a' v ↔ a ∈ m := by
  simp [AList.mem_insert, hne]

/-- The adding loop on any balancer that is not closed. -/
theorem addLoop_general (l : List Address) (b : routingBalancer)
    (hopen : b.closed = false) (hnd : l.Nodup) :
    ∃ b' adds, addLoop l b = some b' ∧ AddEffect l b b' adds := by
  induction l generalizing b with
  | nil =>
    exact ⟨b, [], rfl,
      { isOpen := hopen, ready := rfl, factory := rfl, made := Nat.le_refl _,
        calls := by simp, kept := fun _ _ => ⟨rfl, rfl⟩, outside := fun _ _ => ⟨rfl, rfl⟩,
        kind := fun c hc => by simp at hc,
        result := fun a r hc => by simp at hc,
        nodeFail := fun a hc => by simp at hc,
        nodeOk := fun a sc hc => by simp at hc,
        connect := fun a sc hc => by simp at hc,
        attempted := fun a ha => by simp at ha,
        reverse := fun h x hl => Or.inl hl }⟩
  | cons addr rest ih =>
    have hrest : rest.Nodup := (List.nodup_cons.mp hnd).2
    have haddr : addr ∉ rest := (List.nodup_cons.mp hnd).1
    by_cases hm : addr ∈ b.subConnMap
    · obtain ⟨b', adds, he, E⟩ := ih b hopen hrest
      refine ⟨b', adds, by rw [addLoop_cons_mem addr rest b hm]; exact he,
        { isOpen := E.isOpen, ready := E.ready, factory := E.factory, made := E.made,
          calls := E.calls, kept := E.kept,
          outside := fun a ha => E.outside a (fun hr => ha (List.mem_cons_of_mem _ hr)),
          kind := ?_, result := E.result, nodeFail := E.nodeFail, nodeOk := E.nodeOk,
          connect := E.connect, attempted := ?_, reverse := E.reverse }⟩
      · intro c hc
        rcases E.kind c hc with ⟨a, r, h1, h2, h3⟩ | h
        · exact Or.inl ⟨a, r, h1, List.mem_cons_of_mem _ h2, h3⟩
        · exact Or.inr h
      · intro a ha hna
        rcases List.mem_cons.mp ha with e | hr
        · subst e
          exact absurd hm hna
        · exact E.attempted a hr hna
    · have hlook : b.subConnMap.lookup addr = none := AList.lookup_eq_none.mpr hm
      cases hf : b.cc.factory b.cc.made with
      | none =>
        obtain ⟨b', adds, he, E⟩ := ih
          { b with
            cc := { b.cc with
              made := b.cc.made + 1
              calls := b.cc.calls ++ [Call.NewSubConn addr none] } } hopen hrest
        refine ⟨b', Call.NewSubConn addr none :: adds,
          by rw [addLoop_cons_fail addr rest b hm hf]; exact he,
          { isOpen := E.isOpen, ready := E.ready, factory := E.factory,
            made := Nat.le_trans (Nat.le_succ _) E.made,
            calls := by rw [E.calls]; simp,
            kept := E.kept,
            outside := fun a ha => E.outside a (fun hr => ha (List.mem_cons_of_mem _ hr)),
            kind := ?_, result := ?_, nodeFail := ?_, nodeOk := ?_, connect := ?_,
            attempted := ?_, reverse := ?_ }⟩
        · intro c hc
          rcases List.mem_cons.mp hc with e | hc'
          · exact Or.inl ⟨addr, none, e, List.mem_cons_self _ _, hm⟩
          · rcases E.kind c hc' with ⟨a, r, h1, h2, h3⟩ | ⟨sc, i, h1, h2, h3⟩
            · exact Or.inl ⟨a, r, h1, List.mem_cons_of_mem _ h2, h3⟩
            · exact Or.inr ⟨sc, i, h1, Nat.le_trans (Nat.le_succ _) h2, h3⟩
        · intro a r hc
          rcases List.mem_cons.mp hc with e | hc'
          · cases e
            rw [(E.outside addr haddr).1]
            exact hlook
          · exact E.result a r hc'
        · intro a hc
          rcases List.mem_cons.mp hc with e | hc'
          · cases e
            exact (E.outside addr haddr).2
          · exact E.nodeFail a hc'
        · intro a sc hc
          rcases List.mem_cons.mp hc with e | hc'
          · cases e
          · exact E.nodeOk a sc hc'
        · intro a sc hc
          rcases List.mem_cons.mp hc with e | hc'
          · cases e
          · obtain ⟨pre, post, hp⟩ := E.connect a sc hc'
            exact ⟨Call.NewSubConn addr none :: pre, post, by rw [hp]; rfl⟩
        · intro a ha hna
          rcases List.mem_cons.mp ha with e | hr
          · subst e
            exact ⟨none, List.mem_cons_self _ _⟩
          · obtain ⟨r, hr'⟩ := E.attempted a hr hna
            exact ⟨r, List.mem_cons_of_mem _ hr'⟩
        · intro h x hl
          rcases E.reverse h x hl with h1 | h1
          · exact Or.inl h1
          · exact Or.inr (List.mem_cons_of_mem _ h1)
      | some sc =>
        obtain ⟨b', adds, he, E⟩ := ih
          { b with
            cc := { b.cc with
              made := b.cc.made + 1
              calls := b.cc.calls ++ [Call.NewSubConn addr (some sc)] ++ [Call.Connect sc] }
            subConnMap := b.subConnMap.insert addr sc
            scToAddrMap := b.scToAddrMap.insert sc addr
            nodeIDMap := b.nodeIDMap.insert addr (extractNodeID addr) } hopen hrest
        have hkeep : ∀ a, a ≠ addr →
            (b.subConnMap.insert addr sc).lookup a = b.subConnMap.lookup a ∧
            (b.nodeIDMap.insert addr (extractNodeID addr)).lookup a
              = b.nodeIDMap.lookup a := by
          intro a ha
          simp only [lookup_insert_ite, if_neg ha, and_self]
        have hself : addr ∈ b.subConnMap.insert addr sc := by simp [AList.mem_insert]
        refine ⟨b', Call.NewSubConn addr (some sc) :: Call.Connect sc :: adds,
          by rw [addLoop_cons_ok addr rest b sc hm hf hopen]; exact he,
          { isOpen := E.isOpen, ready := E.ready, factory := E.factory,
            made := Nat.le_trans (Nat.le_succ _) E.made,
            calls := by rw [E.calls]; simp,
            kept := ?_, outside := ?_, kind := ?_, result := ?_, nodeFail := ?_,
            nodeOk := ?_, connect := ?_, attempted := ?_, reverse := ?_ }⟩
        · intro a ha
          have hne : a ≠ addr := by
            rintro rfl
            exact hm ha
          have h1 := E.kept a ((mem_insert_ne b.subConnMap a addr sc hne).mpr ha)
          have h2 := hkeep a hne
          exact ⟨h1.1.trans h2.1, h1.2.trans h2.2⟩
        · intro a ha
          have hne : a ≠ addr := by
            rintro rfl
            exact ha (List.mem_cons_self _ _)
          have h1 := E.outside a (fun hr => ha (List.mem_cons_of_mem _ hr))
          have h2 := hkeep a hne
          exact ⟨h1.1.trans h2.1, h1.2.trans h2.2⟩
        · intro c hc
          rcases List.mem_cons.mp hc with e | hc1
          · exact Or.inl ⟨addr, some sc, e, List.mem_cons_self _ _, hm⟩
          · rcases List.mem_cons.mp hc1 with e | hc'
            · exact Or.inr ⟨sc, b.cc.made, e, Nat.le_refl _, hf⟩
            · rcases E.kind c hc' with ⟨a, r, h1, h2, h3⟩ | ⟨sc', i, h1, h2, h3⟩
              · refine Or.inl ⟨a, r, h1, List.mem_cons_of_mem _ h2, fun hmem => h3 ?_⟩
                have hne : a ≠ addr := by
                  rintro rfl
                  exact haddr h2
                exact (mem_insert_ne b.subConnMap a addr sc hne).mpr hmem
              · exact Or.inr ⟨sc', i, h1, Nat.le_trans (Nat.le_succ _) h2, h3⟩
        · intro a r hc
          rcases List.mem_cons.mp hc with e | hc1
          · cases e
            rw [(E.outside addr haddr).1]
            simp [lookup_insert_ite]
          · rcases List.mem_cons.mp hc1 with e | hc'
            · cases e
            · exact E.result a r hc'
        · intro a hc
          rcases List.mem_cons.mp hc with e | hc1
          · cases e
          · rcases List.mem_cons.mp hc1 with e | hc'
            · cases e
            · rw [E.nodeFail a hc']
              rcases E.kind _ hc' with ⟨a', r', h1, h2, _⟩ | ⟨sc', i, h1, _, _⟩
              · cases h1
                have hne : a ≠ addr := by
                  rintro rfl
                  exact haddr h2
                exact (hkeep a hne).2
              · cases h1
        · intro a sc' hc
          rcases List.mem_cons.mp hc with e | hc1
          · cases e
            rw [(E.outside addr haddr).2]
            simp [lookup_insert_ite]
          · rcases List.mem_cons.mp hc1 with e | hc'
            · cases e
            · exact E.nodeOk a sc' hc'
        · intro a sc' hc
          rcases List.mem_cons.mp hc with e | hc1
          · cases e
            exact ⟨[], adds, rfl⟩
          · rcases List.mem_cons.mp hc1 with e | hc'
            · cases e
            · obtain ⟨pre, post, hp⟩ := E.connect a sc' hc'
              exact ⟨Call.NewSubConn addr (some sc) :: Call.Connect sc :: pre, post,
                by rw [hp]; rfl⟩
        · intro a ha hna
          rcases List.mem_cons.mp ha with e | hr
          · subst e
            exact ⟨some sc, List.mem_cons_self _ _⟩
          · have hne : a ≠ addr := by
              rintro rfl
              exact haddr hr
            obtain ⟨r, hr'⟩ := E.attempted a hr
              (fun hmem => hna ((mem_insert_ne b.subConnMap a addr sc hne).mp hmem))
            exact ⟨r, List.mem_cons_of_mem _ (List.mem_cons_of_mem _ hr')⟩
        · intro h x hl
          rcases E.reverse h x hl with h1 | h1
          · simp only [lookup_insert_ite] at h1
            by_cases hh : h = sc
            · subst hh
              rw [if_pos rfl] at h1
              cases h1
              exact Or.inr (List.mem_cons_self _ _)
            · rw [if_neg hh] at h1
              exact Or.inl h1
          · exact Or.inr (List.mem_cons_of_mem _ (List.mem_cons_of_mem _ h1))

/-- The removing loop on any balancer. -/
theorem removeLoop_general (newAddrs : List Address) (b : routingBalancer) :
    (removeLoop newAddrs b).closed = b.closed ∧
    (removeLoop newAddrs b).readySCs = b.readySCs ∧
    (removeLoop newAddrs b).cc.factory = b.cc.factory ∧
    (removeLoop newAddrs b).cc.made = b.cc.made ∧
    (removeLoop newAddrs b).cc.calls
      = b.cc.calls
        ++ (droppedEntries newAddrs b.subConnMap.entries).map (fun e => Call.Shutdown e.2) ∧
    (∀ a, (removeLoop newAddrs b).subConnMap.lookup a
      = if a ∈ newAddrs then b.subConnMap.lookup a else none) ∧
    (∀ a, (removeLoop newAddrs b).nodeIDMap.lookup a
      = if a ∈ b.subConnMap ∧ a ∉ newAddrs then none else b.nodeIDMap.lookup a) ∧
    (∀ h x, (removeLoop newAddrs b).scToAddrMap.lookup h = some x →
      b.scToAddrMap.lookup h = some x ∧
      ¬ ∃ a, b.subConnMap.lookup a = some h ∧ a ∉ newAddrs) := by
  obtain ⟨h1, h2, h3, h4, h5, h6, h7, h8⟩ :=
    removeLoop_fields newAddrs b.subConnMap.entries b
  refine ⟨h1, h2, h3, h4, h5, ?_, ?_, ?_⟩
  · intro a
    unfold removeLoop
    rw [h6 a]
    simp only [mem_dropped_fst]
    by_cases ha : a ∈ newAddrs
    · simp [ha]
    · by_cases hm : a ∈ b.subConnMap
      · simp [ha, hm]
      · simp [ha, hm, AList.lookup_eq_none.mpr hm]
  · intro a
    unfold removeLoop
    rw [h8 a]
    simp only [mem_dropped_fst]
  · intro h x hl
    unfold removeLoop at hl
    rw [h7 h] at hl
    by_cases hd : h ∈ (droppedEntries newAddrs b.subConnMap.entries).map (fun e => e.2)
    · rw [if_pos hd] at hl
      cases hl
    · rw [if_neg hd] at hl
      exact ⟨hl, fun hex => hd ((mem_dropped_snd newAddrs b.subConnMap h).mpr hex)⟩

/-- The `Shutdown` calls of the removing loop are those on the handles of dropped
addresses. -/
theorem mem_dropped_calls (newAddrs : List Address)
    (m : AList (fun _ : Address => SubConn)) (c : Call) :
    c ∈ (droppedEntries newAddrs m.entries).map (fun e => Call.Shutdown e.2)
      ↔ ∃ a h, c = Call.Shutdown h ∧ m.lookup a = some h ∧ a ∉ newAddrs := by
  simp only [droppedEntries, List.mem_map, List.mem_filter, decide_eq_true_eq]
  constructor
  · rintro ⟨⟨a, h⟩, ⟨hmem, hnot⟩, rfl⟩
    exact ⟨a, h, rfl, AList.mem_lookup_iff.mpr hmem, hnot⟩
  · rintro ⟨a, h, rfl, hl, hnot⟩
    exact ⟨⟨a, h⟩, ⟨AList.mem_lookup_iff.mp hl, hnot⟩, rfl⟩

theorem mem_newAddrsOf (state : ClientConnState) (a : Address) :
    a ∈ newAddrsOf state ↔ a ∈ state.ResolverState.Addresses := by
  simp [newAddrsOf]

/-- A resolution update on any balancer that is not closed returns the nil error; what
it does is the removing loop followed by the adding loop. -/
theorem UpdateClientConnState_general (b : routingBalancer) (state : ClientConnState)
    (hopen : b.closed = false) :
    ∃ b' adds, UpdateClientConnState b state = some (none, b') ∧
      AddEffect (newAddrsOf state) (removeLoop (newAddrsOf state) b) b' adds := by
  have hopen1 : (removeLoop (newAddrsOf state) b).closed = false :=
    (removeLoop_general (newAddrsOf state) b).1.trans hopen
  obtain ⟨b', adds, he, E⟩ := addLoop_general (newAddrsOf state)
    (removeLoop (newAddrsOf state) b) hopen1 (List.nodup_dedup _)
  exact ⟨b', adds, by simp [UpdateClientConnState, he], E⟩

/-- If every registered address is in the new set, the removing loop changes
nothing. -/
theorem removeLoop_id (newAddrs : List Address) (b : routingBalancer)
    (hall : ∀ a, a ∈ b.subConnMap → a ∈ newAddrs) : removeLoop newAddrs b = b := by
  have key : ∀ (l : List (Sigma (fun _ : Address => SubConn))) (b0 : routingBalancer),
      (∀ e ∈ l, e.1 ∈ newAddrs) → l.foldl (removeStep newAddrs) b0 = b0 := by
    intro l
    induction l with
    | nil => intro b0 _; rfl
    | cons e rest ih =>
      intro b0 hl
      have he : e.1 ∈ newAddrs := hl e (List.mem_cons_self _ _)
      have hs : removeStep newAddrs b0 e = b0 := by simp [removeStep, he]
      rw [List.foldl_cons, hs]
      exact ih b0 (fun e' he' => hl e' (List.mem_cons_of_mem _ he'))
  apply key
  intro e he
  apply hall
  have hl : b.subConnMap.lookup e.1 = some e.2 := AList.mem_lookup_iff.mpr (by
    cases e
    exact he)
  exact AList.lookup_isSome.mp (by rw [hl]; rfl)

/-- If every address of the list is registered, the adding loop changes nothing. -/
theorem addLoop_id (l : List Address) (b : routingBalancer)
    (hall : ∀ a, a ∈ l → a ∈ b.subConnMap) : addLoop l b = some b := by
  induction l with
  | nil => rfl
  | cons addr rest ih =>
    rw [addLoop_cons_mem addr rest b (hall addr (List.mem_cons_self _ _))]
    exact ih (fun a ha => hall a (List.mem_cons_of_mem _ ha))

/-! ### The consistency that needs no assumption on the transport -/

theorem NodeInv_new (cc : ClientConn) : NodeInv (newRoutingBalancer cc) := by
  refine ⟨rfl, ?_, ?_, ?_⟩
  · intro h a hl
    simp [newRoutingBalancer] at hl
  · intro a ha
    simp [newRoutingBalancer] at ha
  · intro a _
    simp [newRoutingBalancer]

theorem NodeInv_removeLoop (newAddrs : List Address) (b : routingBalancer)
    (hinv : NodeInv b) : NodeInv (removeLoop newAddrs b) := by
  obtain ⟨r1, _, _, _, _, r6, r7, r8⟩ := removeLoop_general newAddrs b
  have hmem : ∀ a, a ∈ (removeLoop newAddrs b).subConnMap
      ↔ a ∈ newAddrs ∧ a ∈ b.subConnMap := by
    intro a
    rw [← AList.lookup_isSome, r6 a, ← AList.lookup_isSome]
    by_cases ha : a ∈ newAddrs
    · simp [ha]
    · simp [ha]
  refine ⟨r1.trans hinv.isOpen, ?_, ?_, ?_⟩
  · intro h a hl
    obtain ⟨hl0, hno⟩ := r8 h a hl
    have hf := hinv.revFwd h a hl0
    have ha : a ∈ newAddrs := by
      by_contra hna
      exact hno ⟨a, hf, hna⟩
    rw [r6 a, if_pos ha]
    exact hf
  · intro a ha
    obtain ⟨h1, h2⟩ := (hmem a).mp ha
    rw [r7 a, if_neg (fun hc => hc.2 h1)]
    exact hinv.nodeReg a h2
  · intro a ha
    rw [r7 a]
    by_cases hc : a ∈ b.subConnMap ∧ a ∉ newAddrs
    · rw [if_pos hc]
    · rw [if_neg hc]
      apply hinv.nodeUnreg
      intro hm
      by_cases hn : a ∈ newAddrs
      · exact ha ((hmem a).mpr ⟨hn, hm⟩)
      · exact hc ⟨hm, hn⟩

theorem NodeInv_addLoop (l : List Address) (b b' : routingBalancer) (adds : List Call)
    (hinv : NodeInv b) (E : AddEffect l b b' adds) : NodeInv b' := by
  have hcase : ∀ a, a ∉ b.subConnMap →
      (b'.subConnMap.lookup a = none ∧ b'.nodeIDMap.lookup a = none) ∨
      (∃ sc, b'.subConnMap.lookup a = some sc ∧
        b'.nodeIDMap.lookup a = some (extractNodeID a)) := by
    intro a hna
    by_cases hl : a ∈ l
    · obtain ⟨r, hr⟩ := E.attempted a hl hna
      cases r with
      | none =>
        exact Or.inl ⟨E.result a none hr, (E.nodeFail a hr).trans (hinv.nodeUnreg a hna)⟩
      | some sc => exact Or.inr ⟨sc, E.result a (some sc) hr, E.nodeOk a sc hr⟩
    · obtain ⟨h1, h2⟩ := E.outside a hl
      exact Or.inl ⟨h1.trans (AList.lookup_eq_none.mpr hna),
        h2.trans (hinv.nodeUnreg a hna)⟩
  refine ⟨E.isOpen, ?_, ?_, ?_⟩
  · intro h a hl
    rcases E.reverse h a hl with h1 | h1
    · have hf := hinv.revFwd h a h1
      have hm : a ∈ b.subConnMap := AList.lookup_isSome.mp (by rw [hf]; rfl)
      rw [(E.kept a hm).1]
      exact hf
    · exact E.result a (some h) h1
  · intro a ha
    by_cases hm : a ∈ b.subConnMap
    · rw [(E.kept a hm).2]
      exact hinv.nodeReg a hm
    · rcases hcase a hm with ⟨h1, _⟩ | ⟨sc, _, h2⟩
      · exact absurd ha (AList.lookup_eq_none.mp h1)
      · exact h2
  · intro a ha
    by_cases hm : a ∈ b.subConnMap
    · have h1 := (E.kept a hm).1
      have : a ∈ b'.subConnMap := by
        rw [← AList.lookup_isSome, h1, AList.lookup_isSome]
        exact hm
      exact absurd this ha
    · rcases hcase a hm with ⟨_, h2⟩ | ⟨sc, h1, _⟩
      · exact h2
      · exact absurd (AList.lookup_isSome.mp (by rw [h1]; rfl)) ha

theorem NodeInv_congr {b b' : routingBalancer} (hinv : NodeInv b)
    (h1 : b'.subConnMap = b.subConnMap) (h2 : b'.scToAddrMap = b.scToAddrMap)
    (h3 : b'.nodeIDMap = b.nodeIDMap) (h4 : b'.closed = b.closed) : NodeInv b' := by
  refine ⟨h4.trans hinv.isOpen, ?_, ?_, ?_⟩
  · intro h a hl
    rw [h2] at hl
    rw [h1]
    exact hinv.revFwd h a hl
  · intro a ha
    rw [h1] at ha
    rw [h3]
    exact hinv.nodeReg a ha
  · intro a ha
    rw [h1] at ha
    rw [h3]
    exact hinv.nodeUnreg a ha

theorem NodeInv_updatePicker {b : routingBalancer} (hinv : NodeInv b) :
    NodeInv (updatePicker b) := by
  obtain ⟨h1, h2, h3, h4, _⟩ := updatePicker_fields b
  exact NodeInv_congr hinv h1 h2 h3 h4

theorem UpdateSubConnState_NodeInv (b : routingBalancer) (sc : SubConn)
    (state : SubConnState) (hinv : NodeInv b) :
    NodeInv (UpdateSubConnState b sc state) := by
  cases hreg : b.scToAddrMap.lookup sc with
  | none => rw [UpdateSubConnState_stale b sc state hreg]; exact hinv
  | some addr =>
    by_cases h1 : state.ConnectivityState = ConnectivityState.Ready
    · rw [UpdateSubConnState_ready b sc state addr hreg h1]
      exact NodeInv_updatePicker
        ⟨hinv.isOpen, hinv.revFwd, hinv.nodeReg, hinv.nodeUnreg⟩
    · by_cases h2 : state.ConnectivityState = ConnectivityState.Shutdown
      · rw [UpdateSubConnState_shutdown b sc state addr hreg h2]
        have hfwd := hinv.revFwd sc addr hreg
        refine NodeInv_updatePicker ⟨hinv.isOpen, ?_, ?_, ?_⟩
        · intro h a hl
          simp only [lookup_erase_ite] at hl ⊢
          by_cases hh : h = sc
          · simp [hh] at hl
          · rw [if_neg hh] at hl
            have hf := hinv.revFwd h a hl
            have ha : a ≠ addr := by
              rintro rfl
              rw [hfwd] at hf
              exact hh (Option.some.inj hf).symm
            rw [if_neg ha]
            exact hf
        · intro a ha
          obtain ⟨hne, hm⟩ := AList.mem_erase.mp ha
          simp only [lookup_erase_ite, if_neg hne]
          exact hinv.nodeReg a hm
        · intro a ha
          simp only [lookup_erase_ite]
          by_cases hne : a = addr
          · rw [if_pos hne]
          · rw [if_neg hne]
            exact hinv.nodeUnreg a (fun hm => ha (AList.mem_erase.mpr ⟨hne, hm⟩))
      · rw [UpdateSubConnState_unready b sc state addr hreg h1 h2]
        exact NodeInv_updatePicker
          ⟨hinv.isOpen, hinv.revFwd, hinv.nodeReg, hinv.nodeUnreg⟩

/-- From a balancer with consistent maps every sequence of operations runs to its end,
whatever the transport returns, and ends in a balancer with consistent maps. -/
theorem run_NodeInv (ops : List Op) (b : routingBalancer) (hinv : NodeInv b) :
    ∃ b', run b ops = some b' ∧ NodeInv b' ∧ b'.cc.factory = b.cc.factory := by
  induction ops generalizing b with
  | nil => exact ⟨b, rfl, hinv, rfl⟩
  | cons op rest ih =>
    cases op with
    | resolve state =>
      obtain ⟨b1, adds, h1, E⟩ := UpdateClientConnState_general b state hinv.isOpen
      have hinv1 := NodeInv_addLoop _ _ b1 adds
        (NodeInv_removeLoop (newAddrsOf state) b hinv) E
      obtain ⟨b', r1, r2, r3⟩ := ih b1 hinv1
      refine ⟨b', ?_, r2, ?_⟩
      · simp [run, step, h1, r1]
      · rw [r3, E.factory]
        exact (removeLoop_general (newAddrsOf state) b).2.2.1
    | notify sc state =>
      obtain ⟨b', r1, r2, r3⟩ := ih _ (UpdateSubConnState_NodeInv b sc state hinv)
      refine ⟨b', ?_, r2, r3.trans (UpdateSubConnState_cc b sc state).1⟩
      simp [run, step, r1]

/-- A resolution update on a balancer that is not closed, with the calls it makes: the
`Shutdown` calls of the removing loop followed by the calls of the adding loop. -/
theorem UpdateClientConnState_calls (b : routingBalancer) (state : ClientConnState)
    (hopen : b.closed = false) :
    ∃ b' adds, UpdateClientConnState b state = some (none, b') ∧
      AddEffect (newAddrsOf state) (removeLoop (newAddrsOf state) b) b' adds ∧
      b'.cc.calls = b.cc.calls
        ++ ((droppedEntries (newAddrsOf state) b.subConnMap.entries).map
            (fun e => Call.Shutdown e.2) ++ adds) ∧
      (∀ a r, Call.NewSubConn a r ∈
          (droppedEntries (newAddrsOf state) b.subConnMap.entries).map
            (fun e => Call.Shutdown e.2) ++ adds
        ↔ Call.NewSubConn a r ∈ adds) ∧
      (∀ sc, ((droppedEntries (newAddrsOf state) b.subConnMap.entries).map
            (fun e => Call.Shutdown e.2) ++ adds).count (Call.Connect sc)
        = adds.count (Call.Connect sc)) := by
  obtain ⟨b', adds, he, E⟩ := UpdateClientConnState_general b state hopen
  have hc := (removeLoop_general (newAddrsOf state) b).2.2.2.2.1
  refine ⟨b', adds, he, E, ?_, ?_, ?_⟩
  · rw [E.calls, hc, List.append_assoc]
  · intro a r
    rw [List.mem_append]
    constructor
    · rintro (h | h)
      · obtain ⟨a', h', e, _⟩ := (mem_dropped_calls _ _ _).mp h
        cases e
      · exact h
    · exact fun h => Or.inr h
  · intro sc
    rw [List.count_append]
    have h0 : ((droppedEntries (newAddrsOf state) b.subConnMap.entries).map
        (fun e => Call.Shutdown e.2)).count (Call.Connect sc) = 0 := by
      apply List.count_eq_zero_of_not_mem
      intro h
      obtain ⟨a', h', e, _⟩ := (mem_dropped_calls _ _ _).mp h
      cases e
    rw [h0, Nat.zero_add]

/-- C11. No churn and idempotence of resolution updates: for every state of a balancer
that is not closed and every new address set, the update returns the nil error; each
address that is registered and in the new set keeps its handle and its nodeID; every
call the update makes is a `Shutdown` on the handle of a dropped address, a
`NewSubConn` for an address of the new set that was not registered, or a `Connect` on
a handle the factory returns during the update, so that no call is made for a kept
address (none on its handle either, when no other address shares the handle and the
factory does not return it again); an update whose address set is the set of
registered addresses returns the balancer unchanged and makes no call; and when no
creation failed, applying the same update again changes nothing. -/
theorem no_churn (b : routingBalancer) (state : ClientConnState)
    (hopen : b.closed = false) :
    ∃ b' news, UpdateClientConnState b state = some (none, b') ∧
      b'.cc.calls = b.cc.calls ++ news ∧
      (∀ a, a ∈ b.subConnMap → a ∈ state.ResolverState.Addresses →
        b'.subConnMap.lookup a = b.subConnMap.lookup a ∧
        b'.nodeIDMap.lookup a = b.nodeIDMap.lookup a) ∧
      (∀ c ∈ news,
        (∃ a h, c = Call.Shutdown h ∧ b.subConnMap.lookup a = some h ∧
          a ∉ state.ResolverState.Addresses) ∨
        (∃ a r, c = Call.NewSubConn a r ∧ a ∈ state.ResolverState.Addresses ∧
          a ∉ b.subConnMap) ∨
        (∃ sc i, c = Call.Connect sc ∧ b.cc.made ≤ i ∧ b.cc.factory i = some sc)) ∧
      (∀ a h, b.subConnMap.lookup a = some h → a ∈ state.ResolverState.Addresses →
        (∀ a', b.subConnMap.lookup a' = some h → a' = a) →
        (∀ i, b.cc.made ≤ i → b.cc.factory i ≠ some h) →
        Call.Shutdown h ∉ news ∧ Call.Connect h ∉ news ∧
        ∀ r, Call.NewSubConn a r ∉ news) ∧
      ((∀ a, a ∈ b.subConnMap ↔ a ∈ state.ResolverState.Addresses) →
        b' = b ∧ news = []) ∧
      ((∀ a, Call.NewSubConn a none ∉ news) →
        UpdateClientConnState b' state = some (none, b')) := by
  obtain ⟨b', adds, he, E, hcalls, hnew, _⟩ := UpdateClientConnState_calls b state hopen
  obtain ⟨_, _, r3, r4, _, r6, r7, _⟩ := removeLoop_general (newAddrsOf state) b
  have hmemNew := mem_newAddrsOf state
  -- membership in the forward map after the removing loop
  have hmem1 : ∀ a, a ∈ (removeLoop (newAddrsOf state) b).subConnMap
      ↔ a ∈ newAddrsOf state ∧ a ∈ b.subConnMap := by
    intro a
    rw [← AList.lookup_isSome, r6 a, ← AList.lookup_isSome]
    by_cases ha : a ∈ newAddrsOf state
    · simp [ha]
    · simp [ha]
  have hkind : ∀ c ∈ (droppedEntries (newAddrsOf state) b.subConnMap.entries).map
        (fun e => Call.Shutdown e.2) ++ adds,
      (∃ a h, c = Call.Shutdown h ∧ b.subConnMap.lookup a = some h ∧
        a ∉ state.ResolverState.Addresses) ∨
      (∃ a r, c = Call.NewSubConn a r ∧ a ∈ state.ResolverState.Addresses ∧
        a ∉ b.subConnMap) ∨
      (∃ sc i, c = Call.Connect sc ∧ b.cc.made ≤ i ∧ b.cc.factory i = some sc) := by
    intro c hc
    rcases List.mem_append.mp hc with h | h
    · obtain ⟨a, h', e, hl, hna⟩ := (mem_dropped_calls _ _ _).mp h
      exact Or.inl ⟨a, h', e, hl, fun hx => hna ((hmemNew a).mpr hx)⟩
    · rcases E.kind c h with ⟨a, r, e, ha, hna⟩ | ⟨sc, i, e, hi, hf⟩
      · exact Or.inr (Or.inl ⟨a, r, e, (hmemNew a).mp ha,
          fun hm => hna ((hmem1 a).mpr ⟨ha, hm⟩)⟩)
      · exact Or.inr (Or.inr ⟨sc, i, e, by rw [← r4]; exact hi, by rw [← r3]; exact hf⟩)
  have hreg : (∀ a, Call.NewSubConn a none ∉ adds) →
      ∀ a, a ∈ b'.subConnMap ↔ a ∈ newAddrsOf state := by
    intro hok a
    constructor
    · intro ha
      by_contra hna
      have h1 := (E.outside a hna).1
      rw [r6 a, if_neg hna] at h1
      exact (AList.lookup_eq_none.mp h1) ha
    · intro ha
      by_cases hm : a ∈ (removeLoop (newAddrsOf state) b).subConnMap
      · rw [← AList.lookup_isSome, (E.kept a hm).1, AList.lookup_isSome]
        exact hm
      · obtain ⟨r, hr⟩ := E.attempted a ha hm
        cases r with
        | none => exact absurd hr (hok a)
        | some sc =>
          exact AList.lookup_isSome.mp (by rw [E.result a (some sc) hr]; rfl)
  refine ⟨b', _, he, hcalls, ?_, hkind, ?_, ?_, ?_⟩
  · intro a hm ha
    have ha' := (hmemNew a).mpr ha
    obtain ⟨k1, k2⟩ := E.kept a ((hmem1 a).mpr ⟨ha', hm⟩)
    refine ⟨?_, ?_⟩
    · rw [k1, r6 a, if_pos ha']
    · rw [k2, r7 a, if_neg (fun hc => hc.2 ha')]
  · intro a h hl ha hinj hnot
    have hm : a ∈ b.subConnMap := AList.lookup_isSome.mp (by rw [hl]; rfl)
    refine ⟨?_, ?_, ?_⟩
    · intro hc
      rcases hkind _ hc with ⟨a', h', e, hl', hna⟩ | ⟨a', r, e, _, _⟩ | ⟨sc, i, e, _, _⟩
      · cases e
        exact hna (hinj a' hl' ▸ ha)
      · cases e
      · cases e
    · intro hc
      rcases hkind _ hc with ⟨a', h', e, _, _⟩ | ⟨a', r, e, _, _⟩ | ⟨sc, i, e, hi, hf⟩
      · cases e
      · cases e
      · cases e
        exact hnot i hi hf
    · intro r hc
      rcases hkind _ hc with ⟨a', h', e, _, _⟩ | ⟨a', r', e, _, hna⟩ | ⟨sc, i, e, _, _⟩
      · cases e
      · cases e
        exact hna hm
      · cases e
  · intro hsame
    have h1 : removeLoop (newAddrsOf state) b = b :=
      removeLoop_id _ b (fun a ha => (hmemNew a).mpr ((hsame a).mp ha))
    have h2 : addLoop (newAddrsOf state) b = some b :=
      addLoop_id _ b (fun a ha => (hsame a).mpr ((hmemNew a).mp ha))
    have h3 : UpdateClientConnState b state = some (none, b) := by
      simp [UpdateClientConnState, h1, h2]
    rw [h3] at he
    have hb : b = b' := (Prod.mk.inj (Option.some.inj he)).2
    subst hb
    exact ⟨rfl, List.self_eq_append_right.mp hcalls⟩
  · intro hok
    have hok' : ∀ a, Call.NewSubConn a none ∉ adds :=
      fun a hc => hok a ((hnew a none).mpr hc)
    have hr := hreg hok'
    have h1 : removeLoop (newAddrsOf state) b' = b' :=
      removeLoop_id _ b' (fun a ha => (hr a).mp ha)
    have h2 : addLoop (newAddrsOf state) b' = some b' :=
      addLoop_id _ b' (fun a ha => (hr a).mpr ha)
    simp [UpdateClientConnState, h1, h2]

/-- C11 at a concrete balancer: A is registered under handle 100, the update names A
and B; A keeps its handle. -/
theorem no_churn_witness :
    ∃ b' news,
      UpdateClientConnState
        { newRoutingBalancer { countingConn with made := 1 } with
          subConnMap := AList.singleton addrA 100
          scToAddrMap := AList.singleton 100 addrA
          nodeIDMap := AList.singleton addrA "a:1" }
        ⟨⟨[addrA, addrB]⟩⟩ = some (none, b') ∧
      b'.cc.calls = [] ++ news ∧ b'.subConnMap.lookup addrA = some 100 := by
  obtain ⟨b', news, h1, h2, h3, _⟩ := no_churn
    { newRoutingBalancer { countingConn with made := 1 } with
      subConnMap := AList.singleton addrA 100
      scToAddrMap := AList.singleton 100 addrA
      nodeIDMap := AList.singleton addrA "a:1" }
    ⟨⟨[addrA, addrB]⟩⟩ rfl
  exact ⟨b', news, h1, h2, (h3 addrA (by decide) (by decide)).1⟩

/-! ## Creation failures -/

/-- With a transport that returns fresh handles, the adding loop calls `Connect` once on
each handle it connects, and only on handles that had not been created before. -/
theorem addLoop_connect_once (l : List Address) (b : routingBalancer)
    (hopen : b.closed = false) (hfresh : FreshFactory b.cc.factory) :
    ∃ b' adds, addLoop l b = some b' ∧ b'.cc.calls = b.cc.calls ++ adds ∧
      ∀ sc, Call.Connect sc ∈ adds →
        ¬ b.cc.Created sc ∧ adds.count (Call.Connect sc) = 1 := by
  induction l generalizing b with
  | nil => exact ⟨b, [], rfl, by simp, fun sc h => by simp at h⟩
  | cons addr rest ih =>
    by_cases hm : addr ∈ b.subConnMap
    · obtain ⟨b', adds, he, hc, hk⟩ := ih b hopen hfresh
      exact ⟨b', adds, by rw [addLoop_cons_mem addr rest b hm]; exact he, hc, hk⟩
    · cases hf : b.cc.factory b.cc.made with
      | none =>
        obtain ⟨b', adds, he, hc, hk⟩ := ih
          { b with
            cc := { b.cc with
              made := b.cc.made + 1
              calls := b.cc.calls ++ [Call.NewSubConn addr none] } } hopen hfresh
        refine ⟨b', Call.NewSubConn addr none :: adds,
          by rw [addLoop_cons_fail addr rest b hm hf]; exact he, by rw [hc]; simp, ?_⟩
        intro sc hsc
        have hsc' : Call.Connect sc ∈ adds := by
          rcases List.mem_cons.mp hsc with e | h
          · cases e
          · exact h
        obtain ⟨k1, k2⟩ := hk sc hsc'
        refine ⟨fun hcr => k1 (Created_mono hcr rfl (Nat.le_succ _)), ?_⟩
        rw [List.count_cons, k2]
        simp
      | some sc0 =>
        obtain ⟨b', adds, he, hc, hk⟩ := ih
          { b with
            cc := { b.cc with
              made := b.cc.made + 1
              calls := b.cc.calls ++ [Call.NewSubConn addr (some sc0)]
                ++ [Call.Connect sc0] }
            subConnMap := b.subConnMap.insert addr sc0
            scToAddrMap := b.scToAddrMap.insert sc0 addr
            nodeIDMap := b.nodeIDMap.insert addr (extractNodeID addr) } hopen hfresh
        refine ⟨b', Call.NewSubConn addr (some sc0) :: Call.Connect sc0 :: adds,
          by rw [addLoop_cons_ok addr rest b sc0 hm hf hopen]; exact he,
          by rw [hc]; simp, ?_⟩
        intro sc hsc
        by_cases hsc0 : sc = sc0
        · subst hsc0
          refine ⟨not_Created_of_fresh hfresh hf, ?_⟩
          have hzero : adds.count (Call.Connect sc) = 0 := by
            apply List.count_eq_zero_of_not_mem
            intro hin
            exact (hk sc hin).1 ⟨b.cc.made, Nat.lt_succ_self _, hf⟩
          rw [List.count_cons, List.count_cons, hzero]
          simp
        · have hsc' : Call.Connect sc ∈ adds := by
            rcases List.mem_cons.mp hsc with e | h
            · cases e
            · rcases List.mem_cons.mp h with e | h'
              · cases e
                exact absurd rfl hsc0
              · exact h'
          obtain ⟨k1, k2⟩ := hk sc hsc'
          refine ⟨fun hcr => k1 (Created_mono hcr rfl (Nat.le_succ _)), ?_⟩
          have hne : ¬ sc0 = sc := fun e => hsc0 e.symm
          rw [List.count_cons, List.count_cons, k2]
          simp [hne]

/-- C15. Connection-creation failure is absorbed: in every state the balancer reaches
from a new balancer by resolution updates and state-change notifications, whatever the
factory returns, a resolution update returns the nil error and calls the factory for
every address of the new set that is not registered; an address whose creation failed
is afterwards absent from the forward, reverse and nodeID maps, and a later update
that contains it calls the factory for it again; an address whose creation succeeded
is registered under the returned handle with its extracted nodeID, and its creation is
directly followed by `Connect` on that handle, which, when the factory returns fresh
handles, is the handle's reverse entry and its only `Connect` call. -/
theorem creation_failure_absorbed (cc : ClientConn) (ops : List Op) (b : routingBalancer)
    (hrun : run (newRoutingBalancer cc) ops = some b) (state : ClientConnState) :
    ∃ b' news, UpdateClientConnState b state = some (none, b') ∧
      b'.cc.calls = b.cc.calls ++ news ∧
      (∀ a, a ∈ state.ResolverState.Addresses → a ∉ b.subConnMap →
        ∃ r, Call.NewSubConn a r ∈ news) ∧
      (∀ a, Call.NewSubConn a none ∈ news →
        a ∉ b'.subConnMap ∧ a ∉ b'.nodeIDMap ∧
        (∀ h, b'.scToAddrMap.lookup h ≠ some a) ∧
        ∀ state2 : ClientConnState, a ∈ state2.ResolverState.Addresses →
          ∃ b'' news2, UpdateClientConnState b' state2 = some (none, b'') ∧
            b''.cc.calls = b'.cc.calls ++ news2 ∧ ∃ r, Call.NewSubConn a r ∈ news2) ∧
      (∀ a sc, Call.NewSubConn a (some sc) ∈ news →
        b'.subConnMap.lookup a = some sc ∧
        b'.nodeIDMap.lookup a = some (extractNodeID a) ∧
        (∃ pre post,
          news = pre ++ Call.NewSubConn a (some sc) :: Call.Connect sc :: post) ∧
        (FreshFactory cc.factory →
          b'.scToAddrMap.lookup sc = some a ∧ news.count (Call.Connect sc) = 1)) := by
  obtain ⟨b0, h0, hinv, hfac⟩ := run_NodeInv ops (newRoutingBalancer cc) (NodeInv_new cc)
  rw [hrun] at h0
  have hb0 : b = b0 := Option.some.inj h0
  subst hb0
  obtain ⟨b', adds, he, E, hcalls, hnew, hcount⟩ :=
    UpdateClientConnState_calls b state hinv.isOpen
  have hinv' : NodeInv b' :=
    NodeInv_addLoop _ _ b' adds (NodeInv_removeLoop (newAddrsOf state) b hinv) E
  obtain ⟨ro, _, r3, r4, _, r6, _, _⟩ := removeLoop_general (newAddrsOf state) b
  have hunreg : ∀ (b1 : routingBalancer) (st : ClientConnState) (a : Address),
      a ∉ b1.subConnMap → a ∉ (removeLoop (newAddrsOf st) b1).subConnMap := by
    intro b1 st a hna
    apply AList.lookup_eq_none.mp
    rw [(removeLoop_general (newAddrsOf st) b1).2.2.2.2.2.1 a]
    by_cases ha : a ∈ newAddrsOf st
    · rw [if_pos ha]
      exact AList.lookup_eq_none.mpr hna
    · rw [if_neg ha]
  refine ⟨b', _, he, hcalls, ?_, ?_, ?_⟩
  · intro a ha hna
    obtain ⟨r, hr⟩ := E.attempted a ((mem_newAddrsOf state a).mpr ha) (hunreg b state a hna)
    exact ⟨r, (hnew a r).mpr hr⟩
  · intro a hfail
    have hfail' := (hnew a none).mp hfail
    have hfwd : b'.subConnMap.lookup a = none := E.result a none hfail'
    have hna : a ∉ b'.subConnMap := AList.lookup_eq_none.mp hfwd
    refine ⟨hna, AList.lookup_eq_none.mp (hinv'.nodeUnreg a hna), ?_, ?_⟩
    · intro h hl
      have := hinv'.revFwd h a hl
      rw [hfwd] at this
      cases this
    · intro state2 ha2
      obtain ⟨b'', adds2, he2, E2, hcalls2, hnew2, _⟩ :=
        UpdateClientConnState_calls b' state2 hinv'.isOpen
      obtain ⟨r, hr⟩ := E2.attempted a ((mem_newAddrsOf state2 a).mpr ha2)
        (hunreg b' state2 a hna)
      exact ⟨b'', _, he2, hcalls2, r, (hnew2 a r).mpr hr⟩
  · intro a sc hok
    have hok' := (hnew a (some sc)).mp hok
    have hfwd : b'.subConnMap.lookup a = some sc := E.result a (some sc) hok'
    obtain ⟨pre, post, hp⟩ := E.connect a sc hok'
    refine ⟨hfwd, E.nodeOk a sc hok', ⟨_ ++ pre, post, by rw [hp, List.append_assoc]⟩, ?_⟩
    intro hfresh
    have hfreshb : FreshFactory b.cc.factory := by rw [hfac]; exact hfresh
    constructor
    · -- the registry invariant of the fresh world gives the reverse entry
      obtain ⟨b1, g1, ginv, _⟩ := run_RegistryInv ops (newRoutingBalancer cc)
        (RegistryInv_new cc) hfresh
      rw [hrun] at g1
      have hb1 : b = b1 := Option.some.inj g1
      subst hb1
      obtain ⟨b2, u1, u2, _⟩ := UpdateClientConnState_spec b state ginv hfreshb
      rw [he] at u1
      have hb2 : b' = b2 := (Prod.mk.inj (Option.some.inj u1)).2
      subst hb2
      exact (u2.inverse a sc).mp hfwd
    · have hopen1 : (removeLoop (newAddrsOf state) b).closed = false :=
        ro.trans hinv.isOpen
      obtain ⟨b3, adds3, he3, hc3, hk⟩ := addLoop_connect_once (newAddrsOf state)
        (removeLoop (newAddrsOf state) b) hopen1 (by rw [r3]; exact hfreshb)
      have he' : UpdateClientConnState b state = some (none, b3) := by
        simp [UpdateClientConnState, he3]
      rw [he] at he'
      have hb3 : b' = b3 := (Prod.mk.inj (Option.some.inj he')).2
      subst hb3
      have hadds : adds = adds3 := by
        have := E.calls
        rw [hc3] at this
        exact (List.append_cancel_left this).symm
      subst hadds
      have hmem : Call.Connect sc ∈ adds := by
        rw [hp]
        simp
      rw [hcount sc]
      exact (hk sc hmem).2

/-- C15 at a new balancer whose transport fails the first creation: the update for A
and B returns the nil error and calls the factory for A. -/
theorem creation_failure_absorbed_witness :
    run (newRoutingBalancer flakyConn) [] = some (newRoutingBalancer flakyConn) ∧
    ∃ b' news, UpdateClientConnState (newRoutingBalancer flakyConn)
        ⟨⟨[addrA, addrB]⟩⟩ = some (none, b') ∧
      b'.cc.calls = (newRoutingBalancer flakyConn).cc.calls ++ news ∧
      ∃ r, Call.NewSubConn addrA r ∈ news :=
  ⟨rfl,
    (creation_failure_absorbed flakyConn [] (newRoutingBalancer flakyConn) rfl
      ⟨⟨[addrA, addrB]⟩⟩).imp (fun _ hb => hb.imp (fun _ hn =>
        ⟨hn.1, hn.2.1, hn.2.2.1 addrA (by decide) (by decide)⟩))⟩

/-! ## NodeID derivation -/

/-- C19. NodeID derivation: `extractNodeID` returns the string stored under the
attribute key "nodeID" when the address has an attribute bag holding a string there,
and the address's `Addr` in every other case (no bag; key absent or value not a
string); in every state reached from a new balancer by resolution updates and
state-change notifications, the nodeID recorded for a registered address is this
value, a successful creation records it, and a Ready notification for a registered
handle pairs the handle with it in the usable set. -/
theorem nodeID_derivation (addr : Address) :
    (∀ attrs s, addr.Attributes = some attrs →
      attrs.Value (AnyValue.str "nodeID") = some (AnyValue.str s) →
      extractNodeID addr = s) ∧
    (addr.Attributes = none → extractNodeID addr = addr.Addr) ∧
    (∀ attrs, addr.Attributes = some attrs →
      (∀ s, attrs.Value (AnyValue.str "nodeID") ≠ some (AnyValue.str s)) →
      extractNodeID addr = addr.Addr) ∧
    (∀ cc ops b, run (newRoutingBalancer cc) ops = some b →
      (addr ∈ b.subConnMap → b.nodeIDMap.lookup addr = some (extractNodeID addr)) ∧
      (∀ sc, b.scToAddrMap.lookup sc = some addr →
        b.nodeIDMap.lookup addr = some (extractNodeID addr) ∧
        (UpdateSubConnState b sc ⟨ConnectivityState.Ready⟩).readySCs.lookup sc
          = some (extractNodeID addr)) ∧
      (∀ state, ∃ b' news, UpdateClientConnState b state = some (none, b') ∧
        b'.cc.calls = b.cc.calls ++ news ∧
        ∀ sc, Call.NewSubConn addr (some sc) ∈ news →
          b'.subConnMap.lookup addr = some sc ∧
          b'.nodeIDMap.lookup addr = some (extractNodeID addr))) := by
  refine ⟨?_, ?_, ?_, ?_⟩
  · intro attrs s ha hv
    unfold extractNodeID
    rw [ha]
    simp only [hv]
  · intro ha
    unfold extractNodeID
    rw [ha]
  · intro attrs ha hv
    unfold extractNodeID
    rw [ha]
    cases hval : attrs.Value (AnyValue.str "nodeID") with
    | none => simp only [hval]
    | some v =>
      cases v with
      | str s => exact absurd hval (hv s)
      | _ => simp only [hval]
  · intro cc ops b hrun
    obtain ⟨b0, h0, hinv, _⟩ := run_NodeInv ops (newRoutingBalancer cc) (NodeInv_new cc)
    rw [hrun] at h0
    have hb0 : b = b0 := Option.some.inj h0
    subst hb0
    refine ⟨hinv.nodeReg addr, ?_, ?_⟩
    · intro sc hsc
      have hfwd : b.subConnMap.lookup addr = some sc := hinv.revFwd sc addr hsc
      have hmem : addr ∈ b.subConnMap := by
        rw [← AList.lookup_isSome, hfwd]
        rfl
      have hnode := hinv.nodeReg addr hmem
      refine ⟨hnode, ?_⟩
      rw [UpdateSubConnState_ready b sc ⟨ConnectivityState.Ready⟩ addr hsc rfl,
        updatePicker_readySCs, hnode]
      exact AList.lookup_insert _
    · intro state
      obtain ⟨b', adds, he, E, hcalls, hnew, _⟩ :=
        UpdateClientConnState_calls b state hinv.isOpen
      refine ⟨b', _, he, hcalls, ?_⟩
      intro sc hok
      have hok' := (hnew addr (some sc)).mp hok
      exact ⟨E.result addr (some sc) hok', E.nodeOk addr sc hok'⟩

/-- C19 at an address whose bag stores "n1": the extracted nodeID is "n1", and after
the address is resolved on a new balancer and its handle 100 reports Ready, the
usable set pairs 100 with "n1". -/
theorem nodeID_derivation_witness :
    extractNodeID addrN = "n1" ∧
    (UpdateSubConnState
        ((UpdateClientConnState (newRoutingBalancer countingConn) ⟨⟨[addrN]⟩⟩).map
          Prod.snd |>.getD (newRoutingBalancer countingConn))
        100 ⟨ConnectivityState.Ready⟩).readySCs.lookup 100 = some (extractNodeID addrN) :=
  ⟨(nodeID_derivation addrN).1 _ "n1" rfl (by decide),
    (((nodeID_derivation addrN).2.2.2 countingConn [Op.resolve ⟨⟨[addrN]⟩⟩] _
      rfl).2.1 100 (by decide)).2⟩

/-! ## The usable set, for every handle -/

theorem shutdownNotified_append (xs ys : List Op) (h : SubConn) :
    shutdownNotified (xs ++ ys) h = (shutdownNotified xs h || shutdownNotified ys h) := by
  simp [shutdownNotified, List.any_append]

theorem shutdownNotified_notify (sc : SubConn) (state : SubConnState) (h : SubConn) :
    shutdownNotified [Op.notify sc state] h
      = decide (sc = h ∧ state.ConnectivityState = ConnectivityState.Shutdown) := by
  simp [shutdownNotified]

theorem shutdownNotified_resolve (state : ClientConnState) (h : SubConn) :
    shutdownNotified [Op.resolve state] h = false := by
  simp [shutdownNotified]

/-- A handle for which Shutdown was notified has a most recent notification. -/
theorem lastNotified_of_shutdownNotified (hist : List Op) (h : SubConn)
    (hs : shutdownNotified hist h = true) : lastNotified hist h ≠ none := by
  induction hist with
  | nil => simp [shutdownNotified] at hs
  | cons op rest ih =>
    have hsplit : shutdownNotified (op :: rest) h
        = (shutdownNotified [op] h || shutdownNotified rest h) :=
      shutdownNotified_append [op] rest h
    rw [hsplit, Bool.or_eq_true] at hs
    simp only [lastNotified]
    cases hl : lastNotified rest h with
    | some s => simp
    | none =>
      rcases hs with hs | hs
      · cases op with
        | notify sc state =>
          rw [shutdownNotified_notify, decide_eq_true_eq] at hs
          simp [hs.1]
        | resolve state =>
          rw [shutdownNotified_resolve] at hs
          cases hs
      · exact absurd hl (ih hs)

/-- How a state-change notification changes the reverse map. -/
theorem UpdateSubConnState_reverse (b : routingBalancer) (sc : SubConn)
    (state : SubConnState) (h : SubConn) :
    (UpdateSubConnState b sc state).scToAddrMap.lookup h
      = if h = sc ∧ state.ConnectivityState = ConnectivityState.Shutdown then none
        else b.scToAddrMap.lookup h := by
  cases hreg : b.scToAddrMap.lookup sc with
  | none =>
    rw [UpdateSubConnState_stale b sc state hreg]
    by_cases e : h = sc ∧ state.ConnectivityState = ConnectivityState.Shutdown
    · rw [if_pos e, e.1, hreg]
    · rw [if_neg e]
  | some addr =>
    by_cases h1 : state.ConnectivityState = ConnectivityState.Ready
    · rw [UpdateSubConnState_ready b sc state addr hreg h1, (updatePicker_fields _).2.1]
      have : ¬ (h = sc ∧ state.ConnectivityState = ConnectivityState.Shutdown) := by
        rintro ⟨_, e⟩
        rw [h1] at e
        cases e
      rw [if_neg this]
    · by_cases h2 : state.ConnectivityState = ConnectivityState.Shutdown
      · rw [UpdateSubConnState_shutdown b sc state addr hreg h2,
          (updatePicker_fields _).2.1]
        simp only [lookup_erase_ite, h2, and_true]
      · rw [UpdateSubConnState_unready b sc state addr hreg h1 h2,
          (updatePicker_fields _).2.1]
        have : ¬ (h = sc ∧ state.ConnectivityState = ConnectivityState.Shutdown) :=
          fun e => h2 e.2
        rw [if_neg this]

/-- The adding loop registers every handle it creates: a handle created by the end of
the loop was created before it or is registered. -/
theorem addLoop_registers (l : List Address) (b : routingBalancer)
    (hinv : RegistryInv b) (hfresh : FreshFactory b.cc.factory) :
    ∃ b', addLoop l b = some b' ∧
      ∀ h, b'.cc.Created h → b.cc.Created h ∨ ∃ a, b'.scToAddrMap.lookup h = some a := by
  induction l generalizing b with
  | nil => exact ⟨b, rfl, fun h hc => Or.inl hc⟩
  | cons addr rest ih =>
    by_cases hm : addr ∈ b.subConnMap
    · obtain ⟨b', h1, h2⟩ := ih b hinv hfresh
      exact ⟨b', by rw [addLoop_cons_mem addr rest b hm]; exact h1, h2⟩
    · cases hf : b.cc.factory b.cc.made with
      | none =>
        have hinv1 : RegistryInv
            { b with
              cc := { b.cc with
                made := b.cc.made + 1
                calls := b.cc.calls ++ [Call.NewSubConn addr none] } } :=
          ⟨hinv.isOpen, hinv.inverse,
            fun h a hl => Created_mono (hinv.regCreated h a hl) rfl (Nat.le_succ _),
            fun h hh => Created_mono (hinv.readyCreated h hh) rfl (Nat.le_succ _)⟩
        obtain ⟨b', h1, h2⟩ := ih _ hinv1 hfresh
        refine ⟨b', by rw [addLoop_cons_fail addr rest b hm hf]; exact h1, ?_⟩
        intro h hc
        rcases h2 h hc with ⟨i, hi, hfi⟩ | hr
        · left
          have hi' : i < b.cc.made + 1 := hi
          have hfi' : b.cc.factory i = some h := hfi
          have hne : i ≠ b.cc.made := by
            rintro rfl
            rw [hf] at hfi'
            cases hfi'
          exact ⟨i, by omega, hfi'⟩
        · exact Or.inr hr
      | some sc =>
        have hinv1 := RegistryInv_register b addr sc
          ([Call.NewSubConn addr (some sc)] ++ [Call.Connect sc]) (extractNodeID addr)
          hinv hfresh hm hf
        rw [← List.append_assoc] at hinv1
        obtain ⟨b', h1, h2⟩ := ih _ hinv1 hfresh
        obtain ⟨b'', g1, g2, _, _, _, g6, _⟩ := addLoop_spec rest _ hinv1 hfresh
        rw [h1] at g1
        have hb : b' = b'' := Option.some.inj g1
        subst hb
        refine ⟨b', by rw [addLoop_cons_ok addr rest b sc hm hf hinv.isOpen]; exact h1, ?_⟩
        intro h hc
        rcases h2 h hc with ⟨i, hi, hfi⟩ | hr
        · have hi' : i < b.cc.made + 1 := hi
          have hfi' : b.cc.factory i = some h := hfi
          by_cases e : i = b.cc.made
          · right
            rw [e, hf] at hfi'
            have hsc : sc = h := Option.some.inj hfi'
            subst hsc
            refine ⟨addr, (g2.inverse addr sc).mp (g6 addr sc ?_)⟩
            simp [lookup_insert_ite]
          · exact Or.inl ⟨i, by omega, hfi'⟩
        · exact Or.inr hr

/-- A resolution update registers every handle it creates. -/
theorem UpdateClientConnState_registers (b : routingBalancer) (state : ClientConnState)
    (hinv : RegistryInv b) (hfresh : FreshFactory b.cc.factory) :
    ∃ b', UpdateClientConnState b state = some (none, b') ∧
      ∀ h, b'.cc.Created h → b.cc.Created h ∨ ∃ a, b'.scToAddrMap.lookup h = some a := by
  obtain ⟨r1, _, r3, r4, _⟩ := removeLoop_spec (newAddrsOf state) b hinv
  obtain ⟨b', a1, a2⟩ := addLoop_registers (newAddrsOf state)
    (removeLoop (newAddrsOf state) b) r1 (by rw [r3]; exact hfresh)
  refine ⟨b', by simp [UpdateClientConnState, a1], ?_⟩
  intro h hc
  rcases a2 h hc with hr | hr
  · exact Or.inl (Created_mono hr r3.symm (Nat.le_of_eq r4))
  · exact Or.inr hr

/-- The usable set follows the notifications of every handle that no resolution update
has dropped, along every run in which notifications are delivered for created handles
only: `D` holds of the handles dropped before the run starts. -/
theorem run_tracks_undropped (ops hist : List Op) (b : routingBalancer)
    (D : SubConn → Prop)
    (hinv : RegistryInv b) (hfresh : FreshFactory b.cc.factory)
    (hnot : ∀ h, lastNotified hist h ≠ none → b.cc.Created h)
    (hD : ∀ h, D h → b.cc.Created h ∧ b.scToAddrMap.lookup h = none)
    (hreg : ∀ h a, b.scToAddrMap.lookup h = some a →
      shutdownNotified hist h = false ∧
      (h ∈ b.readySCs ↔ lastNotified hist h = some ConnectivityState.Ready))
    (hunreg : ∀ h, ¬ D h → b.scToAddrMap.lookup h = none →
      h ∉ b.readySCs ∧ (b.cc.Created h → shutdownNotified hist h = true))
    (hdel : wellDelivered b ops = true) :
    ∃ b', run b ops = some b' ∧
      (∀ h, ¬ D h → droppedByUpdate b ops h = false →
        (h ∈ b'.readySCs ↔ lastNotified (hist ++ ops) h = some ConnectivityState.Ready
          ∧ shutdownNotified (hist ++ ops) h = false)) ∧
      (∀ h a, b'.scToAddrMap.lookup h = some a →
        ¬ D h ∧ droppedByUpdate b ops h = false ∧
        shutdownNotified (hist ++ ops) h = false) := by
  induction ops generalizing b hist D with
  | nil =>
    refine ⟨b, rfl, ?_, ?_⟩
    · intro h hnd _
      rw [List.append_nil]
      cases hl : b.scToAddrMap.lookup h with
      | some a =>
        obtain ⟨q1, q2⟩ := hreg h a hl
        rw [q2, q1]
        simp
      | none =>
        obtain ⟨q1, q2⟩ := hunreg h hnd hl
        constructor
        · intro hm
          exact absurd hm q1
        · rintro ⟨hr, hs⟩
          have hc : b.cc.Created h := hnot h (by rw [hr]; simp)
          rw [q2 hc] at hs
          cases hs
    · intro h a hl
      rw [List.append_nil]
      refine ⟨fun hd => ?_, rfl, (hreg h a hl).1⟩
      have := (hD h hd).2
      rw [hl] at this
      cases this
  | cons op rest ih =>
    cases op with
    | resolve state =>
      obtain ⟨b1, u1, u2, u3, u4, u5, u6, u7, u8, _⟩ :=
        UpdateClientConnState_spec b state hinv hfresh
      obtain ⟨b2, v1, v2⟩ := UpdateClientConnState_registers b state hinv hfresh
      rw [u1] at v1
      have hb2 : b1 = b2 := (Prod.mk.inj (Option.some.inj v1)).2
      subst hb2
      have hstep : step b (Op.resolve state) = some b1 := by simp [step, u1]
      have hdel1 : wellDelivered b1 rest = true := by
        simp only [wellDelivered, hstep, Bool.and_eq_true] at hdel
        exact hdel.2
      have hmemNew := mem_newAddrsOf state
      have hdrop : ∀ h, h ∈ (droppedEntries (newAddrsOf state) b.subConnMap.entries).map
            (fun e => e.2)
          ↔ ∃ a, b.subConnMap.lookup a = some h ∧ a ∉ state.ResolverState.Addresses := by
        intro h
        rw [mem_dropped_snd]
        constructor
        · rintro ⟨a, q1, q2⟩
          exact ⟨a, q1, fun hx => q2 ((hmemNew a).mpr hx)⟩
        · rintro ⟨a, q1, q2⟩
          exact ⟨a, q1, fun hx => q2 ((hmemNew a).mp hx)⟩
      obtain ⟨b', r1, r2, r3⟩ := ih (hist ++ [Op.resolve state]) b1
        (fun h => D h ∨ ∃ a, b.subConnMap.lookup a = some h
          ∧ a ∉ state.ResolverState.Addresses)
        u2 (by rw [u4]; exact hfresh)
        (by
          intro h hne
          rw [lastNotified_append_resolve] at hne
          exact Created_mono (hnot h hne) u4 u5)
        (by
          rintro h (hd | ⟨a, q1, q2⟩)
          · obtain ⟨c1, c2⟩ := hD h hd
            refine ⟨Created_mono c1 u4 u5, ?_⟩
            cases hl : b1.scToAddrMap.lookup h with
            | none => rfl
            | some a =>
              rcases u6 h a hl with hr | hr
              · rw [c2] at hr
                cases hr
              · exact absurd c1 hr
          · exact ⟨Created_mono (hinv.regCreated h a ((hinv.inverse a h).mp q1)) u4 u5,
              (u8 a h q1 q2).2.2.1⟩)
        (by
          intro h a hl
          rw [shutdownNotified_append, shutdownNotified_resolve, Bool.or_false,
            lastNotified_append_resolve, u3]
          rcases u6 h a hl with hr | hr
          · exact hreg h a hr
          · have h1 : h ∉ b.readySCs := fun hm => hr (hinv.readyCreated h hm)
            have h2 : lastNotified hist h = none := by
              by_contra hne
              exact hr (hnot h hne)
            have h3 : shutdownNotified hist h = false := by
              cases hs : shutdownNotified hist h with
              | false => rfl
              | true => exact absurd h2 (lastNotified_of_shutdownNotified hist h hs)
            refine ⟨h3, ?_⟩
            simp [h1, h2])
        (by
          intro h hnd hl
          rw [shutdownNotified_append, shutdownNotified_resolve, Bool.or_false, u3]
          have hnd1 : ¬ D h := fun hd => hnd (Or.inl hd)
          cases hl0 : b.scToAddrMap.lookup h with
          | some a =>
            exfalso
            have hf0 : b.subConnMap.lookup a = some h := (hinv.inverse a h).mpr hl0
            by_cases ha : a ∈ state.ResolverState.Addresses
            · have := (u2.inverse a h).mp (u7 a h hf0 ha)
              rw [hl] at this
              cases this
            · exact hnd (Or.inr ⟨a, hf0, ha⟩)
          | none =>
            obtain ⟨q1, q2⟩ := hunreg h hnd1 hl0
            refine ⟨q1, fun hc => ?_⟩
            rcases v2 h hc with hc0 | ⟨a, hr⟩
            · exact q2 hc0
            · rw [hl] at hr
              cases hr)
        hdel1
      refine ⟨b', by simp [run, hstep, r1], ?_, ?_⟩
      · intro h hnd hdr
        simp only [droppedByUpdate, hstep, Bool.or_eq_false_iff, decide_eq_false_iff_not]
          at hdr
        have := r2 h (by
          rintro (hd | hx)
          · exact hnd hd
          · exact hdr.1 ((hdrop h).mpr hx)) hdr.2
        rwa [List.append_assoc, List.singleton_append] at this
      · intro h a hl
        obtain ⟨q1, q2, q3⟩ := r3 h a hl
        rw [List.append_assoc, List.singleton_append] at q3
        refine ⟨fun hd => q1 (Or.inl hd), ?_, q3⟩
        simp only [droppedByUpdate, hstep, Bool.or_eq_false_iff, decide_eq_false_iff_not]
        exact ⟨fun hx => q1 (Or.inr ((hdrop h).mp hx)), q2⟩
    | notify sc state =>
      have hstep : step b (Op.notify sc state) = some (UpdateSubConnState b sc state) := rfl
      simp only [wellDelivered, hstep, Bool.and_eq_true, decide_eq_true_eq] at hdel
      have hcre : b.cc.Created sc := hdel.1
      have hdel1 : wellDelivered (UpdateSubConnState b sc state) rest = true := hdel.2
      obtain ⟨hf, hm⟩ := UpdateSubConnState_cc b sc state
      obtain ⟨m1, m2⟩ := UpdateSubConnState_readySCs b sc state
      have hrev := UpdateSubConnState_reverse b sc state
      have hcre1 : ∀ h, (UpdateSubConnState b sc state).cc.Created h → b.cc.Created h :=
        fun h hc => Created_mono hc hf.symm (Nat.le_of_eq hm)
      obtain ⟨b', r1, r2, r3⟩ := ih (hist ++ [Op.notify sc state])
        (UpdateSubConnState b sc state) D
        (UpdateSubConnState_RegistryInv b sc state hinv)
        (by rw [hf]; exact hfresh)
        (by
          intro h hne
          rw [lastNotified_append_notify] at hne
          by_cases e : sc = h
          · subst e
            exact Created_mono hcre hf (Nat.le_of_eq hm.symm)
          · rw [if_neg e] at hne
            exact Created_mono (hnot h hne) hf (Nat.le_of_eq hm.symm))
        (by
          intro h hd
          obtain ⟨c1, c2⟩ := hD h hd
          refine ⟨Created_mono c1 hf (Nat.le_of_eq hm.symm), ?_⟩
          rw [hrev h, c2]
          simp)
        (by
          intro h a hl
          have hl0 := UpdateSubConnState_reverse_sub b sc state h a hl
          obtain ⟨q1, q2⟩ := hreg h a hl0
          have hns : ¬ (sc = h ∧ state.ConnectivityState = ConnectivityState.Shutdown) := by
            rintro ⟨e1, e2⟩
            rw [hrev h, if_pos ⟨e1.symm, e2⟩] at hl
            cases hl
          refine ⟨?_, ?_⟩
          · rw [shutdownNotified_append, shutdownNotified_notify, q1, Bool.false_or,
              decide_eq_false_iff_not]
            exact hns
          · rw [lastNotified_append_notify]
            by_cases e : sc = h
            · subst e
              rw [if_pos rfl, m2 a hl0]
              constructor
              · intro hx
                rw [hx]
              · intro hx
                exact Option.some.inj hx
            · rw [if_neg e, m1 h (fun x => e x.symm)]
              exact q2)
        (by
          intro h hnd hl
          rw [shutdownNotified_append, shutdownNotified_notify]
          cases hl0 : b.scToAddrMap.lookup h with
          | none =>
            obtain ⟨q1, q2⟩ := hunreg h hnd hl0
            refine ⟨?_, fun hc => ?_⟩
            · by_cases e : h = sc
              · subst e
                rw [UpdateSubConnState_stale b h state hl0]
                exact q1
              · rw [m1 h e]
                exact q1
            · rw [q2 (hcre1 h hc), Bool.true_or]
          | some a =>
            rw [hrev h, hl0] at hl
            have hsh : h = sc ∧ state.ConnectivityState = ConnectivityState.Shutdown := by
              by_contra hx
              rw [if_neg hx] at hl
              cases hl
            obtain ⟨e1, e2⟩ := hsh
            subst e1
            refine ⟨?_, fun _ => ?_⟩
            · rw [m2 a hl0, e2]
              intro hx
              cases hx
            · rw [Bool.or_eq_true, decide_eq_true_eq]
              exact Or.inr ⟨rfl, e2⟩)
        hdel1
      refine ⟨b', by simp [run, hstep, r1], ?_, ?_⟩
      · intro h hnd hdr
        simp only [droppedByUpdate, hstep, Bool.false_or] at hdr
        have := r2 h hnd hdr
        rwa [List.append_assoc, List.singleton_append] at this
      · intro h a hl
        obtain ⟨q1, q2, q3⟩ := r3 h a hl
        rw [List.append_assoc, List.singleton_append] at q3
        refine ⟨q1, ?_, q3⟩
        simp only [droppedByUpdate, hstep, Bool.false_or]
        exact q2

/-- The handles dropped along a run that is split in two. -/
theorem droppedByUpdate_append (xs ys : List Op) (b b1 : routingBalancer) (h : SubConn)
    (hrun : run b xs = some b1) :
    droppedByUpdate b (xs ++ ys) h = (droppedByUpdate b xs h || droppedByUpdate b1 ys h) := by
  induction xs generalizing b with
  | nil =>
    have hb : b = b1 := Option.some.inj hrun
    subst hb
    simp [droppedByUpdate]
  | cons op rest ih =>
    cases hs : step b op with
    | none => simp [run, hs] at hrun
    | some b2 =>
      have hrun2 : run b2 rest = some b1 := by simpa [run, hs] using hrun
      have ih2 : droppedByUpdate b2 (List.append rest ys) h
          = (droppedByUpdate b2 rest h || droppedByUpdate b1 ys h) := ih b2 hrun2
      simp only [List.cons_append, droppedByUpdate, hs]
      rw [ih2, Bool.or_assoc]

/-- C7, amended. Usable-set invariant: with a transport that returns fresh handles and
delivers notifications only for handles it has created, every sequence of resolution
updates and state-change notifications applied to a new balancer runs to its end, and
afterwards a handle that was not created before the balancer was built and whose
address no resolution update has dropped is a key of `readySCs` if and only if the
most recent state notification delivered for it was Ready and no notification reported
Shutdown for it; a registered handle is such a handle, with no Shutdown notification,
so it is a key of `readySCs` if and only if its most recent notification was Ready; a
further resolution update removes every
address it drops, and that address's handle, from the forward, reverse and nodeID
maps, leaves `readySCs` as it is, and makes the handle a dropped one. -/
theorem usable_set_follows_notifications (cc : ClientConn) (ops : List Op)
    (hfresh : FreshFactory cc.factory)
    (hdel : wellDelivered (newRoutingBalancer cc) ops = true) :
    ∃ b, run (newRoutingBalancer cc) ops = some b ∧
      (∀ h, ¬ cc.Created h → droppedByUpdate (newRoutingBalancer cc) ops h = false →
        (h ∈ b.readySCs ↔ lastNotified ops h = some ConnectivityState.Ready
          ∧ shutdownNotified ops h = false)) ∧
      (∀ h a, b.scToAddrMap.lookup h = some a →
        ¬ cc.Created h ∧ droppedByUpdate (newRoutingBalancer cc) ops h = false ∧
        shutdownNotified ops h = false ∧
        (h ∈ b.readySCs ↔ lastNotified ops h = some ConnectivityState.Ready)) ∧
      (∀ state, ∃ b', UpdateClientConnState b state = some (none, b') ∧
        b'.readySCs = b.readySCs ∧
        ∀ a h, b.subConnMap.lookup a = some h → a ∉ state.ResolverState.Addresses →
          b'.subConnMap.lookup a = none ∧ (∀ a', b'.subConnMap.lookup a' ≠ some h) ∧
          b'.scToAddrMap.lookup h = none ∧ b'.nodeIDMap.lookup a = none ∧
          droppedByUpdate (newRoutingBalancer cc) (ops ++ [Op.resolve state]) h
            = true) := by
  obtain ⟨b, r1, r2, r3⟩ := run_tracks_undropped ops [] (newRoutingBalancer cc)
    (fun h => cc.Created h) (RegistryInv_new cc) hfresh
    (by intro h hne; simp [lastNotified] at hne)
    (by intro h hd; exact ⟨hd, by simp [newRoutingBalancer]⟩)
    (by intro h a hl; simp [newRoutingBalancer] at hl)
    (by
      intro h hnc _
      exact ⟨by simp [newRoutingBalancer], fun hc => absurd hc hnc⟩)
    hdel
  obtain ⟨b0, g1, ginv, gfac⟩ := run_RegistryInv ops (newRoutingBalancer cc)
    (RegistryInv_new cc) hfresh
  rw [r1] at g1
  have hb0 : b = b0 := Option.some.inj g1
  subst hb0
  rw [List.nil_append] at r2 r3
  refine ⟨b, r1, r2, ?_, ?_⟩
  · intro h a hl
    obtain ⟨q1, q2, q3⟩ := r3 h a hl
    refine ⟨q1, q2, q3, ?_⟩
    rw [r2 h q1 q2, q3]
    simp
  · intro state
    obtain ⟨b', u1, _, u3, _, _, _, _, u8, _⟩ :=
      UpdateClientConnState_spec b state ginv (by rw [gfac]; exact hfresh)
    refine ⟨b', u1, u3, ?_⟩
    intro a h hl ha
    obtain ⟨w1, w2, w3, w4⟩ := u8 a h hl ha
    refine ⟨w1, w2, w3, w4, ?_⟩
    rw [droppedByUpdate_append ops [Op.resolve state] _ b h r1, Bool.or_eq_true]
    right
    have hstep : step b (Op.resolve state) = some b' := by simp [step, u1]
    simp only [droppedByUpdate, hstep, Bool.or_false, decide_eq_true_eq]
    exact (mem_dropped_snd _ _ _).mpr
      ⟨a, hl, fun hx => ha ((mem_newAddrsOf state a).mp hx)⟩

/-- C7 amended, at the scenario of a processed shutdown, read at handle 100: no update
dropped it, its most recent notification is Ready, a Shutdown notification came
before, and it is not a key of `readySCs`. -/
theorem usable_set_follows_notifications_witness :
    wellDelivered (newRoutingBalancer countingConn) processedShutdownScenario = true ∧
    lastNotified processedShutdownScenario 100 = some ConnectivityState.Ready ∧
    ∃ b, run (newRoutingBalancer countingConn) processedShutdownScenario = some b ∧
      (100 ∈ b.readySCs ↔
        lastNotified processedShutdownScenario 100 = some ConnectivityState.Ready
          ∧ shutdownNotified processedShutdownScenario 100 = false) :=
  ⟨by decide, by decide,
    (usable_set_follows_notifications countingConn processedShutdownScenario
      countingConn_fresh (by decide)).imp
      (fun _ hb => ⟨hb.1, hb.2.1 100 (by decide) (by decide)⟩)⟩

end Bone
